import Mathlib

/-!
# Data-Dashboard: identifier matching

A shallow embedding of the fuzzy sample matcher of `src/main.js` and
`src/data-import.js` (`normalizeID`, `similarityScore`, `levenshteinDistance`,
`findBestMatch`, `findSampleIDColumns`, `matchSamplesForFile`,
`matchImportSamples`) and theorems about it.

Conventions.
* A JavaScript string is the list of its UTF-16 code units (`JSString`);
  `.length` is the length of that list and `===` on strings is equality of lists.
* A JavaScript number that holds a score is an exact rational (`ℚ`): the
  arithmetic of `similarityScore` is carried out without rounding.
-/

set_option autoImplicit false

namespace DataDashboard

/-! ## Strings -/

/-- A JavaScript string, as the list of its UTF-16 code units. -/
abbrev JSString := List Nat

/-- The UTF-16 code units of one Unicode character. -/
def codeUnits (c : Char) : List Nat :=
  if c.toNat < 0x10000 then [c.toNat]
  else [0xD800 + (c.toNat - 0x10000) / 0x400, 0xDC00 + (c.toNat - 0x10000) % 0x400]

/-- The JavaScript string written as the literal `s`. -/
def js (s : String) : JSString := s.toList.flatMap codeUnits

/-- The characters matched by `\s` in a regular expression, which are also the
characters removed by `String.prototype.trim` (white space and line terminators). -/
def isWhiteSpace (c : Nat) : Bool :=
  c == 0x09 || c == 0x0A || c == 0x0B || c == 0x0C || c == 0x0D || c == 0x20 ||
  c == 0xA0 || c == 0x1680 || (0x2000 ≤ c && c ≤ 0x200A) || c == 0x2028 ||
  c == 0x2029 || c == 0x202F || c == 0x205F || c == 0x3000 || c == 0xFEFF

/-- The characters of the class `[a-z0-9]`. -/
def isLowerAlnum (c : Nat) : Bool :=
  (0x61 ≤ c && c ≤ 0x7A) || (0x30 ≤ c && c ≤ 0x39)

/-- The characters of the class `[-_\s]`. -/
def isSeparator (c : Nat) : Bool :=
  c == 0x2D || c == 0x5F || isWhiteSpace c

/-- The lower-case mapping of one code unit. `A`-`Z` go to `a`-`z`; the Kelvin
sign U+212A goes to `k` and U+0130 to `i` followed by U+0307, the only two
characters outside ASCII whose lower case contains an ASCII character. Every
other code unit outside ASCII is mapped by the Unicode tables to code units
outside ASCII and is kept as it is here. -/
def lowerUnit (c : Nat) : List Nat :=
  if 0x41 ≤ c ∧ c ≤ 0x5A then [c + 0x20]
  else if c = 0x212A then [0x6B]
  else if c = 0x0130 then [0x69, 0x0307]
  else [c]

/-- `String.prototype.toLowerCase`. -/
def toLowerCase (s : JSString) : JSString := s.flatMap lowerUnit

/-- `String.prototype.trim`: drops white space from both ends. -/
def trim (s : JSString) : JSString :=
  ((s.dropWhile isWhiteSpace).reverse.dropWhile isWhiteSpace).reverse

/-- `s.replace(/[-_\s]/g, '')`. -/
def removeSeparators (s : JSString) : JSString := s.filter (fun c => !isSeparator c)

/-- `s.replace(/[^a-z0-9]/g, '')`. -/
def removeNonAlnum (s : JSString) : JSString := s.filter isLowerAlnum

/-- `normalizeID` of `src/main.js` (and, identically, of `src/data-import.js`):
`id.toLowerCase().replace(/[-_\s]/g, '').replace(/[^a-z0-9]/g, '')`. -/
def normalizeID (id : JSString) : JSString :=
  removeNonAlnum (removeSeparators (toLowerCase id))

/-! ## The similarity scorer -/

/-- `s.includes(sub)`: `sub` occurs in `s` as a contiguous substring. -/
def includes (s sub : JSString) : Bool := decide (sub <:+: s)

/-- The assignment `a[j] = v` on an array, for `j ≤ a.length`: it overwrites
the element at `j`, or appends `v` when `j = a.length`. -/
def assign {β : Type} (a : List β) (j : Nat) (v : β) : List β :=
  if j < a.length then a.set j v else a ++ [v]

/-- The read `matrix[i][j]`. -/
def cell (matrix : List (List Nat)) (i j : Nat) : Nat := (matrix.getD i []).getD j 0

/-- The assignment `matrix[i][j] = v`. -/
def setCell (matrix : List (List Nat)) (i j v : Nat) : List (List Nat) :=
  matrix.set i (assign (matrix.getD i []) j v)

/-- The body of the inner loop of `levenshteinDistance`, for the indices `i`, `j`. -/
def levenshteinCell (str1 str2 : JSString) (i : Nat) (matrix : List (List Nat)) (j : Nat) :
    List (List Nat) :=
  if str2.get? (i - 1) = str1.get? (j - 1) then
    setCell matrix i j (cell matrix (i - 1) (j - 1))
  else
    setCell matrix i j
      (min (cell matrix (i - 1) (j - 1) + 1)
        (min (cell matrix i (j - 1) + 1) (cell matrix (i - 1) j + 1)))

/-- The body of the outer loop of `levenshteinDistance`:
`for (let j = 1; j <= str1.length; j++) ...`. -/
def levenshteinRow (str1 str2 : JSString) (matrix : List (List Nat)) (i : Nat) :
    List (List Nat) :=
  (List.range' 1 str1.length).foldl (levenshteinCell str1 str2 i) matrix

/-- The matrix of `levenshteinDistance` after its two initialisation loops:
`for (let i = 0; i <= str2.length; i++) matrix[i] = [i];`
`for (let j = 0; j <= str1.length; j++) matrix[0][j] = j;`. -/
def levenshteinInit (str1 str2 : JSString) : List (List Nat) :=
  (List.range (str1.length + 1)).foldl (fun m j => setCell m 0 j j)
    ((List.range (str2.length + 1)).foldl (fun m i => assign m i [i]) [])

/-- `levenshteinDistance` of `src/main.js` (and of `src/data-import.js`): the
matrix is filled row by row and `matrix[str2.length][str1.length]` is returned. -/
def levenshteinDistance (str1 str2 : JSString) : Nat :=
  cell ((List.range' 1 str2.length).foldl (levenshteinRow str1 str2) (levenshteinInit str1 str2))
    str2.length str1.length

/-- `similarityScore` of `src/main.js` (and of `src/data-import.js`), in exact
rational arithmetic. -/
def similarityScore (str1 str2 : JSString) : ℚ :=
  if str1 = str2 then 1
  else
    let longer := if str1.length > str2.length then str1 else str2
    let shorter := if str1.length > str2.length then str2 else str1
    if longer.length = 0 then 1
    else if includes longer shorter then
      0.8 + ((shorter.length : ℚ) / (longer.length : ℚ)) * 0.2
    else
      let distance := levenshteinDistance str1 str2
      max 0 (1 - (distance : ℚ) / (longer.length : ℚ))

/-! ## Edit distance: the specification side -/

/-- One unit-cost edit of a string: the insertion, the deletion or the
substitution of a single character, at any position. -/
inductive SingleEdit : JSString → JSString → Prop
  | insert (p s : JSString) (c : Nat) : SingleEdit (p ++ s) (p ++ c :: s)
  | delete (p s : JSString) (c : Nat) : SingleEdit (p ++ c :: s) (p ++ s)
  | substitute (p s : JSString) (c d : Nat) : SingleEdit (p ++ c :: s) (p ++ d :: s)

/-- `EditsInto n a b`: a sequence of `n` single edits turns `a` into `b`. -/
inductive EditsInto : Nat → JSString → JSString → Prop
  | done (a : JSString) : EditsInto 0 a a
  | step {n : Nat} {a b c : JSString} : SingleEdit a b → EditsInto n b c → EditsInto (n + 1) a c

/-- The textbook recurrence of the edit distance, on the heads of two lists.
It is used to reason about the matrix of `levenshteinDistance`. -/
def lev : JSString → JSString → Nat
  | [], b => b.length
  | x :: a, [] => (x :: a).length
  | x :: a, y :: b =>
    if x = y then lev a b
    else min (lev a b + 1) (min (lev (x :: a) b + 1) (lev a (y :: b) + 1))
termination_by a b => a.length + b.length

/-- One edit, given by recursion on the position of the edit. -/
inductive HeadEdit : JSString → JSString → Prop
  | insert (s : JSString) (c : Nat) : HeadEdit s (c :: s)
  | delete (s : JSString) (c : Nat) : HeadEdit (c :: s) s
  | substitute (s : JSString) (c d : Nat) : HeadEdit (c :: s) (d :: s)
  | cons (c : Nat) {a b : JSString} : HeadEdit a b → HeadEdit (c :: a) (c :: b)

/-- The value that `matrix[i][j]` is meant to hold: the distance between the
first `i` characters of `str2` and the first `j` characters of `str1`. -/
def prefixDistance (str1 str2 : JSString) (i j : Nat) : Nat :=
  lev (str2.take i).reverse (str1.take j).reverse

/-- The loop invariant of `levenshteinDistance`: the rows above `i` are
complete, row `i` is filled up to column `j`, and the rows below `i` still hold
their first cell only. -/
def MatrixInv (str1 str2 : JSString) (matrix : List (List Nat)) (i j : Nat) : Prop :=
  matrix.length = str2.length + 1 ∧
    ∀ k, k ≤ str2.length →
      matrix.getD k [] =
        if k < i then (List.range (str1.length + 1)).map (prefixDistance str1 str2 k)
        else if k = i then (List.range (j + 1)).map (prefixDistance str1 str2 i)
        else [k]

/-! ## Rows and the matcher -/

/-- The value of a cell of a row: absent (`undefined`), a string, or a number.
Only integer numbers are represented, of magnitude below `10^21`, for which
`String(n)` is the decimal notation. -/
inductive Value
  | undefined
  | str (s : JSString)
  | num (n : Int)
deriving DecidableEq

/-- A row: an object, as the list of its properties in the order of `Object.keys`. -/
abbrev Row := List (JSString × Value)

/-- The property read `row[col]`. -/
def Row.get (row : Row) (col : JSString) : Value :=
  match row.find? (fun p => decide (p.1 = col)) with
  | some p => p.2
  | none => Value.undefined

/-- The expression `v || ''`: the empty string when `v` is falsy. -/
def orEmptyString : Value → Value
  | Value.undefined => Value.str []
  | Value.str s => Value.str s
  | Value.num n => if n = 0 then Value.str [] else Value.num n

/-- The conversion `String(v)`. -/
def toJSString : Value → JSString
  | Value.undefined => js "undefined"
  | Value.str s => s
  | Value.num n => js (toString n)

/-- The expression `String(row[col] || '').trim()`. -/
def cellText (row : Row) (col : JSString) : JSString :=
  trim (toJSString (orEmptyString (row.get col)))

/-- The object `{ id: mainID, score: score }` of `findBestMatch`. -/
structure BestMatch where
  id : JSString
  score : ℚ
deriving DecidableEq

/-- The body of the `forEach` of `findBestMatch`, on the state
`(bestScore, bestMatch)`. -/
def findBestMatchStep (normalized : JSString) (st : ℚ × Option BestMatch) (row : Row) :
    ℚ × Option BestMatch :=
  let mainID := cellText row (js "Sample ID")
  if mainID = [] then st
  else
    let score := similarityScore normalized (normalizeID mainID)
    if score > st.1 then (score, some ⟨mainID, score⟩) else st

/-- `findBestMatch` of `src/main.js`; `none` is `null`. -/
def findBestMatch (icpID : JSString) (mainData : List Row) : Option BestMatch :=
  (mainData.foldl (findBestMatchStep (normalizeID icpID)) (0, none)).2

/-- `findBestSampleMatch` of `src/data-import.js`, the same code as `findBestMatch`. -/
def findBestSampleMatch (importID : JSString) (masterData : List Row) : Option BestMatch :=
  (masterData.foldl (findBestMatchStep (normalizeID importID)) (0, none)).2

/-- The keywords of `findSampleIDColumns`. -/
def sampleKeywords : List JSString := [js "sample", js "id", js "name", js "label"]

/-- The filter of `findSampleIDColumns`: the lower-cased header contains a keyword. -/
def isSampleIDColumn (col : JSString) : Bool :=
  sampleKeywords.any (fun keyword => includes (toLowerCase col) keyword)

/-- The element `columns[0]` used as a property key: the first column, or
`undefined`, which as a key names the property `"undefined"`. -/
def firstColumn (columns : List JSString) : JSString := columns.getD 0 (js "undefined")

/-- `findSampleIDColumns` of `src/main.js`. -/
def findSampleIDColumns (data : List Row) : List JSString :=
  match data with
  | [] => []
  | first :: _ =>
    let columns := first.map Prod.fst
    let candidates := columns.filter isSampleIDColumn
    if candidates.length > 0 then candidates else [firstColumn columns]

/-- A record pushed by `matchSamplesForFile`; `mainSample = none` is `undefined`. -/
structure Match where
  filename : JSString
  icpID : JSString
  mainID : JSString
  confidence : ℚ
  icpRowIndex : Nat
  mainSample : Option Row
deriving DecidableEq

/-- The expression `mainData.find(row => row['Sample ID'] === bestMatch.id)`:
strict equality of the stored value with the string `id`. -/
def findMainSample (mainData : List Row) (id : JSString) : Option Row :=
  mainData.find? (fun row => decide (row.get (js "Sample ID") = Value.str id))

/-- The loop `for (const col of icpSampleColumns)` of `matchSamplesForFile` for
one row: the record pushed for the row, if any. -/
def matchRow (mainData : List Row) (filename : JSString) (icpRow : Row) (index : Nat) :
    List JSString → Option Match
  | [] => none
  | col :: rest =>
    let icpID := cellText icpRow col
    if icpID = [] ∨ icpID.length < 2 then matchRow mainData filename icpRow index rest
    else
      match findBestMatch icpID mainData with
      | some bestMatch =>
        if bestMatch.score > 0.6 then
          some ⟨filename, icpID, bestMatch.id, bestMatch.score, index,
            findMainSample mainData bestMatch.id⟩
        else matchRow mainData filename icpRow index rest
      | none => matchRow mainData filename icpRow index rest

/-- The `forEach` of `matchSamplesForFile` over the rows from position `index` on. -/
def matchRows (mainData : List Row) (filename : JSString) (columns : List JSString) :
    Nat → List Row → List Match
  | _, [] => []
  | index, icpRow :: rest =>
    (matchRow mainData filename icpRow index columns).toList ++
      matchRows mainData filename columns (index + 1) rest

/-- `matchSamplesForFile` of `src/main.js`. -/
def matchSamplesForFile (icpData mainData : List Row) (filename : JSString) : List Match :=
  matchRows mainData filename (findSampleIDColumns icpData) 0 icpData

/-- A record pushed by `matchImportSamples`. -/
structure ImportMatch where
  importID : JSString
  masterID : JSString
  confidence : ℚ
  importRowIndex : Nat
  importRow : Row
deriving DecidableEq

/-- The search columns of `matchImportSamples`, from
`Object.keys(importData[0] || {})`. -/
def importSearchColumns (importData : List Row) : List JSString :=
  let importColumns := (importData.getD 0 []).map Prod.fst
  let idColumns := importColumns.filter (fun c =>
    includes (toLowerCase c) (js "sample") || includes (toLowerCase c) (js "id") ||
      includes (toLowerCase c) (js "name") || includes (toLowerCase c) (js "label"))
  if idColumns.length > 0 then idColumns else [firstColumn importColumns]

/-- The loop `for (const col of searchCols)` of `matchImportSamples` for one row. -/
def matchImportRow (masterData : List Row) (importRow : Row) (idx : Nat) :
    List JSString → Option ImportMatch
  | [] => none
  | col :: rest =>
    let importID := cellText importRow col
    if importID = [] ∨ importID.length < 2 then matchImportRow masterData importRow idx rest
    else
      match findBestSampleMatch importID masterData with
      | some bestMatch =>
        if bestMatch.score > 0.6 then
          some ⟨importID, bestMatch.id, bestMatch.score, idx, importRow⟩
        else matchImportRow masterData importRow idx rest
      | none => matchImportRow masterData importRow idx rest

/-- The `forEach` of `matchImportSamples` over the rows from position `idx` on. -/
def matchImportRows (masterData : List Row) (columns : List JSString) :
    Nat → List Row → List ImportMatch
  | _, [] => []
  | idx, importRow :: rest =>
    (matchImportRow masterData importRow idx columns).toList ++
      matchImportRows masterData columns (idx + 1) rest

/-- `matchImportSamples` of `src/data-import.js`: the list stored in
`importState.sampleMatches`, with `importState.masterData` as the argument
`masterData`. -/
def matchImportSamples (masterData importData : List Row) : List ImportMatch :=
  matchImportRows masterData (importSearchColumns importData) 0 importData

/-! ## Notions used to state the matcher theorems -/

/-- The identifier of a canonical row as `findBestMatch` reads it:
`String(row['Sample ID'] || '').trim()`. -/
def sampleID (row : Row) : JSString := cellText row (js "Sample ID")

/-- The score of a canonical row against the identifier `icpID`:
`similarityScore(normalizeID(icpID), normalizeID(mainID))`. -/
def rowScore (icpID : JSString) (row : Row) : ℚ :=
  similarityScore (normalizeID icpID) (normalizeID (sampleID row))

/-- The column `col` of the source row yields a match: its trimmed value has
length at least 2 and its best match `bestMatch` scores above 0.6. -/
def ColumnMatches (mainData : List Row) (icpRow : Row) (col : JSString)
    (bestMatch : BestMatch) : Prop :=
  2 ≤ (cellText icpRow col).length ∧
    findBestMatch (cellText icpRow col) mainData = some bestMatch ∧ bestMatch.score > 0.6

/-- The first candidate column whose trimmed value has length at least 2. -/
def firstUsableColumn (icpRow : Row) (columns : List JSString) : Option JSString :=
  columns.find? (fun col => decide (2 ≤ (cellText icpRow col).length))

/-- The reading of the matcher in which only the first usable column decides a
row: row `index` has a record if and only if that column yields a match. -/
def DecidedByFirstUsableColumn (icpData mainData : List Row) (filename : JSString)
    (index : Nat) (icpRow : Row) : Prop :=
  (∃ m ∈ matchSamplesForFile icpData mainData filename, m.icpRowIndex = index) ↔
    ∃ col bestMatch, firstUsableColumn icpRow (findSampleIDColumns icpData) = some col ∧
      ColumnMatches mainData icpRow col bestMatch

/-! ## Example data -/

/-- A canonical list with one record, `{'Sample ID': 'S001', 'Date': '2024'}`. -/
def canonicalS001 : List Row :=
  [[(js "Sample ID", Value.str (js "S001")), (js "Date", Value.str (js "2024"))]]

/-- The source rows `[{'SampleID': 'S-001'}, {'SampleID': 's001x'}]`. -/
def sourceTwoRows : List Row :=
  [[(js "SampleID", Value.str (js "S-001"))], [(js "SampleID", Value.str (js "s001x"))]]

/-- A source row with two candidate columns, `{'Sample': 'zzzz', 'Name': 'S001'}`. -/
def sourceTwoColumns : List Row :=
  [[(js "Sample", Value.str (js "zzzz")), (js "Name", Value.str (js "S001"))]]

/-- A canonical list whose identifiers are stored with surrounding white space
and as a number: `[{'Sample ID': ' S001 '}, {'Sample ID': 1001}]`. -/
def canonicalPadded : List Row :=
  [[(js "Sample ID", Value.str (js " S001 ")), (js "Date", Value.str (js "2024"))],
    [(js "Sample ID", Value.num 1001), (js "Date", Value.str (js "2025"))]]

/-- The source rows `[{'Sample': 'S001'}, {'Sample': 1001}]`. -/
def sourcePadded : List Row :=
  [[(js "Sample", Value.str (js "S001"))], [(js "Sample", Value.num 1001)]]

/-! ## Numbers of the calibration module -/

/-- A JavaScript number in exact arithmetic: `NaN`, an infinity (`inf true` is
`-Infinity`), or a rational. Zero is unsigned: a quotient by zero has the sign
of its numerator. -/
inductive JSNum
  | nan
  | inf (negative : Bool)
  | fin (q : ℚ)
deriving DecidableEq

/-- Unary minus. -/
def JSNum.neg : JSNum → JSNum
  | JSNum.nan => JSNum.nan
  | JSNum.inf s => JSNum.inf (!s)
  | JSNum.fin q => JSNum.fin (-q)

/-- The operator `+` on numbers. -/
def JSNum.add : JSNum → JSNum → JSNum
  | JSNum.nan, _ => JSNum.nan
  | _, JSNum.nan => JSNum.nan
  | JSNum.inf s, JSNum.inf t => if s = t then JSNum.inf s else JSNum.nan
  | JSNum.inf s, JSNum.fin _ => JSNum.inf s
  | JSNum.fin _, JSNum.inf t => JSNum.inf t
  | JSNum.fin a, JSNum.fin b => JSNum.fin (a + b)

/-- The operator `-` on numbers. -/
def JSNum.sub (a b : JSNum) : JSNum := JSNum.add a (JSNum.neg b)

/-- The operator `*` on numbers. -/
def JSNum.mul : JSNum → JSNum → JSNum
  | JSNum.nan, _ => JSNum.nan
  | _, JSNum.nan => JSNum.nan
  | JSNum.inf s, JSNum.inf t => JSNum.inf (xor s t)
  | JSNum.inf s, JSNum.fin b => if b = 0 then JSNum.nan else JSNum.inf (xor s (decide (b < 0)))
  | JSNum.fin a, JSNum.inf t => if a = 0 then JSNum.nan else JSNum.inf (xor (decide (a < 0)) t)
  | JSNum.fin a, JSNum.fin b => JSNum.fin (a * b)

/-- The operator `/` on numbers. -/
def JSNum.div : JSNum → JSNum → JSNum
  | JSNum.nan, _ => JSNum.nan
  | _, JSNum.nan => JSNum.nan
  | JSNum.inf _, JSNum.inf _ => JSNum.nan
  | JSNum.inf s, JSNum.fin b => JSNum.inf (xor s (decide (b < 0)))
  | JSNum.fin _, JSNum.inf _ => JSNum.fin 0
  | JSNum.fin a, JSNum.fin b =>
    if b = 0 then (if a = 0 then JSNum.nan else JSNum.inf (decide (a < 0)))
    else JSNum.fin (a / b)

instance : Add JSNum := ⟨JSNum.add⟩

instance : Sub JSNum := ⟨JSNum.sub⟩

instance : Mul JSNum := ⟨JSNum.mul⟩

instance : Div JSNum := ⟨JSNum.div⟩

/-- The number of a length or an index. -/
def JSNum.ofNat (n : Nat) : JSNum := JSNum.fin (n : ℚ)

/-- The rational value of a finite number, and `0` for `NaN` and the infinities. -/
def JSNum.toRat : JSNum → ℚ
  | JSNum.fin q => q
  | _ => 0

/-- The test `Number.isFinite`. -/
def JSNum.isFinite : JSNum → Bool
  | JSNum.fin _ => true
  | _ => false

/-- The global `isNaN` on a number. -/
def isNaN (x : JSNum) : Bool := decide (x = JSNum.nan)

/-! ## Binary64 arithmetic -/

/-- The power `2 ^ t` of an integer exponent, as a rational. -/
def twoPow (t : ℤ) : ℚ :=
  if 0 ≤ t then ((2 ^ t.toNat : ℕ) : ℚ) else 1 / ((2 ^ (-t).toNat : ℕ) : ℚ)

/-- The number of binary digits of `n`, found in at most `fuel` halvings. -/
def bitLengthAux : ℕ → ℕ → ℕ
  | 0, _ => 0
  | fuel + 1, n => if n = 0 then 0 else bitLengthAux fuel (n / 2) + 1

/-- The number of binary digits of `n`: the least `k` with `n < 2 ^ k`. -/
def bitLength (n : ℕ) : ℕ := bitLengthAux n n

/-- The exponent `e` of a positive rational `q`: `2 ^ e ≤ q < 2 ^ (e + 1)`. -/
def floorLog2 (q : ℚ) : ℤ :=
  let e0 : ℤ := (bitLength q.num.toNat : ℤ) - (bitLength q.den : ℤ)
  if q < twoPow e0 then e0 - 1 else e0

/-- The integer nearest to a rational, the even one of the two when it lies
half-way between them. -/
def roundHalfEven (m : ℚ) : ℤ :=
  let f : ℤ := m.num / (m.den : ℤ)
  let r : ℚ := m - (f : ℚ)
  if r < 1 / 2 then f else if 1 / 2 < r then f + 1 else if f % 2 = 0 then f else f + 1

/-- The binary64 number nearest to a positive rational, ties to even: 53
significant bits, least exponent `-1022` (below it the spacing stays
`2 ^ -1074`), and `Infinity` from `2 ^ 1024` on. -/
def roundPositive (q : ℚ) : JSNum :=
  let e := max (floorLog2 q) (-1022)
  let ulp := twoPow (e - 52)
  let value := (roundHalfEven (q / ulp) : ℚ) * ulp
  if twoPow 1024 ≤ value then JSNum.inf false else JSNum.fin value

/-- The Number value for a rational: the binary64 number nearest to it, ties
to even. Zero is unsigned. -/
def roundBinary64 (q : ℚ) : JSNum :=
  if q = 0 then JSNum.fin 0
  else if 0 < q then roundPositive q
  else JSNum.neg (roundPositive (-q))

/-- The rounding of the exact result of an operation to binary64; `NaN` and the
infinities are kept. -/
def JSNum.round : JSNum → JSNum
  | JSNum.fin q => roundBinary64 q
  | x => x

/-- The binary64 number nearest to a rational below the overflow threshold. -/
def binary64 (q : ℚ) : ℚ := (roundBinary64 q).toRat

/-- The operator `+` of the code: the exact sum rounded to binary64. -/
def add64 (a b : JSNum) : JSNum := (a + b).round

/-- The operator `-` of the code: the exact difference rounded to binary64. -/
def sub64 (a b : JSNum) : JSNum := (a - b).round

/-- The operator `*` of the code: the exact product rounded to binary64. -/
def mul64 (a b : JSNum) : JSNum := (a * b).round

/-- The operator `/` of the code: the exact quotient rounded to binary64. -/
def div64 (a b : JSNum) : JSNum := (a / b).round

/-! ## `parseFloat` -/

/-- A decimal digit. -/
def isDigit (c : Nat) : Bool := decide (0x30 ≤ c) && decide (c ≤ 0x39)

/-- The value of a string of decimal digits. -/
def digitsValue (ds : List Nat) : Nat := ds.foldl (fun acc d => 10 * acc + (d - 0x30)) 0

/-- One or more decimal digits at the start of `s`, as a number. -/
def parseDigits (s : JSString) : Option Nat :=
  if s.takeWhile isDigit = [] then none else some (digitsValue (s.takeWhile isDigit))

/-- An `ExponentPart` at the start of `s`: `e` or `E`, an optional sign, and one
or more digits. -/
def parseExponent (s : JSString) : Option Int :=
  match s with
  | c :: rest =>
    if c = 0x65 ∨ c = 0x45 then
      match rest with
      | d :: rest2 =>
        if d = 0x2B then (parseDigits rest2).map (fun n => (n : Int))
        else if d = 0x2D then (parseDigits rest2).map (fun n => -(n : Int))
        else (parseDigits (d :: rest2)).map (fun n => (n : Int))
      | [] => none
    else none
  | [] => none

/-- The value `q × 10^e`, with no exponent when `e` is absent. -/
def applyExponent (q : ℚ) (e : Option Int) : ℚ :=
  match e with
  | none => q
  | some (Int.ofNat n) => q * 10 ^ n
  | some (Int.negSucc n) => q / 10 ^ (n + 1)

/-- The longest `StrUnsignedDecimalLiteral` other than `Infinity` at the start
of `s`, as its exact value: `digits`, `digits.`, `digits.digits` or `.digits`,
each with an optional exponent. -/
def parseUnsignedDecimal (s : JSString) : Option ℚ :=
  let intDigits := s.takeWhile isDigit
  let afterInt := s.dropWhile isDigit
  match afterInt with
  | 0x2E :: afterDot =>
    let fracDigits := afterDot.takeWhile isDigit
    let afterFrac := afterDot.dropWhile isDigit
    if intDigits = [] ∧ fracDigits = [] then none
    else
      some (applyExponent
        ((digitsValue (intDigits ++ fracDigits) : ℚ) / 10 ^ fracDigits.length)
        (parseExponent afterFrac))
  | _ =>
    if intDigits = [] then none
    else some (applyExponent (digitsValue intDigits : ℚ) (parseExponent afterInt))

/-- The function `parseFloat` on a string: leading white space is skipped, then
the longest prefix that is a decimal literal is read, and its value is rounded
to binary64; `NaN` when there is none. -/
def parseFloatString (s : JSString) : JSNum :=
  let t := s.dropWhile isWhiteSpace
  let negative := decide (t.head? = some 0x2D)
  let body := if t.head? = some 0x2D ∨ t.head? = some 0x2B then t.tail else t
  if js "Infinity" <+: body then JSNum.inf negative
  else
    match parseUnsignedDecimal body with
    | none => JSNum.nan
    | some q => roundBinary64 (if negative then -q else q)

/-! ## Standards rows and calibration points -/

/-- The value of a cell of a standards row: absent, a text, or a number. -/
inductive Cell
  | undefined
  | text (s : JSString)
  | number (x : JSNum)
deriving DecidableEq

/-- A row of the standards table, as the list of its properties in the order of
`Object.keys`. -/
abbrev StandardRow := List (JSString × Cell)

/-- The property read `row[col]` on a standards row. -/
def cellAt (row : StandardRow) (col : JSString) : Cell :=
  match row.find? (fun p => decide (p.1 = col)) with
  | some p => p.2
  | none => Cell.undefined

/-- Truthiness of a cell value. -/
def Cell.truthy : Cell → Bool
  | Cell.undefined => false
  | Cell.text s => !s.isEmpty
  | Cell.number x => decide (x ≠ JSNum.nan ∧ x ≠ JSNum.fin 0)

/-- The call `parseFloat(v)` on a cell value: a number is returned as it is (its
decimal notation reads back as the same number), a text is parsed, and
`undefined` gives `NaN`. -/
def parseFloat : Cell → JSNum
  | Cell.undefined => JSNum.nan
  | Cell.text s => parseFloatString s
  | Cell.number x => x

/-- A calibration point, `{ index, label, concentration, intensity, excluded }`. -/
structure CalibrationPoint where
  index : Nat
  label : Cell
  concentration : JSNum
  intensity : JSNum
  excluded : Bool
deriving DecidableEq

/-- Lower case of an ASCII letter: the case folding of a regular expression
with the flag `i` on the ASCII letters of a pattern. -/
def asciiLower (c : Nat) : Nat := if 0x41 ≤ c ∧ c ≤ 0x5A then c + 0x20 else c

/-- The rest of `s` after the lower-case word `word`, read at the start of `s`
without regard to case. -/
def dropWordIgnoreCase : JSString → JSString → Option JSString
  | [], s => some s
  | _ :: _, [] => none
  | w :: ws, c :: cs => if asciiLower c = w then dropWordIgnoreCase ws cs else none

/-- The rest of `s` after `word(suffix)?` read at the start of `s`. -/
def dropWordAndSuffix (word suffix s : JSString) : Option JSString :=
  match dropWordIgnoreCase word s with
  | none => none
  | some r =>
    match dropWordIgnoreCase suffix r with
    | some r2 => some r2
    | none => some r

/-- The rest of `s` after a match of `[_\s]?word(suffix)?` at the start of `s`. -/
def matchStripAt (word suffix s : JSString) : Option JSString :=
  match s with
  | c :: t =>
    if c = 0x5F ∨ isWhiteSpace c = true then
      match dropWordAndSuffix word suffix t with
      | some r => some r
      | none => dropWordAndSuffix word suffix s
    else dropWordAndSuffix word suffix s
  | [] => dropWordAndSuffix word suffix []

/-- The call `s.replace(/[_\s]?word(suffix)?/i, '')`: the leftmost match is
removed. -/
def stripFirst (word suffix : JSString) : JSString → JSString
  | [] => []
  | c :: t =>
    match matchStripAt word suffix (c :: t) with
    | some r => r
    | none => c :: stripFirst word suffix t

/-- The base name of an intensity column:
`intensityCol.replace(/[_\s]?inten(sity)?/i, '').replace(/[_\s]?cps/i, '').replace(/[_\s]?intensity/i, '').trim()`. -/
def baseNameOf (intensityCol : JSString) : JSString :=
  trim (stripFirst (js "intensity") []
    (stripFirst (js "cps") [] (stripFirst (js "inten") (js "sity") intensityCol)))

/-- The test `lower.includes('ppm') || lower.includes('ppb') || lower.includes('conc')`. -/
def hasConc (lower : JSString) : Bool :=
  includes lower (js "ppm") || includes lower (js "ppb") || includes lower (js "conc")

/-- The first test of `extractCalibrationPoints`: a concentration indicator and
the base name, which must not be empty. -/
def matchesBaseName (baseName c : JSString) : Bool :=
  hasConc (toLowerCase c) &&
    (!(toLowerCase baseName).isEmpty && includes (toLowerCase c) (toLowerCase baseName))

/-- The match of `/^([A-Z][a-z]?)/` on the intensity column. -/
def leadingElement (intensityCol : JSString) : Option JSString :=
  match intensityCol with
  | c :: rest =>
    if 0x41 ≤ c ∧ c ≤ 0x5A then
      match rest with
      | d :: _ => if 0x61 ≤ d ∧ d ≤ 0x7A then some [c, d] else some [c]
      | [] => some [c]
    else none
  | [] => none

/-- The second test of `extractCalibrationPoints`: the element, a concentration
indicator, and neither `inten` nor `cps`. -/
def matchesElement (element c : JSString) : Bool :=
  includes (toLowerCase c) (toLowerCase element) && hasConc (toLowerCase c) &&
    !includes (toLowerCase c) (js "inten") && !includes (toLowerCase c) (js "cps")

/-- The test `!concCol` on the result of `find`. -/
def isMissing (concCol : Option JSString) : Bool :=
  match concCol with
  | none => true
  | some c => c.isEmpty

/-- The concentration column that `extractCalibrationPoints` resolves for an
intensity column, among the columns `columns`; `none` when the function returns
the empty list. -/
def findConcentrationColumn (columns : List JSString) (intensityCol : JSString) :
    Option JSString :=
  let first := columns.find? (matchesBaseName (baseNameOf intensityCol))
  let concCol :=
    if isMissing first then
      match leadingElement intensityCol with
      | some element => columns.find? (matchesElement element)
      | none => first
    else first
  if isMissing concCol then none else concCol

/-- The label of a point:
`row._standardLabel || row[columns[0]] || 'Point ' + (idx + 1)`. -/
def pointLabel (columns : List JSString) (row : StandardRow) (idx : Nat) : Cell :=
  if (cellAt row (js "_standardLabel")).truthy then cellAt row (js "_standardLabel")
  else if (cellAt row (firstColumn columns)).truthy then cellAt row (firstColumn columns)
  else Cell.text (js "Point " ++ js (toString (idx + 1)))

/-- The `forEach` of `extractCalibrationPoints` over the rows from position
`idx` on. -/
def extractRows (columns : List JSString) (concCol intensityCol : JSString) :
    Nat → List StandardRow → List CalibrationPoint
  | _, [] => []
  | idx, row :: rest =>
    let label := pointLabel columns row idx
    let conc := parseFloat (cellAt row concCol)
    let intensity := parseFloat (cellAt row intensityCol)
    if !isNaN conc && !isNaN intensity then
      ⟨idx, label, conc, intensity, false⟩ ::
        extractRows columns concCol intensityCol (idx + 1) rest
    else extractRows columns concCol intensityCol (idx + 1) rest

/-- The columns `Object.keys(calibrationState.standardsData[0] || {})`. -/
def standardsColumns (standardsData : List StandardRow) : List JSString :=
  (standardsData.getD 0 []).map Prod.fst

/-- `extractCalibrationPoints` of `src/calibration-advanced.js`, with
`calibrationState.standardsData` as the argument `standardsData`. -/
def extractCalibrationPoints (standardsData : List StandardRow) (intensityCol : JSString) :
    List CalibrationPoint :=
  match findConcentrationColumn (standardsColumns standardsData) intensityCol with
  | none => []
  | some concCol =>
    extractRows (standardsColumns standardsData) concCol intensityCol 0 standardsData

/-! ## The regression engine -/

/-- The object returned by `calculateRegression`. -/
structure Regression where
  slope : JSNum
  intercept : JSNum
  rSquared : JSNum
  rmse : JSNum
  nPoints : Nat
  predicted : List JSNum
  residuals : List JSNum
deriving DecidableEq

/-- The call `Math.pow(x, 2)`. -/
def JSNum.pow2 (x : JSNum) : JSNum := x * x

/-- `calculateRegression` of `src/calibration-advanced.js`, in exact arithmetic.
The function `Math.sqrt`, which has no exact rational value in general, is the
argument `sqrt`. -/
def calculateRegression (sqrt : JSNum → JSNum) (points : List CalibrationPoint) : Regression :=
  let n := JSNum.ofNat points.length
  let sumX := points.foldl (fun sum p => sum + p.intensity) (JSNum.fin 0)
  let sumY := points.foldl (fun sum p => sum + p.concentration) (JSNum.fin 0)
  let sumXY := points.foldl (fun sum p => sum + p.intensity * p.concentration) (JSNum.fin 0)
  let sumXX := points.foldl (fun sum p => sum + p.intensity * p.intensity) (JSNum.fin 0)
  let slope := (n * sumXY - sumX * sumY) / (n * sumXX - sumX * sumX)
  let intercept := (sumY - slope * sumX) / n
  let predicted := points.map (fun p => slope * p.intensity + intercept)
  let residuals := List.zipWith (fun p pr => p.concentration - pr) points predicted
  let meanConc := sumY / n
  let ssTotal :=
    points.foldl (fun sum p => sum + JSNum.pow2 (p.concentration - meanConc)) (JSNum.fin 0)
  let ssResidual := residuals.foldl (fun sum r => sum + r * r) (JSNum.fin 0)
  let rSquared := JSNum.fin 1 - ssResidual / ssTotal
  let rmse := sqrt (ssResidual / n)
  ⟨slope, intercept, rSquared, rmse, points.length, predicted, residuals⟩

/-- The two failures that the specification names for the regression engine. -/
inductive CalibrationError
  | insufficientPoints
  | fitDegenerate
deriving DecidableEq

/-- The outcome of a call of `calculateRegression`: the function has no `throw`
statement and every operation in it is defined on all numbers, so each call
returns its object. -/
def calculateRegressionOutcome (sqrt : JSNum → JSNum) (points : List CalibrationPoint) :
    Except CalibrationError Regression :=
  Except.ok (calculateRegression sqrt points)

/-- A square root for the examples: exact on the squares of rationals, and the
quotient of the integer square roots of numerator and denominator elsewhere. -/
def sqrtOnSquares : JSNum → JSNum
  | JSNum.nan => JSNum.nan
  | JSNum.inf s => if s then JSNum.nan else JSNum.inf false
  | JSNum.fin q =>
    if q < 0 then JSNum.nan
    else JSNum.fin ((Nat.sqrt q.num.toNat : ℚ) / (Nat.sqrt q.den : ℚ))

/-! ## The calibration state -/

/-- The object stored in `calibrationState.calibrations[analyte]` by
`displaySingleCalibration`. -/
structure Calibration where
  points : List CalibrationPoint
  regression : Regression
  intensityCol : JSString
deriving DecidableEq

/-- The global `calibrationState`. The two objects keyed by analyte are
functions of the key; a `Set` of indices is the list of its elements in
insertion order; `none` is `null` or `undefined`. -/
structure CalibrationState where
  currentRun : Option JSString
  standardsData : Option (List StandardRow)
  calibrations : JSString → Option Calibration
  excludedStandards : JSString → Option (List Nat)
  currentAnalyte : Option JSString
  currentIntensityCol : Option JSString

/-- The loop of `displaySingleCalibration` that applies the exclusions:
`if (excludedStandards[analyte]) point.excluded = excludedStandards[analyte].has(point.index)`. -/
def applyExclusions (excluded : Option (List Nat)) (points : List CalibrationPoint) :
    List CalibrationPoint :=
  points.map (fun point =>
    match excluded with
    | some set => { point with excluded := decide (point.index ∈ set) }
    | none => point)

/-- `displaySingleCalibration` of `src/calibration-advanced.js`, as a function
of the state; the updates of the page are left out. When no standards are
loaded the call throws at `standardsData[0]`, after its two assignments. -/
def displaySingleCalibration (sqrt : JSNum → JSNum) (s : CalibrationState)
    (analyte intensityCol : JSString) : CalibrationState :=
  let s1 := { s with currentAnalyte := some analyte, currentIntensityCol := some intensityCol }
  match s1.standardsData with
  | none => s1
  | some standardsData =>
    let extracted := extractCalibrationPoints standardsData intensityCol
    if extracted.length < 2 then s1
    else
      let points := applyExclusions (s1.excludedStandards analyte) extracted
      let activePoints := points.filter (fun p => !p.excluded)
      if activePoints.length < 2 then s1
      else
        let regression := calculateRegression sqrt activePoints
        { s1 with
          calibrations := fun a =>
            if a = analyte then some ⟨points, regression, intensityCol⟩ else s1.calibrations a }

/-- The update of the `Set` in `toggleStandard`: `delete` when the index is
present, `add` otherwise. -/
def toggleIndex (set : List Nat) (index : Nat) : List Nat :=
  if index ∈ set then set.filter (fun j => decide (j ≠ index)) else set ++ [index]

/-- `window.toggleStandard` of `src/calibration-advanced.js`. -/
def toggleStandard (sqrt : JSNum → JSNum) (s : CalibrationState) (analyte : JSString)
    (index : Nat) : CalibrationState :=
  let set := (s.excludedStandards analyte).getD []
  let s1 := { s with
    excludedStandards := fun a =>
      if a = analyte then some (toggleIndex set index) else s.excludedStandards a }
  match s1.currentIntensityCol with
  | some col => if col.isEmpty then s1 else displaySingleCalibration sqrt s1 analyte col
  | none => s1

/-! ## Notions used to state the extraction theorems -/

/-- The column `c` is the first column, in column order, that satisfies `P`. -/
def IsFirstColumn (P : JSString → Prop) (columns : List JSString) (c : JSString) : Prop :=
  ∃ pre post, columns = pre ++ c :: post ∧ P c ∧ ∀ x ∈ pre, ¬ P x

/-- A standards table in which one concentration is the text `Infinity`. -/
def standardsWithInfinity : List StandardRow :=
  [[(js "Label", Cell.text (js "A")), (js "Ba ppm", Cell.text (js "Infinity")),
      (js "Ba Intensity", Cell.number (JSNum.fin 1000))],
    [(js "Label", Cell.text (js "B")), (js "Ba ppm", Cell.number (JSNum.fin 5)),
      (js "Ba Intensity", Cell.number (JSNum.fin 500))]]

/-- A standards table with three standards: intensities 1, 2, 3 and
concentrations 1, 3, 4. -/
def threeStandards : List StandardRow :=
  [[(js "Label", Cell.text (js "A")), (js "Ba ppm", Cell.number (JSNum.fin 1)),
      (js "Ba Intensity", Cell.number (JSNum.fin 1))],
    [(js "Label", Cell.text (js "B")), (js "Ba ppm", Cell.number (JSNum.fin 3)),
      (js "Ba Intensity", Cell.number (JSNum.fin 2))],
    [(js "Label", Cell.text (js "C")), (js "Ba ppm", Cell.number (JSNum.fin 4)),
      (js "Ba Intensity", Cell.number (JSNum.fin 3))]]

/-! ## Notions used to state the regression theorems -/

/-- The intensity of a point as a rational (`x`). -/
def xOf (p : CalibrationPoint) : ℚ := p.intensity.toRat

/-- The concentration of a point as a rational (`y`). -/
def yOf (p : CalibrationPoint) : ℚ := p.concentration.toRat

/-- The sum of `f` over the points. -/
def sumOver (points : List CalibrationPoint) (f : CalibrationPoint → ℚ) : ℚ :=
  (points.map f).sum

/-- The sum of squared residuals of the line `y = m x + c` on the points. -/
def residualSumOfSquares (m c : ℚ) (points : List CalibrationPoint) : ℚ :=
  sumOver points (fun p => (yOf p - (m * xOf p + c)) ^ 2)

/-- The denominator of the slope, `n Σx² − (Σx)²`. -/
def olsDenominator (points : List CalibrationPoint) : ℚ :=
  (points.length : ℚ) * sumOver points (fun p => xOf p * xOf p) -
    sumOver points xOf * sumOver points xOf

/-- The slope of the least-squares line, `(n Σxy − Σx Σy) / (n Σx² − (Σx)²)`. -/
def olsSlope (points : List CalibrationPoint) : ℚ :=
  ((points.length : ℚ) * sumOver points (fun p => xOf p * yOf p) -
    sumOver points xOf * sumOver points yOf) / olsDenominator points

/-- The intercept of the least-squares line, `(Σy − slope Σx) / n`. -/
def olsIntercept (points : List CalibrationPoint) : ℚ :=
  (sumOver points yOf - olsSlope points * sumOver points xOf) / (points.length : ℚ)

/-- The total sum of squares, `Σ (y − Σy / n)²`. -/
def totalSumOfSquares (points : List CalibrationPoint) : ℚ :=
  sumOver points (fun p => (yOf p - sumOver points yOf / (points.length : ℚ)) ^ 2)

/-- Every point has a finite intensity and a finite concentration. -/
def AllFinite (points : List CalibrationPoint) : Prop :=
  ∀ p ∈ points, p.intensity.isFinite = true ∧ p.concentration.isFinite = true

/-- The points do not all have the same intensity. -/
def IntensitiesDiffer (points : List CalibrationPoint) : Prop :=
  ∃ p ∈ points, ∃ q ∈ points, p.intensity ≠ q.intensity

/-- The points built from a list of pairs `(intensity, concentration)`, with
their positions as indices. -/
def pointsOf (pairs : List (ℚ × ℚ)) : List CalibrationPoint :=
  pairs.enum.map (fun ip =>
    ⟨ip.1, Cell.undefined, JSNum.fin ip.2.2, JSNum.fin ip.2.1, false⟩)

/-- The points do not all have the same concentration. -/
def ConcentrationsDiffer (points : List CalibrationPoint) : Prop :=
  ∃ p ∈ points, ∃ q ∈ points, p.concentration ≠ q.concentration

/-- The four points `(1,3), (2,5), (3,7), (4,9)` of the line `y = 2x + 1`. -/
def linePoints : List CalibrationPoint := pointsOf [(1, 3), (2, 5), (3, 7), (4, 9)]

/-- The three standards of intensity 1000, 500, 100 and concentration 10, 5, 1. -/
def standardPoints : List CalibrationPoint := pointsOf [(1000, 10), (500, 5), (100, 1)]

/-- Two points with the same intensity 5 and the concentrations 1 and 2. -/
def sameIntensityPoints : List CalibrationPoint := pointsOf [(5, 1), (5, 2)]

/-! ## Notions used to state the state-manager theorems -/

/-- The extracted points whose index is not in the exclusion set of the analyte
(no point is excluded when the analyte has no set). -/
def includedPoints (excluded : Option (List Nat)) (extracted : List CalibrationPoint) :
    List CalibrationPoint :=
  extracted.filter (fun p => decide (p.index ∉ excluded.getD []))

/-- The calibration that `displaySingleCalibration` stores for the column `col`
and the exclusion set `excluded` on the standards `data`. -/
def storedCalibration (sqrt : JSNum → JSNum) (data : List StandardRow)
    (excluded : Option (List Nat)) (col : JSString) : Calibration :=
  ⟨applyExclusions excluded (extractCalibrationPoints data col),
    calculateRegression sqrt (includedPoints excluded (extractCalibrationPoints data col)), col⟩

/-- The cached calibration of the analyte is the one that
`displaySingleCalibration` stores for the selected column and the current
exclusion set, whenever a column is selected. -/
def CacheInSync (sqrt : JSNum → JSNum) (s : CalibrationState) (analyte : JSString) : Prop :=
  ∀ col, s.currentIntensityCol = some col → col ≠ js "" →
    ∃ data, s.standardsData = some data ∧
      2 ≤ (includedPoints (s.excludedStandards analyte)
        (extractCalibrationPoints data col)).length ∧
      s.calibrations analyte =
        some (storedCalibration sqrt data (s.excludedStandards analyte) col)

/-- The points list `after` has the length and the order of `before`, each
point keeps its index, label, concentration and intensity, and only the points
of index `index` may have a different `excluded` flag. -/
def OnlyToggledFlagDiffers (before after : List CalibrationPoint) (index : Nat) : Prop :=
  before.length = after.length ∧
    ∀ pq ∈ before.zip after,
      pq.1.index = pq.2.index ∧ pq.1.label = pq.2.label ∧
        pq.1.concentration = pq.2.concentration ∧ pq.1.intensity = pq.2.intensity ∧
        (pq.1.excluded ≠ pq.2.excluded → pq.1.index = index)

/-- The points list cached for the analyte, empty when there is no cache. -/
def cachedPoints (s : CalibrationState) (analyte : JSString) : List CalibrationPoint :=
  ((s.calibrations analyte).map (fun cal => cal.points)).getD []

/-- The state after a run with the three standards is loaded. -/
def loadedState : CalibrationState :=
  ⟨some (js "run.xlsx"), some threeStandards, fun _ => none, fun _ => none, none, none⟩

/-- The state after the column `Ba Intensity` is displayed for `Ba`. -/
def displayedState : CalibrationState :=
  displaySingleCalibration sqrtOnSquares loadedState (js "Ba") (js "Ba Intensity")

/-- The state after standard 0 is excluded and the exclusion of standard 1 is
then refused for want of two included points: the exclusion set is `{0, 1}` while
the cache is still the one computed for `{0}`. -/
def staleState : CalibrationState :=
  toggleStandard sqrtOnSquares (toggleStandard sqrtOnSquares displayedState (js "Ba") 0)
    (js "Ba") 1

/-- The state after the update of the `Set` in `toggleStandard`, before the
recalculation. -/
def withToggled (s : CalibrationState) (analyte : JSString) (index : Nat) : CalibrationState :=
  { s with
    excludedStandards := fun a =>
      if a = analyte then some (toggleIndex ((s.excludedStandards analyte).getD []) index)
      else s.excludedStandards a }

/-! ## The channel comparison and the analyte display -/

/-- The operator `<=` on numbers: false when an operand is `NaN`. -/
def JSNum.le : JSNum → JSNum → Bool
  | JSNum.nan, _ => false
  | _, JSNum.nan => false
  | JSNum.inf true, _ => true
  | JSNum.inf false, JSNum.inf false => true
  | JSNum.inf false, _ => false
  | JSNum.fin _, JSNum.inf s => !s
  | JSNum.fin a, JSNum.fin b => decide (a ≤ b)

/-- The operator `===` on two numbers: false when an operand is `NaN`. -/
def JSNum.strictEq (a b : JSNum) : Bool :=
  decide (a ≠ JSNum.nan) && decide (a = b)

/-- The larger of two numbers, `NaN` when one of them is `NaN`. -/
def JSNum.max2 (a b : JSNum) : JSNum :=
  if a = JSNum.nan ∨ b = JSNum.nan then JSNum.nan else if JSNum.le a b then b else a

/-- The call `Math.max(...values)`: `-Infinity` on no value, `NaN` when a value
is `NaN`. -/
def mathMax (values : List JSNum) : JSNum := values.foldl JSNum.max2 (JSNum.inf true)

/-- The first match of `/(\d{3})/`: the first three consecutive digits. -/
def firstThreeDigits : JSString → Option JSString
  | a :: b :: c :: rest =>
    if isDigit a && isDigit b && isDigit c then some [a, b, c]
    else firstThreeDigits (b :: c :: rest)
  | _ => none

/-- The wavelength label of a column: `match[1] + ' nm'`, or `'Unknown'`. -/
def wavelengthOf (col : JSString) : JSString :=
  match firstThreeDigits col with
  | some digits => digits ++ js " nm"
  | none => js "Unknown"

/-- The view label of a column, from `Ax`, `ax`, `R`, `_r_` and ` R `. -/
def viewOf (col : JSString) : JSString :=
  if includes col (js "Ax") || includes col (js "ax") then js "Axial"
  else if includes col (js "R") || includes col (js "_r_") || includes col (js " R ") then
    js "Radial"
  else js "Unknown"

/-- An entry of `comparisons` in `displayWavelengthComparison`:
`{ column, wavelength, view, regression, points }`. -/
structure ComparisonEntry where
  column : JSString
  wavelength : JSString
  view : JSString
  regression : Regression
  points : List CalibrationPoint
deriving DecidableEq

/-- The body of the `forEach` of `displayWavelengthComparison` for one column:
the entry pushed, if the column has at least 2 points. -/
def comparisonEntry (sqrt : JSNum → JSNum) (data : List StandardRow) (col : JSString) :
    Option ComparisonEntry :=
  let points := extractCalibrationPoints data col
  if points.length ≥ 2 then
    some ⟨col, wavelengthOf col, viewOf col, calculateRegression sqrt points, points⟩
  else none

/-- The list `comparisons` built by `displayWavelengthComparison`, which it
hands to `displayComparisonTable` and to the plot. When no standards are loaded
the call throws at `standardsData[0]` before any entry is pushed. -/
def displayWavelengthComparison (sqrt : JSNum → JSNum) (s : CalibrationState)
    (analyte : JSString) (intensityCols : List JSString) : List ComparisonEntry :=
  match s.standardsData, analyte with
  | none, _ => []
  | some data, _ => intensityCols.filterMap (comparisonEntry sqrt data)

/-- The quality label of `displayComparisonTable`. -/
def qualityOf (r2 : JSNum) : JSString :=
  if JSNum.le (JSNum.fin 0.9995) r2 then js "Excellent"
  else if JSNum.le (JSNum.fin 0.999) r2 then js "Very Good"
  else if JSNum.le (JSNum.fin 0.995) r2 then js "Good"
  else if JSNum.le (JSNum.fin 0.99) r2 then js "Acceptable"
  else js "Poor"

/-- A row of the table of `displayComparisonTable`: the entry, its quality
label, and whether it is highlighted and offered as `Use Best`. -/
structure ComparisonRow where
  entry : ComparisonEntry
  quality : JSString
  recommended : Bool
deriving DecidableEq

/-- The rows rendered by `displayComparisonTable`, in its second definition in
the file, which is the one in force:
`recommended = r2 === Math.max(...comparisons.map(c => c.regression.rSquared))`. -/
def displayComparisonTable (comparisons : List ComparisonEntry) : List ComparisonRow :=
  comparisons.map (fun comp =>
    ⟨comp, qualityOf comp.regression.rSquared,
      JSNum.strictEq comp.regression.rSquared
        (mathMax (comparisons.map (fun c => c.regression.rSquared)))⟩)

/-- The filter of `displayAnalyteCalibration` for the intensity columns of an
analyte: the lower-cased name contains the lower-cased analyte and `inten`,
`cps` or three consecutive digits. -/
def isIntensityColumnOf (analyte c : JSString) : Bool :=
  includes (toLowerCase c) (toLowerCase analyte) &&
    (includes (toLowerCase c) (js "inten") || includes (toLowerCase c) (js "cps") ||
      (firstThreeDigits c).isSome)

/-- The loop of `displayAnalyteCalibration` that marks the excluded points:
`point.excluded = excludedStandards[analyte]?.has(point.index) || false`. -/
def markExcluded (excluded : Option (List Nat)) (points : List CalibrationPoint) :
    List CalibrationPoint :=
  points.map (fun point =>
    { point with
      excluded :=
        match excluded with
        | some set => decide (point.index ∈ set)
        | none => false })

/-- What a call of `displayAnalyteCalibration` does: the state it leaves, the
comparison it shows, the arguments of its calls of `calculateRegression`, and
whether an error was thrown inside its `try` block and caught. -/
structure AnalyteDisplay where
  state : CalibrationState
  comparison : Option (List ComparisonEntry)
  regressionCalls : List (List CalibrationPoint)
  caughtError : Bool

/-- `displayAnalyteCalibration` of `src/calibration-advanced.js`. With one
intensity column and at least 2 points it calls `calculateRegression` on the
points that are not excluded and then evaluates
`{ points, regression, columns: { concCol, intensityCol, labelCol } }`, where
`labelCol` is not declared in the function or globally: a `ReferenceError` is
thrown before the assignment to `calibrations[analyte]` and is caught by the
`catch` block. The column `concCol` found for the log is left out. -/
def displayAnalyteCalibration (sqrt : JSNum → JSNum) (s : CalibrationState)
    (analyte : JSString) : AnalyteDisplay :=
  match s.standardsData with
  | none => ⟨s, none, [], false⟩
  | some data =>
    if analyte.isEmpty then ⟨s, none, [], false⟩
    else
      let columns := standardsColumns data
      let intensityCols := columns.filter (isIntensityColumnOf analyte)
      if intensityCols.length = 0 then ⟨s, none, [], false⟩
      else if intensityCols.length > 1 then
        ⟨s, some (displayWavelengthComparison sqrt s analyte intensityCols),
          (displayWavelengthComparison sqrt s analyte intensityCols).map (fun c => c.points),
          false⟩
      else
        let intensityCol := firstColumn intensityCols
        let extracted := extractCalibrationPoints data intensityCol
        if extracted.length = 0 then ⟨s, none, [], false⟩
        else
          let points := markExcluded (s.excludedStandards analyte) extracted
          if points.length < 2 then ⟨s, none, [], false⟩
          else
            let activePoints := points.filter (fun p => !p.excluded)
            ⟨s, none, [activePoints], true⟩

/-- The assignments at the end of a successful `loadRunCalibration(filename)`,
where `foundStandards` is the list of standards that the function has read from
the workbook of the run (the reading itself is outside the model). The function
returns before them when the file name is empty or no standards are found. -/
def loadRunCalibration (s : CalibrationState) (filename : JSString)
    (foundStandards : List StandardRow) : CalibrationState :=
  if filename.isEmpty then s
  else if foundStandards.length = 0 then s
  else
    { s with
      currentRun := some filename
      standardsData := some foundStandards
      calibrations := fun _ => none
      excludedStandards := fun _ => none }

/-! ## Example data of the state manager -/

/-- Three standards with one concentration column and two channels; the third
standard has no numeric intensity in the second channel. -/
def twoChannelStandards : List StandardRow :=
  [[(js "Label", Cell.text (js "A")), (js "Ba ppm", Cell.number (JSNum.fin 1)),
      (js "Ba 233 Intensity", Cell.number (JSNum.fin 1)),
      (js "Ba 455 Intensity", Cell.number (JSNum.fin 10))],
    [(js "Label", Cell.text (js "B")), (js "Ba ppm", Cell.number (JSNum.fin 2)),
      (js "Ba 233 Intensity", Cell.number (JSNum.fin 2)),
      (js "Ba 455 Intensity", Cell.number (JSNum.fin 20))],
    [(js "Label", Cell.text (js "C")), (js "Ba ppm", Cell.number (JSNum.fin 3)),
      (js "Ba 233 Intensity", Cell.number (JSNum.fin 4)),
      (js "Ba 455 Intensity", Cell.text (js "n/a"))]]

/-- The state after a run with the two-channel standards is loaded. -/
def twoChannelState : CalibrationState :=
  ⟨some (js "run.xlsx"), some twoChannelStandards, fun _ => none, fun _ => none, none, none⟩

/-- The state after the first channel is displayed, standard 2 is excluded, and
the second channel is displayed. -/
def switchedChannelState : CalibrationState :=
  displaySingleCalibration sqrtOnSquares
    (toggleStandard sqrtOnSquares
      (displaySingleCalibration sqrtOnSquares twoChannelState (js "Ba")
        (js "Ba 233 Intensity"))
      (js "Ba") 2)
    (js "Ba") (js "Ba 455 Intensity")

/-- Three standards with the two analytes `Ba` and `Sr`. -/
def twoAnalyteStandards : List StandardRow :=
  [[(js "Label", Cell.text (js "A")), (js "Ba ppm", Cell.number (JSNum.fin 1)),
      (js "Ba Intensity", Cell.number (JSNum.fin 1)),
      (js "Sr ppm", Cell.number (JSNum.fin 1)),
      (js "Sr Intensity", Cell.number (JSNum.fin 10))],
    [(js "Label", Cell.text (js "B")), (js "Ba ppm", Cell.number (JSNum.fin 3)),
      (js "Ba Intensity", Cell.number (JSNum.fin 2)),
      (js "Sr ppm", Cell.number (JSNum.fin 2)),
      (js "Sr Intensity", Cell.number (JSNum.fin 20))],
    [(js "Label", Cell.text (js "C")), (js "Ba ppm", Cell.number (JSNum.fin 4)),
      (js "Ba Intensity", Cell.number (JSNum.fin 3)),
      (js "Sr ppm", Cell.number (JSNum.fin 3)),
      (js "Sr Intensity", Cell.number (JSNum.fin 30))]]

/-- The state after `Ba Intensity` is displayed for `Ba` and then
`Sr Intensity` for `Sr`. -/
def twoAnalyteState : CalibrationState :=
  displaySingleCalibration sqrtOnSquares
    (displaySingleCalibration sqrtOnSquares
      ⟨some (js "run.xlsx"), some twoAnalyteStandards, fun _ => none, fun _ => none, none,
        none⟩
      (js "Ba") (js "Ba Intensity"))
    (js "Sr") (js "Sr Intensity")

/-- The columns of a standards table with silicon and sulfur concentrations
and a sulfur intensity. -/
def sulfurColumns : List JSString :=
  [js "Label", js "Si ppm", js "S ppm", js "S 180 CPS"]

/-- The state `displayedState` with standard 0 excluded for `Ba`. -/
def excludedState : CalibrationState :=
  toggleStandard sqrtOnSquares displayedState (js "Ba") 0

/-- Every excluded index of the analyte is the index of a point of its cached
points list. -/
def ExcludedWithinPoints (s : CalibrationState) (analyte : JSString) : Prop :=
  ∀ i ∈ (s.excludedStandards analyte).getD [], ∃ p ∈ cachedPoints s analyte, p.index = i

/-- Each number of the list is `>=` the next one. -/
def isDescending : List JSNum → Bool
  | a :: b :: rest => JSNum.le b a && isDescending (b :: rest)
  | _ => true

/-- The rows are in descending order of R², and the recommended row is the
first one. -/
def RankedWithBestFirst (rows : List ComparisonRow) : Prop :=
  isDescending (rows.map (fun r => r.entry.regression.rSquared)) = true ∧
    ∀ ir ∈ rows.enum, (ir.2.recommended = true ↔ ir.1 = 0)

/-! ## The similarity score in binary64 -/

/-- `similarityScore` of `src/main.js` (and of `src/data-import.js`) as the
code computes it: the literals `0.8` and `0.2` are binary64 numbers and each
operation rounds its exact result to binary64. The lengths and the distance are
integers, and every value is between 0 and 1, far from the overflow threshold. -/
def similarityScoreBinary64 (str1 str2 : JSString) : ℚ :=
  if str1 = str2 then 1
  else
    let longer := if str1.length > str2.length then str1 else str2
    let shorter := if str1.length > str2.length then str2 else str1
    if longer.length = 0 then 1
    else if includes longer shorter then
      binary64 (binary64 0.8 +
        binary64 (binary64 ((shorter.length : ℚ) / (longer.length : ℚ)) * binary64 0.2))
    else
      let distance := levenshteinDistance str1 str2
      max 0 (binary64 (1 - binary64 ((distance : ℚ) / (longer.length : ℚ))))

/-- The body of the `forEach` of `findBestMatch`, on the state
`(bestScore, bestMatch)`, with the binary64 score. -/
def findBestMatchStepBinary64 (normalized : JSString) (st : ℚ × Option BestMatch)
    (row : Row) : ℚ × Option BestMatch :=
  let mainID := cellText row (js "Sample ID")
  if mainID = [] then st
  else
    let score := similarityScoreBinary64 normalized (normalizeID mainID)
    if score > st.1 then (score, some ⟨mainID, score⟩) else st

/-- `findBestMatch` of `src/main.js` with the binary64 score; `none` is `null`. -/
def findBestMatchBinary64 (icpID : JSString) (mainData : List Row) : Option BestMatch :=
  (mainData.foldl (findBestMatchStepBinary64 (normalizeID icpID)) (0, none)).2

/-- `findBestSampleMatch` of `src/data-import.js` with the binary64 score, the
same code as `findBestMatch`. -/
def findBestSampleMatchBinary64 (importID : JSString) (masterData : List Row) :
    Option BestMatch :=
  (masterData.foldl (findBestMatchStepBinary64 (normalizeID importID)) (0, none)).2

/-- The binary64 score of a canonical row against the identifier `icpID`:
`similarityScore(normalizeID(icpID), normalizeID(mainID))`. -/
def rowScoreBinary64 (icpID : JSString) (row : Row) : ℚ :=
  similarityScoreBinary64 (normalizeID icpID) (normalizeID (sampleID row))

/-- The canonical list `[{'Sample ID': 'abcdefghx'}, {'Sample ID': 'abcd'}]`. -/
def canonicalNearTie : List Row :=
  [[(js "Sample ID", Value.str (js "abcdefghx"))], [(js "Sample ID", Value.str (js "abcd"))]]

/-- The canonical list `[{'Sample ID': 'abcdefghx'}, {'Sample ID': ''},
{'Sample ID': 'abcdefghy'}]`. -/
def canonicalTies : List Row :=
  [[(js "Sample ID", Value.str (js "abcdefghx"))], [(js "Sample ID", Value.str (js ""))],
    [(js "Sample ID", Value.str (js "abcdefghy"))]]

/-! ## The regression engine in binary64 -/

/-- `calculateRegression` of `src/calibration-advanced.js` as the code computes
it: each operation rounds its exact result to binary64. `Math.pow(x, 2)` is the
rounded square, and `Math.sqrt` is the argument `sqrt`. -/
def calculateRegressionBinary64 (sqrt : JSNum → JSNum) (points : List CalibrationPoint) :
    Regression :=
  let n := JSNum.ofNat points.length
  let sumX := points.foldl (fun sum p => add64 sum p.intensity) (JSNum.fin 0)
  let sumY := points.foldl (fun sum p => add64 sum p.concentration) (JSNum.fin 0)
  let sumXY :=
    points.foldl (fun sum p => add64 sum (mul64 p.intensity p.concentration)) (JSNum.fin 0)
  let sumXX :=
    points.foldl (fun sum p => add64 sum (mul64 p.intensity p.intensity)) (JSNum.fin 0)
  let slope :=
    div64 (sub64 (mul64 n sumXY) (mul64 sumX sumY)) (sub64 (mul64 n sumXX) (mul64 sumX sumX))
  let intercept := div64 (sub64 sumY (mul64 slope sumX)) n
  let predicted := points.map (fun p => add64 (mul64 slope p.intensity) intercept)
  let residuals := List.zipWith (fun p pr => sub64 p.concentration pr) points predicted
  let meanConc := div64 sumY n
  let ssTotal :=
    points.foldl
      (fun sum p =>
        add64 sum (mul64 (sub64 p.concentration meanConc) (sub64 p.concentration meanConc)))
      (JSNum.fin 0)
  let ssResidual := residuals.foldl (fun sum r => add64 sum (mul64 r r)) (JSNum.fin 0)
  let rSquared := sub64 (JSNum.fin 1) (div64 ssResidual ssTotal)
  let rmse := sqrt (div64 ssResidual n)
  ⟨slope, intercept, rSquared, rmse, points.length, predicted, residuals⟩

/-- Three points of the line `y = 3x + 1` with intensities near `3e7`. -/
def largeLinePoints : List CalibrationPoint :=
  pointsOf [(30000000, 90000001), (30000001, 90000004), (30000002, 90000007)]

/-- Three points with the same intensity, the binary64 number nearest to 0.3,
and the concentrations 10, 5 and 1. -/
def threeTenthsPoints : List CalibrationPoint :=
  pointsOf [(binary64 0.3, 10), (binary64 0.3, 5), (binary64 0.3, 1)]

/-- Three points with the intensities `1e8`, `1e8 + 1` and `1e8 + 2`. -/
def hundredMillionPoints : List CalibrationPoint :=
  pointsOf [(100000000, 1), (100000001, 2), (100000002, 3)]

/-- The values `sum + f x` that a `reduce` from `sum` takes over the elements
in turn, in exact arithmetic. -/
def partialSums {α : Type} (f : α → JSNum) : JSNum → List α → List JSNum
  | _, [] => []
  | sum, x :: rest => (sum + f x) :: partialSums f (sum + f x) rest

/-- The exact result of every operation that `calculateRegression` performs to
compute the four sums and the numerator and the denominator of the slope. -/
def sumSteps (points : List CalibrationPoint) : List JSNum :=
  let n := JSNum.ofNat points.length
  let sumX := points.foldl (fun sum p => sum + p.intensity) (JSNum.fin 0)
  let sumY := points.foldl (fun sum p => sum + p.concentration) (JSNum.fin 0)
  let sumXY := points.foldl (fun sum p => sum + p.intensity * p.concentration) (JSNum.fin 0)
  let sumXX := points.foldl (fun sum p => sum + p.intensity * p.intensity) (JSNum.fin 0)
  partialSums (fun p => p.intensity) (JSNum.fin 0) points ++
    partialSums (fun p => p.concentration) (JSNum.fin 0) points ++
    points.map (fun p => p.intensity * p.concentration) ++
    partialSums (fun p => p.intensity * p.concentration) (JSNum.fin 0) points ++
    points.map (fun p => p.intensity * p.intensity) ++
    partialSums (fun p => p.intensity * p.intensity) (JSNum.fin 0) points ++
    [n * sumXY, sumX * sumY, n * sumXY - sumX * sumY, n * sumXX, sumX * sumX,
      n * sumXX - sumX * sumX]

/-- The exact result of every operation that `calculateRegression` performs to
compute the slope and the intercept: those of `sumSteps`, the quotient that is
the slope, and the three operations of the intercept. -/
def lineSteps (points : List CalibrationPoint) : List JSNum :=
  let n := JSNum.ofNat points.length
  let sumX := points.foldl (fun sum p => sum + p.intensity) (JSNum.fin 0)
  let sumY := points.foldl (fun sum p => sum + p.concentration) (JSNum.fin 0)
  let sumXY := points.foldl (fun sum p => sum + p.intensity * p.concentration) (JSNum.fin 0)
  let sumXX := points.foldl (fun sum p => sum + p.intensity * p.intensity) (JSNum.fin 0)
  let slope := (n * sumXY - sumX * sumY) / (n * sumXX - sumX * sumX)
  sumSteps points ++
    [slope, slope * sumX, sumY - slope * sumX, (sumY - slope * sumX) / n]

/-- The exact result of every operation that `calculateRegression` performs
after the intercept: the predicted values, the residuals, the two sums of
squares, R² and the argument of `Math.sqrt`. -/
def qualitySteps (points : List CalibrationPoint) : List JSNum :=
  let n := JSNum.ofNat points.length
  let sumX := points.foldl (fun sum p => sum + p.intensity) (JSNum.fin 0)
  let sumY := points.foldl (fun sum p => sum + p.concentration) (JSNum.fin 0)
  let sumXY := points.foldl (fun sum p => sum + p.intensity * p.concentration) (JSNum.fin 0)
  let sumXX := points.foldl (fun sum p => sum + p.intensity * p.intensity) (JSNum.fin 0)
  let slope := (n * sumXY - sumX * sumY) / (n * sumXX - sumX * sumX)
  let intercept := (sumY - slope * sumX) / n
  let predicted := points.map (fun p => slope * p.intensity + intercept)
  let residuals := List.zipWith (fun p pr => p.concentration - pr) points predicted
  let meanConc := sumY / n
  let ssTotal :=
    points.foldl (fun sum p => sum + JSNum.pow2 (p.concentration - meanConc)) (JSNum.fin 0)
  let ssResidual := residuals.foldl (fun sum r => sum + r * r) (JSNum.fin 0)
  points.map (fun p => slope * p.intensity) ++ predicted ++
    points.map (fun p => p.concentration - (slope * p.intensity + intercept)) ++
    residuals.map (fun r => r * r) ++
    partialSums (fun r => r * r) (JSNum.fin 0) residuals ++
    [meanConc] ++
    points.map (fun p => p.concentration - meanConc) ++
    points.map (fun p => JSNum.pow2 (p.concentration - meanConc)) ++
    partialSums (fun p => JSNum.pow2 (p.concentration - meanConc)) (JSNum.fin 0) points ++
    [ssResidual / ssTotal, JSNum.fin 1 - ssResidual / ssTotal, ssResidual / n]

/-- No value of the list is changed by the rounding to binary64: each is a
binary64 number, an infinity or `NaN`. -/
def RoundingFree (steps : List JSNum) : Prop := ∀ v ∈ steps, v.round = v

/-- The outcome of a call of `calculateRegression`, in binary64: the function
has no `throw` statement and every operation in it is defined on all numbers, so
each call returns its object. -/
def calculateRegressionOutcomeBinary64 (sqrt : JSNum → JSNum)
    (points : List CalibrationPoint) : Except CalibrationError Regression :=
  Except.ok (calculateRegressionBinary64 sqrt points)

/-- The intensities and the concentrations of the points are integers of
absolute value at most `bound`. -/
def IntegerPoints (bound : ℕ) (points : List CalibrationPoint) : Prop :=
  ∀ p ∈ points, ∃ x y : ℤ, p.intensity = JSNum.fin (x : ℚ) ∧
    p.concentration = JSNum.fin (y : ℚ) ∧ |x| ≤ (bound : ℤ) ∧ |y| ≤ (bound : ℤ)

/-- The number is an integer of absolute value at most `bound`. -/
def IsIntegerUpTo (bound : ℕ) (v : JSNum) : Prop :=
  ∃ z : ℤ, v = JSNum.fin (z : ℚ) ∧ |z| ≤ (bound : ℤ)

/-! ## The concentration column, with `toLowerCase` as an argument -/

/-- The first test of `extractCalibrationPoints`, with
`String.prototype.toLowerCase` as the argument `lower`: a concentration
indicator and the base name, which must not be empty. -/
def matchesBaseNameWith (lower : JSString → JSString) (baseName c : JSString) : Bool :=
  hasConc (lower c) && (!(lower baseName).isEmpty && includes (lower c) (lower baseName))

/-- The second test of `extractCalibrationPoints`, with
`String.prototype.toLowerCase` as the argument `lower`: the element, a
concentration indicator, and neither `inten` nor `cps`. -/
def matchesElementWith (lower : JSString → JSString) (element c : JSString) : Bool :=
  includes (lower c) (lower element) && hasConc (lower c) &&
    !includes (lower c) (js "inten") && !includes (lower c) (js "cps")

/-- The concentration column that `extractCalibrationPoints` resolves for an
intensity column, among the columns `columns`, with
`String.prototype.toLowerCase` as the argument `lower`; `none` when the function
returns the empty list. -/
def findConcentrationColumnWith (lower : JSString → JSString) (columns : List JSString)
    (intensityCol : JSString) : Option JSString :=
  let first := columns.find? (matchesBaseNameWith lower (baseNameOf intensityCol))
  let concCol :=
    if isMissing first then
      match leadingElement intensityCol with
      | some element => columns.find? (matchesElementWith lower element)
      | none => first
    else first
  if isMissing concCol then none else concCol

/-- `extractCalibrationPoints` of `src/calibration-advanced.js`, with
`calibrationState.standardsData` as the argument `standardsData` and
`String.prototype.toLowerCase` as the argument `lower`. -/
def extractCalibrationPointsWith (lower : JSString → JSString)
    (standardsData : List StandardRow) (intensityCol : JSString) : List CalibrationPoint :=
  match findConcentrationColumnWith lower (standardsColumns standardsData) intensityCol with
  | none => []
  | some concCol =>
    extractRows (standardsColumns standardsData) concCol intensityCol 0 standardsData

/-- The name `name`, in lower case, contains `sub`. -/
def LowerCaseContains (lower : JSString → JSString) (name sub : JSString) : Prop :=
  sub <:+: lower name

/-- The name contains a concentration indicator, `ppm`, `ppb` or `conc`,
without regard to case. -/
def HasConcentrationIndicator (lower : JSString → JSString) (name : JSString) : Prop :=
  LowerCaseContains lower name (js "ppm") ∨ LowerCaseContains lower name (js "ppb") ∨
    LowerCaseContains lower name (js "conc")

/-- The first rule for the concentration column: a concentration indicator and
the non-empty base name of the intensity column, without regard to case. -/
def BaseNameRule (lower : JSString → JSString) (intensityCol c : JSString) : Prop :=
  HasConcentrationIndicator lower c ∧ baseNameOf intensityCol ≠ js "" ∧
    LowerCaseContains lower c (lower (baseNameOf intensityCol))

/-- The second rule for the concentration column: the leading element token of
the intensity column, without regard to case, a concentration indicator, and
neither `inten` nor `cps`. -/
def ElementRule (lower : JSString → JSString) (intensityCol c : JSString) : Prop :=
  ∃ element, leadingElement intensityCol = some element ∧
    LowerCaseContains lower c (lower element) ∧ HasConcentrationIndicator lower c ∧
    ¬ LowerCaseContains lower c (js "inten") ∧ ¬ LowerCaseContains lower c (js "cps")

/-- A standards table with no concentration column. -/
def standardsWithoutConcentration : List StandardRow :=
  [[(js "Label", Cell.text (js "A")), (js "Ba Intensity", Cell.number (JSNum.fin 1))],
    [(js "Label", Cell.text (js "B")), (js "Ba Intensity", Cell.number (JSNum.fin 2))]]

/-! # Theorems -/

/-! ## The normalizer -/

theorem isLowerAlnum_iff (c : Nat) :
    isLowerAlnum c = true ↔ (0x61 ≤ c ∧ c ≤ 0x7A) ∨ (0x30 ≤ c ∧ c ≤ 0x39) := by
  simp [isLowerAlnum]

theorem lowerUnit_of_alnum {c : Nat} (h : isLowerAlnum c = true) : lowerUnit c = [c] := by
  rw [isLowerAlnum_iff] at h
  unfold lowerUnit
  rw [if_neg (by omega), if_neg (by omega), if_neg (by omega)]

theorem not_isSeparator_of_alnum {c : Nat} (h : isLowerAlnum c = true) :
    isSeparator c = false := by
  rw [isLowerAlnum_iff] at h
  have h1 : c ≠ 0x2D := by omega
  have h2 : c ≠ 0x5F := by omega
  have h3 : isWhiteSpace c = false := by
    simp only [isWhiteSpace, Bool.or_eq_false_iff, beq_eq_false_iff_ne, Bool.and_eq_false_iff,
      decide_eq_false_iff_not]
    omega
  simp [isSeparator, h1, h2, h3]

theorem toLowerCase_of_alnum (s : JSString) (h : ∀ c ∈ s, isLowerAlnum c = true) :
    toLowerCase s = s := by
  induction s with
  | nil => rfl
  | cons c s ih =>
    have hc := lowerUnit_of_alnum (h c (List.mem_cons_self _ _))
    have hs := ih (fun d hd => h d (List.mem_cons_of_mem _ hd))
    simp only [toLowerCase, List.flatMap_cons] at hs ⊢
    rw [hc, hs]
    rfl

theorem normalizeID_of_alnum (s : JSString) (h : ∀ c ∈ s, isLowerAlnum c = true) :
    normalizeID s = s := by
  unfold normalizeID
  rw [toLowerCase_of_alnum s h]
  have h1 : removeSeparators s = s := by
    unfold removeSeparators
    rw [List.filter_eq_self]
    intro c hc
    simp [not_isSeparator_of_alnum (h c hc)]
  rw [h1]
  unfold removeNonAlnum
  rw [List.filter_eq_self]
  exact h

theorem normalizeID_mem_alnum (s : JSString) (c : Nat) (hc : c ∈ normalizeID s) :
    isLowerAlnum c = true := by
  unfold normalizeID removeNonAlnum at hc
  exact (List.mem_filter.mp hc).2

/-- C1: every character of `normalizeID s` lies in `[a-z0-9]`, `normalizeID` is
idempotent, and `normalizeID ""` is the empty string. -/
theorem normalizeID_alnum_idempotent (s : JSString) :
    (∀ c ∈ normalizeID s, (0x61 ≤ c ∧ c ≤ 0x7A) ∨ (0x30 ≤ c ∧ c ≤ 0x39)) ∧
      normalizeID (normalizeID s) = normalizeID s ∧ normalizeID (js "") = js "" :=
  ⟨fun c hc => (isLowerAlnum_iff c).mp (normalizeID_mem_alnum s c hc),
    normalizeID_of_alnum _ (normalizeID_mem_alnum s), rfl⟩

/-- An instance of C1: the character `s` of `normalizeID "S-001"` lies in `[a-z0-9]`. -/
theorem normalizeID_alnum_idempotent_witness :
    0x73 ∈ normalizeID (js "S-001") ∧ ((0x61 ≤ 0x73 ∧ 0x73 ≤ 0x7A) ∨ (0x30 ≤ 0x73 ∧ 0x73 ≤ 0x39)) :=
  ⟨by decide, (normalizeID_alnum_idempotent (js "S-001")).1 0x73 (by decide)⟩

/-! ## The edit distance -/

theorem lev_nil_left (b : JSString) : lev [] b = b.length := by
  rw [lev]

theorem lev_nil_right (a : JSString) : lev a [] = a.length := by
  cases a <;> simp [lev]

theorem lev_cons_cons (x y : Nat) (a b : JSString) :
    lev (x :: a) (y :: b) =
      if x = y then lev a b
      else min (lev a b + 1) (min (lev (x :: a) b + 1) (lev a (y :: b) + 1)) := by
  rw [lev]

theorem lev_comm (a b : JSString) : lev a b = lev b a := by
  induction a generalizing b with
  | nil => rw [lev_nil_left, lev_nil_right]
  | cons x a iha =>
    induction b with
    | nil => rw [lev_nil_left, lev_nil_right]
    | cons y b ihb =>
      rw [lev_cons_cons, lev_cons_cons, iha b, iha (y :: b), ihb]
      by_cases h : x = y
      · rw [if_pos h, if_pos h.symm]
      · rw [if_neg h, if_neg (Ne.symm h), min_comm (lev (y :: b) a + 1)]

/-- Dropping the head of the first string, or adding a head to it, changes the
distance by at most one. -/
theorem lev_cons_bounds_aux (n : Nat) : ∀ a b : JSString, a.length + b.length ≤ n →
    (∀ x, lev (x :: a) b ≤ lev a b + 1) ∧ (∀ x, lev a b ≤ lev (x :: a) b + 1) := by
  induction n with
  | zero =>
    intro a b h
    have ha : a = [] := List.length_eq_zero.mp (by omega)
    have hb : b = [] := List.length_eq_zero.mp (by omega)
    subst ha hb
    simp [lev_nil_right]
  | succ n ih =>
    intro a b h
    cases b with
    | nil => exact ⟨fun x => by simp [lev_nil_right], fun x => by simp [lev_nil_right]; omega⟩
    | cons y b =>
      have hlen : a.length + b.length ≤ n := by simp at h; omega
      have hU2 : lev a (y :: b) ≤ lev a b + 1 := by
        have := (ih b a (by omega)).1 y
        rwa [lev_comm (y :: b) a, lev_comm b a] at this
      have hL2 : lev a b ≤ lev a (y :: b) + 1 := by
        have := (ih b a (by omega)).2 y
        rwa [lev_comm (y :: b) a, lev_comm b a] at this
      refine ⟨fun x => ?_, fun x => ?_⟩
      · rw [lev_cons_cons x y]
        split
        · exact hL2
        · exact le_trans (min_le_right _ _) (le_trans (min_le_right _ _) le_rfl)
      · rw [lev_cons_cons x y]
        have hL1 := (ih a b hlen).2 x
        split
        · exact hU2
        · simp only [le_min_iff, Nat.min_def]
          split <;> split <;> omega

theorem lev_cons_le (x : Nat) (a b : JSString) : lev (x :: a) b ≤ lev a b + 1 :=
  (lev_cons_bounds_aux _ a b le_rfl).1 x

theorem lev_le_cons (x : Nat) (a b : JSString) : lev a b ≤ lev (x :: a) b + 1 :=
  (lev_cons_bounds_aux _ a b le_rfl).2 x

theorem lev_self (a : JSString) : lev a a = 0 := by
  induction a with
  | nil => rw [lev_nil_left]; rfl
  | cons x a ih => rw [lev_cons_cons, if_pos rfl, ih]

/-- The min form of the recurrence, valid also when the heads are equal. -/
theorem lev_cons_cons_le (x y : Nat) (a b : JSString) :
    lev (x :: a) (y :: b) ≤ lev a b + 1 := by
  rw [lev_cons_cons]
  split
  · omega
  · exact min_le_left _ _

theorem lev_cons_right_le (y : Nat) (a b : JSString) : lev a (y :: b) ≤ lev a b + 1 := by
  rw [lev_comm a (y :: b), lev_comm a b]
  exact lev_cons_le y b a

theorem lev_le_cons_right (y : Nat) (a b : JSString) : lev a b ≤ lev a (y :: b) + 1 := by
  rw [lev_comm a (y :: b), lev_comm a b]
  exact lev_le_cons y b a

/-- Replacing the head of the first string changes the distance by at most one. -/
theorem lev_subst_le (c d : Nat) (s b : JSString) : lev (c :: s) b ≤ lev (d :: s) b + 1 := by
  induction b with
  | nil => simp [lev_nil_right]
  | cons y b ih =>
    have h1 := lev_cons_cons_le c y s b
    have h2 := lev_cons_right_le y (c :: s) b
    have h3 := lev_cons_le c s (y :: b)
    rw [lev_cons_cons d y]
    by_cases hd : d = y
    · rw [if_pos hd]
      exact h1
    · rw [if_neg hd]
      simp only [Nat.min_def]
      split <;> split <;> omega

theorem headEdit_append_left (p : JSString) {a b : JSString} (h : HeadEdit a b) :
    HeadEdit (p ++ a) (p ++ b) := by
  induction p with
  | nil => exact h
  | cons c p ih => exact HeadEdit.cons c ih

theorem singleEdit_headEdit {a b : JSString} (h : SingleEdit a b) : HeadEdit a b := by
  cases h with
  | insert p s c => exact headEdit_append_left p (HeadEdit.insert s c)
  | delete p s c => exact headEdit_append_left p (HeadEdit.delete s c)
  | substitute p s c d => exact headEdit_append_left p (HeadEdit.substitute s c d)

theorem singleEdit_cons (x : Nat) {a b : JSString} (h : SingleEdit a b) :
    SingleEdit (x :: a) (x :: b) := by
  cases h with
  | insert p s c => exact SingleEdit.insert (x :: p) s c
  | delete p s c => exact SingleEdit.delete (x :: p) s c
  | substitute p s c d => exact SingleEdit.substitute (x :: p) s c d

theorem singleEdit_reverse {a b : JSString} (h : SingleEdit a b) :
    SingleEdit a.reverse b.reverse := by
  cases h with
  | insert p s c =>
    have := SingleEdit.insert s.reverse p.reverse c
    simpa using this
  | delete p s c =>
    have := SingleEdit.delete s.reverse p.reverse c
    simpa using this
  | substitute p s c d =>
    have := SingleEdit.substitute s.reverse p.reverse c d
    simpa using this

/-- One edit of the first string changes the distance by at most one. -/
theorem lev_le_of_headEdit {a a' : JSString} (h : HeadEdit a a') :
    ∀ b, lev a b ≤ lev a' b + 1 := by
  induction h with
  | insert s c => exact fun b => lev_le_cons c s b
  | delete s c => exact fun b => le_trans (lev_cons_le c s b) (by omega)
  | substitute s c d => exact fun b => lev_subst_le c d s b
  | @cons c a a' _ ih =>
    intro b
    induction b with
    | nil =>
      have := ih []
      simp only [lev_nil_right, List.length_cons] at this ⊢
      omega
    | cons y b ihb =>
      rw [lev_cons_cons, lev_cons_cons]
      have h1 := ih b
      have h2 := ih (y :: b)
      by_cases hc : c = y
      · rw [if_pos hc, if_pos hc]
        exact h1
      · rw [if_neg hc, if_neg hc]
        simp only [Nat.min_def]
        split <;> split <;> split <;> split <;> omega

theorem editsInto_lev_le {n : Nat} {a b : JSString} (h : EditsInto n a b) : lev a b ≤ n := by
  induction h with
  | done a => rw [lev_self]
  | step h1 _ ih => exact le_trans (lev_le_of_headEdit (singleEdit_headEdit h1) _) (by omega)

theorem editsInto_cons (x : Nat) {n : Nat} {a b : JSString} (h : EditsInto n a b) :
    EditsInto n (x :: a) (x :: b) := by
  induction h with
  | done a => exact EditsInto.done _
  | step h1 _ ih => exact EditsInto.step (singleEdit_cons x h1) ih

theorem editsInto_reverse {n : Nat} {a b : JSString} (h : EditsInto n a b) :
    EditsInto n a.reverse b.reverse := by
  induction h with
  | done a => exact EditsInto.done _
  | step h1 _ ih => exact EditsInto.step (singleEdit_reverse h1) ih

theorem editsInto_lev_aux (n : Nat) : ∀ a b : JSString, a.length + b.length ≤ n →
    EditsInto (lev a b) a b := by
  induction n with
  | zero =>
    intro a b h
    have ha : a = [] := List.length_eq_zero.mp (by omega)
    have hb : b = [] := List.length_eq_zero.mp (by omega)
    subst ha hb
    rw [lev_nil_left]
    exact EditsInto.done _
  | succ n ih =>
    intro a b h
    cases a with
    | nil =>
      cases b with
      | nil => rw [lev_nil_left]; exact EditsInto.done _
      | cons y b =>
        rw [lev_nil_left, List.length_cons]
        have := ih [] b (by simp at h ⊢; omega)
        rw [lev_nil_left] at this
        exact EditsInto.step (SingleEdit.insert [] [] y) (editsInto_cons y this)
    | cons x a =>
      cases b with
      | nil =>
        rw [lev_nil_right, List.length_cons]
        have := ih a [] (by simp at h ⊢; omega)
        rw [lev_nil_right] at this
        exact EditsInto.step (SingleEdit.delete [] a x) this
      | cons y b =>
        simp only [List.length_cons] at h
        rw [lev_cons_cons]
        split
        · next hxy =>
          subst hxy
          exact editsInto_cons x (ih a b (by omega))
        · rcases min_choice (lev a b + 1) (min (lev (x :: a) b + 1) (lev a (y :: b) + 1))
            with h1 | h1
          · rw [h1]
            exact EditsInto.step (SingleEdit.substitute [] a x y) (editsInto_cons y (ih a b (by omega)))
          · rw [h1]
            rcases min_choice (lev (x :: a) b + 1) (lev a (y :: b) + 1) with h2 | h2
            · rw [h2]
              exact EditsInto.step (SingleEdit.insert [] (x :: a) y)
                (editsInto_cons y (ih (x :: a) b (by simp; omega)))
            · rw [h2]
              exact EditsInto.step (SingleEdit.delete [] a x) (ih a (y :: b) (by simp; omega))

theorem editsInto_lev (a b : JSString) : EditsInto (lev a b) a b :=
  editsInto_lev_aux _ a b le_rfl

/-! ## The matrix of `levenshteinDistance` -/

theorem prefixDistance_zero_left (str1 str2 : JSString) (j : Nat) (hj : j ≤ str1.length) :
    prefixDistance str1 str2 0 j = j := by
  simp [prefixDistance, lev_nil_left, hj]

theorem prefixDistance_zero_right (str1 str2 : JSString) (i : Nat) (hi : i ≤ str2.length) :
    prefixDistance str1 str2 i 0 = i := by
  simp [prefixDistance, lev_nil_right, hi]

theorem reverse_take_succ (s : JSString) (i : Nat) (hi : i < s.length) :
    (s.take (i + 1)).reverse = s[i] :: (s.take i).reverse := by
  rw [List.take_succ, List.getElem?_eq_getElem hi]
  simp

theorem prefixDistance_succ (str1 str2 : JSString) (i j : Nat) (hi : i < str2.length)
    (hj : j < str1.length) :
    prefixDistance str1 str2 (i + 1) (j + 1) =
      if str2.get? i = str1.get? j then prefixDistance str1 str2 i j
      else min (prefixDistance str1 str2 i j + 1)
        (min (prefixDistance str1 str2 (i + 1) j + 1) (prefixDistance str1 str2 i (j + 1) + 1)) := by
  simp only [prefixDistance, reverse_take_succ str2 i hi, reverse_take_succ str1 j hj,
    lev_cons_cons, List.get?_eq_getElem?, List.getElem?_eq_getElem hi,
    List.getElem?_eq_getElem hj, Option.some.injEq]

theorem getD_set_row (m : List (List Nat)) (i k : Nat) (r : List Nat) (hi : i < m.length) :
    (m.set i r).getD k [] = if k = i then r else m.getD k [] := by
  simp only [List.getD_eq_getElem?_getD, List.getElem?_set, hi, if_true]
  by_cases h : i = k
  · subst h; simp
  · rw [if_neg h, if_neg (Ne.symm h)]

theorem getD_map_range (f : Nat → Nat) (n c : Nat) (hc : c < n) :
    ((List.range n).map f).getD c 0 = f c := by
  simp [List.getD_eq_getElem?_getD, List.getElem?_range hc]

theorem assign_map_range (f : Nat → Nat) (n : Nat) :
    assign ((List.range n).map f) n (f n) = (List.range (n + 1)).map f := by
  simp [assign, List.range_succ]

theorem matrixInv_cell_above {str1 str2 : JSString} {m : List (List Nat)} {i j : Nat}
    (h : MatrixInv str1 str2 m i j) (k c : Nat) (hk : k < i) (hk2 : k ≤ str2.length)
    (hc : c ≤ str1.length) : cell m k c = prefixDistance str1 str2 k c := by
  unfold cell
  rw [h.2 k hk2, if_pos hk, getD_map_range _ _ _ (by omega)]

theorem matrixInv_cell_row {str1 str2 : JSString} {m : List (List Nat)} {i j : Nat}
    (h : MatrixInv str1 str2 m i j) (c : Nat) (hi : i ≤ str2.length) (hc : c ≤ j) :
    cell m i c = prefixDistance str1 str2 i c := by
  unfold cell
  rw [h.2 i hi, if_neg (lt_irrefl i), if_pos rfl, getD_map_range _ _ _ (by omega)]

theorem matrixInv_after_setCell {str1 str2 : JSString} {m : List (List Nat)} {i j : Nat}
    (h : MatrixInv str1 str2 m i j) (hi : i ≤ str2.length) :
    MatrixInv str1 str2 (setCell m i (j + 1) (prefixDistance str1 str2 i (j + 1))) i (j + 1) := by
  have hlen : i < m.length := by rw [h.1]; omega
  refine ⟨by simp [setCell, h.1], fun k hk => ?_⟩
  unfold setCell
  rw [getD_set_row m i k _ hlen]
  by_cases hki : k = i
  · subst hki
    rw [if_pos rfl, if_neg (lt_irrefl k), if_pos rfl, h.2 k hk, if_neg (lt_irrefl k), if_pos rfl]
    exact assign_map_range _ _
  · rw [if_neg hki, h.2 k hk, if_neg hki, if_neg hki]

theorem matrixInv_after_cell {str1 str2 : JSString} {m : List (List Nat)} {i j : Nat}
    (h : MatrixInv str1 str2 m (i + 1) j) (hi : i < str2.length) (hj : j < str1.length) :
    MatrixInv str1 str2 (levenshteinCell str1 str2 (i + 1) m (j + 1)) (i + 1) (j + 1) := by
  have h1 : cell m i j = prefixDistance str1 str2 i j :=
    matrixInv_cell_above h i j (by omega) (by omega) (by omega)
  have h2 : cell m (i + 1) j = prefixDistance str1 str2 (i + 1) j :=
    matrixInv_cell_row h j (by omega) le_rfl
  have h3 : cell m i (j + 1) = prefixDistance str1 str2 i (j + 1) :=
    matrixInv_cell_above h i (j + 1) (by omega) (by omega) (by omega)
  have key := matrixInv_after_setCell h (by omega)
  rw [prefixDistance_succ str1 str2 i j hi hj] at key
  unfold levenshteinCell
  simp only [Nat.add_sub_cancel, h1, h2, h3]
  split
  · next hc => rwa [if_pos hc] at key
  · next hc => rwa [if_neg hc] at key

theorem matrixInv_after_cells {str1 str2 : JSString} {m : List (List Nat)} {i : Nat}
    (h : MatrixInv str1 str2 m (i + 1) 0) (hi : i < str2.length) (t : Nat)
    (ht : t ≤ str1.length) :
    MatrixInv str1 str2 ((List.range' 1 t).foldl (levenshteinCell str1 str2 (i + 1)) m)
      (i + 1) t := by
  induction t with
  | zero => simpa using h
  | succ t ih =>
    rw [List.range'_concat, List.foldl_append]
    have := matrixInv_after_cell (ih (by omega)) hi (by omega)
    simpa [Nat.add_comm] using this

theorem matrixInv_next_row {str1 str2 : JSString} {m : List (List Nat)} {i : Nat}
    (h : MatrixInv str1 str2 m i str1.length) (hi : i < str2.length) :
    MatrixInv str1 str2 m (i + 1) 0 := by
  refine ⟨h.1, fun k hk => ?_⟩
  rw [h.2 k hk]
  by_cases h1 : k < i
  · rw [if_pos h1, if_pos (by omega)]
  · rw [if_neg h1]
    by_cases h2 : k = i
    · rw [if_pos h2, if_pos (by omega), h2]
    · rw [if_neg h2, if_neg (by omega)]
      by_cases h3 : k = i + 1
      · rw [if_pos h3]
        subst h3
        simp [List.range_succ, prefixDistance_zero_right str1 str2 (i + 1) (by omega)]
      · rw [if_neg h3]

theorem matrixInv_after_row {str1 str2 : JSString} {m : List (List Nat)} {i : Nat}
    (h : MatrixInv str1 str2 m i str1.length) (hi : i < str2.length) :
    MatrixInv str1 str2 (levenshteinRow str1 str2 m (i + 1)) (i + 1) str1.length :=
  matrixInv_after_cells (matrixInv_next_row h hi) hi str1.length le_rfl

theorem foldl_assign_range {β : Type} (f : Nat → β) (n : Nat) :
    (List.range n).foldl (fun m i => assign m i (f i)) [] = (List.range n).map f := by
  induction n with
  | zero => rfl
  | succ n ih =>
    rw [List.range_succ, List.foldl_append, ih]
    simp [assign]

theorem foldl_setCell_zero (m : List (List Nat)) (hm : 0 < m.length) (t : Nat) :
    (List.range (t + 1)).foldl (fun m j => setCell m 0 j j) (m.set 0 [0]) =
      m.set 0 (List.range (t + 1)) := by
  induction t with
  | zero => simp [setCell, assign, hm, List.range_succ]
  | succ t ih =>
    rw [List.range_succ, List.foldl_append, ih]
    simp [setCell, assign, hm, List.range_succ]

theorem levenshteinInit_inv (str1 str2 : JSString) :
    MatrixInv str1 str2 (levenshteinInit str1 str2) 0 str1.length := by
  unfold levenshteinInit
  rw [foldl_assign_range (fun i => [i])]
  have h0 : (List.range (str2.length + 1)).map (fun i => [i]) =
      ((List.range (str2.length + 1)).map (fun i => [i])).set 0 [0] := by
    apply List.ext_getElem? ; intro k
    rw [List.getElem?_set]
    by_cases hk : 0 = k
    · subst hk; simp
    · rw [if_neg hk]
  rw [h0, foldl_setCell_zero _ (by simp)]
  refine ⟨by simp, fun k hk => ?_⟩
  rw [getD_set_row _ _ _ _ (by simp)]
  by_cases hk0 : k = 0
  · subst hk0
    rw [if_pos rfl, if_neg (lt_irrefl 0), if_pos rfl]
    apply List.ext_getElem? ; intro c
    by_cases hc : c < str1.length + 1
    · simp [List.getElem?_range hc, prefixDistance_zero_left str1 str2 c (by omega)]
    · simp [List.getElem?_eq_none (l := List.range (str1.length + 1)) (by simpa using hc)]
  · rw [if_neg hk0, if_neg (by omega), if_neg hk0]
    simp [List.getD_eq_getElem?_getD, List.getElem?_range (show k < str2.length + 1 by omega)]

theorem levenshteinRows_inv (str1 str2 : JSString) (t : Nat) (ht : t ≤ str2.length) :
    MatrixInv str1 str2
      ((List.range' 1 t).foldl (levenshteinRow str1 str2) (levenshteinInit str1 str2))
      t str1.length := by
  induction t with
  | zero => simpa using levenshteinInit_inv str1 str2
  | succ t ih =>
    rw [List.range'_concat, List.foldl_append]
    have := matrixInv_after_row (ih (by omega)) (by omega)
    simpa [Nat.add_comm] using this

/-- The matrix computes the recurrence: the value returned is the distance
between the reversed strings. -/
theorem levenshteinDistance_eq_lev (str1 str2 : JSString) :
    levenshteinDistance str1 str2 = lev str2.reverse str1.reverse := by
  unfold levenshteinDistance
  rw [matrixInv_cell_row (levenshteinRows_inv str1 str2 str2.length le_rfl) str1.length le_rfl le_rfl]
  simp [prefixDistance]

theorem levenshteinDistance_comm (a b : JSString) :
    levenshteinDistance a b = levenshteinDistance b a := by
  rw [levenshteinDistance_eq_lev, levenshteinDistance_eq_lev, lev_comm]

theorem levenshteinDistance_editsInto (a b : JSString) :
    EditsInto (levenshteinDistance a b) a b := by
  rw [levenshteinDistance_eq_lev, lev_comm]
  simpa using editsInto_reverse (editsInto_lev a.reverse b.reverse)

theorem levenshteinDistance_le_of_editsInto {n : Nat} {a b : JSString} (h : EditsInto n a b) :
    levenshteinDistance a b ≤ n := by
  rw [levenshteinDistance_eq_lev, lev_comm]
  exact editsInto_lev_le (editsInto_reverse h)

theorem levenshteinDistance_eq_zero_iff (a b : JSString) :
    levenshteinDistance a b = 0 ↔ a = b := by
  constructor
  · intro h
    have := levenshteinDistance_editsInto a b
    rw [h] at this
    cases this
    rfl
  · rintro rfl
    exact Nat.le_zero.mp (levenshteinDistance_le_of_editsInto (EditsInto.done a))

/-! ## The similarity scorer -/

theorem includes_iff (s sub : JSString) : includes s sub = true ↔ sub <:+: s := by
  simp [includes]

theorem includes_eq_false_of_length_eq {s sub : JSString} (hne : sub ≠ s)
    (hlen : sub.length = s.length) : includes s sub = false := by
  rw [Bool.eq_false_iff]
  intro h
  exact hne (((includes_iff s sub).mp h).eq_of_length hlen)

theorem similarityScore_of_longer {a b : JSString} (hne : a ≠ b) (hl : a.length > b.length) :
    similarityScore a b =
      if includes a b then 0.8 + ((b.length : ℚ) / (a.length : ℚ)) * 0.2
      else max 0 (1 - (levenshteinDistance a b : ℚ) / (a.length : ℚ)) := by
  have h0 : a.length ≠ 0 := by omega
  simp only [similarityScore, if_neg hne, if_pos hl, if_neg h0]

theorem similarityScore_of_not_longer {a b : JSString} (hne : a ≠ b)
    (hl : ¬ a.length > b.length) :
    similarityScore a b =
      if includes b a then 0.8 + ((a.length : ℚ) / (b.length : ℚ)) * 0.2
      else max 0 (1 - (levenshteinDistance a b : ℚ) / (b.length : ℚ)) := by
  have h0 : b.length ≠ 0 := by
    intro hb
    have ha : a.length = 0 := by omega
    exact hne ((List.length_eq_zero.mp ha).trans (List.length_eq_zero.mp hb).symm)
  simp only [similarityScore, if_neg hne, if_neg hl, if_neg h0]

/-- C2: the score is symmetric in its two arguments. -/
theorem similarityScore_comm (a b : JSString) : similarityScore a b = similarityScore b a := by
  by_cases hne : a = b
  · rw [hne]
  · have hne2 : b ≠ a := Ne.symm hne
    by_cases hl : a.length > b.length
    · rw [similarityScore_of_longer hne hl, similarityScore_of_not_longer hne2 (by omega),
        levenshteinDistance_comm a b]
    · by_cases hl2 : b.length > a.length
      · rw [similarityScore_of_not_longer hne hl, similarityScore_of_longer hne2 hl2,
          levenshteinDistance_comm a b]
      · have hlen : a.length = b.length := by omega
        rw [similarityScore_of_not_longer hne hl, similarityScore_of_not_longer hne2 hl2,
          includes_eq_false_of_length_eq hne hlen, includes_eq_false_of_length_eq hne2 hlen.symm,
          levenshteinDistance_comm a b, hlen]

theorem containment_score_bounds (s l : Nat) (hsl : s ≤ l) (hl : l ≠ 0) :
    (0.8 : ℚ) ≤ 0.8 + ((s : ℚ) / (l : ℚ)) * 0.2 ∧ 0.8 + ((s : ℚ) / (l : ℚ)) * 0.2 ≤ (1 : ℚ) := by
  have hl0 : (0 : ℚ) < (l : ℚ) := by exact_mod_cast Nat.pos_of_ne_zero hl
  have h1 : (0 : ℚ) ≤ (s : ℚ) / (l : ℚ) := by positivity
  have h2 : (s : ℚ) / (l : ℚ) ≤ 1 := by
    rw [div_le_one hl0]
    exact_mod_cast hsl
  constructor <;> nlinarith

theorem distance_score_bounds (d l : Nat) :
    (0 : ℚ) ≤ max 0 (1 - (d : ℚ) / (l : ℚ)) ∧ max 0 (1 - (d : ℚ) / (l : ℚ)) ≤ (1 : ℚ) := by
  have h1 : (0 : ℚ) ≤ (d : ℚ) / (l : ℚ) := by positivity
  refine ⟨le_max_left _ _, max_le (by norm_num) (by linarith)⟩

/-- C3: the score lies between 0 and 1. -/
theorem similarityScore_mem_unit_interval (a b : JSString) :
    0 ≤ similarityScore a b ∧ similarityScore a b ≤ 1 := by
  by_cases hne : a = b
  · simp [similarityScore, hne]
  · by_cases hl : a.length > b.length
    · rw [similarityScore_of_longer hne hl]
      split
      · have := containment_score_bounds b.length a.length (by omega) (by omega)
        exact ⟨by linarith [this.1], this.2⟩
      · exact distance_score_bounds _ _
    · rw [similarityScore_of_not_longer hne hl]
      split
      · next hinc =>
        have hb : b.length ≠ 0 := by
          intro hb
          have ha : a.length = 0 := by omega
          exact hne ((List.length_eq_zero.mp ha).trans (List.length_eq_zero.mp hb).symm)
        have := containment_score_bounds a.length b.length (by omega) hb
        exact ⟨by linarith [this.1], this.2⟩
      · exact distance_score_bounds _ _

theorem containment_score_lt_one (s l : Nat) (hsl : s < l) :
    0.8 + ((s : ℚ) / (l : ℚ)) * 0.2 < (1 : ℚ) := by
  have hl0 : (0 : ℚ) < (l : ℚ) := by exact_mod_cast (by omega : 0 < l)
  have h2 : (s : ℚ) / (l : ℚ) < 1 := by
    rw [div_lt_one hl0]
    exact_mod_cast hsl
  nlinarith

theorem distance_score_lt_one (d l : Nat) (hd : d ≠ 0) (hl : l ≠ 0) :
    max 0 (1 - (d : ℚ) / (l : ℚ)) < (1 : ℚ) := by
  have hl0 : (0 : ℚ) < (l : ℚ) := by exact_mod_cast Nat.pos_of_ne_zero hl
  have hd0 : (0 : ℚ) < (d : ℚ) := by exact_mod_cast Nat.pos_of_ne_zero hd
  have h1 : (0 : ℚ) < (d : ℚ) / (l : ℚ) := by positivity
  exact max_lt (by norm_num) (by linarith)

theorem similarityScore_lt_one_of_ne {a b : JSString} (hne : a ≠ b) : similarityScore a b < 1 := by
  have hd : levenshteinDistance a b ≠ 0 := fun h => hne ((levenshteinDistance_eq_zero_iff a b).mp h)
  by_cases hl : a.length > b.length
  · rw [similarityScore_of_longer hne hl]
    split
    · exact containment_score_lt_one _ _ hl
    · exact distance_score_lt_one _ _ hd (by omega)
  · have hb : b.length ≠ 0 := by
      intro hb
      have ha : a.length = 0 := by omega
      exact hne ((List.length_eq_zero.mp ha).trans (List.length_eq_zero.mp hb).symm)
    rw [similarityScore_of_not_longer hne hl]
    split
    · next hinc =>
      have hlt : a.length < b.length := by
        rcases Nat.lt_or_ge a.length b.length with h | h
        · exact h
        · have hlen : a.length = b.length := by omega
          rw [includes_eq_false_of_length_eq hne hlen] at hinc
          exact absurd hinc (by decide)
      exact containment_score_lt_one _ _ hlt
    · exact distance_score_lt_one _ _ hd hb

/-- C4: the score is exactly 1 if and only if the two strings are equal. -/
theorem similarityScore_eq_one_iff (a b : JSString) : similarityScore a b = 1 ↔ a = b := by
  constructor
  · intro h
    by_contra hne
    exact absurd h (ne_of_lt (similarityScore_lt_one_of_ne hne))
  · rintro rfl
    simp [similarityScore]

theorem similarityScore_of_contained {a b : JSString} (hne : a ≠ b) (h : a <:+: b ∨ b <:+: a) :
    similarityScore a b =
      0.8 + 0.2 * ((min a.length b.length : ℕ) : ℚ) / ((max a.length b.length : ℕ) : ℚ) := by
  by_cases hl : a.length > b.length
  · have hba : b <:+: a := by
      rcases h with h | h
      · exact absurd h.length_le (by omega)
      · exact h
    rw [similarityScore_of_longer hne hl, if_pos ((includes_iff a b).mpr hba),
      min_eq_right (by omega), max_eq_left (by omega)]
    ring
  · have hab : a <:+: b := by
      rcases h with h | h
      · exact h
      · exact absurd (h.eq_of_length_le (by omega)) (Ne.symm hne)
    rw [similarityScore_of_not_longer hne hl, if_pos ((includes_iff b a).mpr hab),
      min_eq_left (by omega), max_eq_right (by omega)]
    ring

/-- C6: `levenshteinDistance a b` is the least number of single-character
insertions, deletions and substitutions that turn `a` into `b`, and for distinct
strings neither of which contains the other the score is
`max(0, 1 - d / len(longer))` with that distance `d`. -/
theorem levenshteinDistance_is_edit_distance (a b : JSString) :
    EditsInto (levenshteinDistance a b) a b ∧
    (∀ n, EditsInto n a b → levenshteinDistance a b ≤ n) ∧
    (a ≠ b → ¬ a <:+: b → ¬ b <:+: a →
      similarityScore a b =
        max 0 (1 - (levenshteinDistance a b : ℚ) / ((max a.length b.length : ℕ) : ℚ))) := by
  refine ⟨levenshteinDistance_editsInto a b,
    fun n h => levenshteinDistance_le_of_editsInto h, fun hne hab hba => ?_⟩
  by_cases hl : a.length > b.length
  · rw [similarityScore_of_longer hne hl, max_eq_left (by omega : b.length ≤ a.length)]
    rw [if_neg (by rw [includes_iff]; exact hba)]
  · rw [similarityScore_of_not_longer hne hl, max_eq_right (by omega : a.length ≤ b.length)]
    rw [if_neg (by rw [includes_iff]; exact hab)]

/-- A concrete instance of C6: two edits turn `"ab"` into `"cd"` and the score
follows the edit-distance rule. -/
theorem levenshteinDistance_is_edit_distance_witness :
    EditsInto 2 (js "ab") (js "cd") ∧ levenshteinDistance (js "ab") (js "cd") ≤ 2 ∧
      similarityScore (js "ab") (js "cd") =
        max 0 (1 - (levenshteinDistance (js "ab") (js "cd") : ℚ) /
          ((max (js "ab").length (js "cd").length : ℕ) : ℚ)) :=
  have hedits : EditsInto 2 (js "ab") (js "cd") :=
    EditsInto.step (SingleEdit.substitute [] (js "b") 0x61 0x63)
      (EditsInto.step (SingleEdit.substitute (js "c") [] 0x62 0x64) (EditsInto.done _))
  ⟨hedits, (levenshteinDistance_is_edit_distance (js "ab") (js "cd")).2.1 2 hedits,
    (levenshteinDistance_is_edit_distance (js "ab") (js "cd")).2.2
      (by decide) (by decide) (by decide)⟩

/-! ## The matcher -/

theorem matchRow_confidence {mainData : List Row} {filename : JSString} {icpRow : Row}
    {index : Nat} {columns : List JSString} {m : Match}
    (h : matchRow mainData filename icpRow index columns = some m) : m.confidence > 0.6 := by
  induction columns with
  | nil => simp [matchRow] at h
  | cons col rest ih =>
    simp only [matchRow] at h
    split at h
    · exact ih h
    · split at h
      · split at h
        · next hs =>
          cases h
          exact hs
        · exact ih h
      · exact ih h

theorem matchImportRow_confidence {masterData : List Row} {importRow : Row}
    {idx : Nat} {columns : List JSString} {m : ImportMatch}
    (h : matchImportRow masterData importRow idx columns = some m) : m.confidence > 0.6 := by
  induction columns with
  | nil => simp [matchImportRow] at h
  | cons col rest ih =>
    simp only [matchImportRow] at h
    split at h
    · exact ih h
    · split at h
      · split at h
        · next hs =>
          cases h
          exact hs
        · exact ih h
      · exact ih h

theorem mem_matchRows {mainData : List Row} {filename : JSString} {columns : List JSString}
    {m : Match} (rows : List Row) (start : Nat) :
    m ∈ matchRows mainData filename columns start rows ↔
      ∃ k, ∃ h : k < rows.length,
        matchRow mainData filename (rows.get ⟨k, h⟩) (start + k) columns = some m := by
  induction rows generalizing start with
  | nil => simp [matchRows]
  | cons row rest ih =>
    simp only [matchRows, List.mem_append, Option.mem_toList, Option.mem_def, ih]
    constructor
    · rintro (h | ⟨k, hk, h⟩)
      · exact ⟨0, by simp, by simpa using h⟩
      · exact ⟨k + 1, by simpa using hk, by simpa [Nat.add_assoc, Nat.add_comm 1 k] using h⟩
    · rintro ⟨k, hk, h⟩
      cases k with
      | zero => exact Or.inl (by simpa using h)
      | succ k =>
        exact Or.inr ⟨k, by simpa using hk, by simpa [Nat.add_assoc, Nat.add_comm 1 k] using h⟩

theorem mem_matchImportRows {masterData : List Row} {columns : List JSString}
    {m : ImportMatch} (rows : List Row) (start : Nat) :
    m ∈ matchImportRows masterData columns start rows ↔
      ∃ k, ∃ h : k < rows.length,
        matchImportRow masterData (rows.get ⟨k, h⟩) (start + k) columns = some m := by
  induction rows generalizing start with
  | nil => simp [matchImportRows]
  | cons row rest ih =>
    simp only [matchImportRows, List.mem_append, Option.mem_toList, Option.mem_def, ih]
    constructor
    · rintro (h | ⟨k, hk, h⟩)
      · exact ⟨0, by simp, by simpa using h⟩
      · exact ⟨k + 1, by simpa using hk, by simpa [Nat.add_assoc, Nat.add_comm 1 k] using h⟩
    · rintro ⟨k, hk, h⟩
      cases k with
      | zero => exact Or.inl (by simpa using h)
      | succ k =>
        exact Or.inr ⟨k, by simpa using hk, by simpa [Nat.add_assoc, Nat.add_comm 1 k] using h⟩

/-- C7: every record emitted by `matchSamplesForFile`, and every record emitted
by `matchImportSamples`, has a confidence strictly greater than 0.6. -/
theorem match_confidence_gt_threshold (icpData mainData : List Row) (filename : JSString) :
    (∀ m ∈ matchSamplesForFile icpData mainData filename, m.confidence > 0.6) ∧
      (∀ m ∈ matchImportSamples mainData icpData, m.confidence > 0.6) := by
  constructor
  · intro m hm
    obtain ⟨k, hk, h⟩ := (mem_matchRows icpData 0).mp hm
    exact matchRow_confidence h
  · intro m hm
    obtain ⟨k, hk, h⟩ := (mem_matchImportRows icpData 0).mp hm
    exact matchImportRow_confidence h

/-- An instance of C7: the first row of the example is matched with confidence 1. -/
theorem match_confidence_gt_threshold_witness :
    (⟨js "run.csv", js "S-001", js "S001", 1, 0, canonicalS001.head?⟩ : Match) ∈
        matchSamplesForFile sourceTwoRows canonicalS001 (js "run.csv") ∧
      (1 : ℚ) > 0.6 :=
  ⟨by decide!,
    (match_confidence_gt_threshold sourceTwoRows canonicalS001 (js "run.csv")).1
      ⟨js "run.csv", js "S-001", js "S001", 1, 0, canonicalS001.head?⟩ (by decide!)⟩

theorem matchRow_icpRowIndex {mainData : List Row} {filename : JSString} {icpRow : Row}
    {index : Nat} {columns : List JSString} {m : Match}
    (h : matchRow mainData filename icpRow index columns = some m) : m.icpRowIndex = index := by
  induction columns with
  | nil => simp [matchRow] at h
  | cons col rest ih =>
    simp only [matchRow] at h
    split at h
    · exact ih h
    · split at h
      · split at h
        · cases h
          rfl
        · exact ih h
      · exact ih h

/-- The record of a row comes from the first column that yields a match. -/
theorem matchRow_eq_some_iff (mainData : List Row) (filename : JSString) (icpRow : Row)
    (index : Nat) (columns : List JSString) (m : Match) :
    matchRow mainData filename icpRow index columns = some m ↔
      ∃ pre col post bestMatch, columns = pre ++ col :: post ∧
        (∀ c ∈ pre, ∀ b, ¬ ColumnMatches mainData icpRow c b) ∧
        ColumnMatches mainData icpRow col bestMatch ∧
        m = ⟨filename, cellText icpRow col, bestMatch.id, bestMatch.score, index,
          findMainSample mainData bestMatch.id⟩ := by
  induction columns with
  | nil => simp [matchRow]
  | cons c rest ih =>
    by_cases hc : ∃ b, ColumnMatches mainData icpRow c b
    · obtain ⟨b, hb⟩ := hc
      have hlen : ¬ (cellText icpRow c = [] ∨ (cellText icpRow c).length < 2) := by
        rintro (h | h)
        · have := hb.1
          rw [h] at this
          simp at this
        · have := hb.1
          omega
      simp only [matchRow, if_neg hlen, hb.2.1, if_pos hb.2.2]
      constructor
      · intro h
        exact ⟨[], c, rest, b, rfl, by simp, hb, (Option.some.inj h).symm⟩
      · rintro ⟨pre, col, post, bm, hsplit, hpre, hcol, hm⟩
        cases pre with
        | nil =>
          simp only [List.nil_append, List.cons.injEq] at hsplit
          obtain ⟨rfl, -⟩ := hsplit
          have : bm = b := Option.some.inj (hcol.2.1.symm.trans hb.2.1)
          subst this
          rw [hm]
        | cons p pre =>
          simp only [List.cons_append, List.cons.injEq] at hsplit
          obtain ⟨rfl, -⟩ := hsplit
          exact absurd hb (hpre c (List.mem_cons_self _ _) b)
    · have hskip : matchRow mainData filename icpRow index (c :: rest) =
          matchRow mainData filename icpRow index rest := by
        simp only [matchRow]
        split
        · rfl
        · next hlen =>
          split
          · next b hb =>
            split
            · next hs =>
              exact absurd ⟨b, ⟨by
                rcases Nat.lt_or_ge (cellText icpRow c).length 2 with h | h
                · exact absurd (Or.inr h) hlen
                · exact h, hb, hs⟩⟩ hc
            · rfl
          · rfl
      rw [hskip, ih]
      constructor
      · rintro ⟨pre, col, post, bm, hsplit, hpre, hcol, hm⟩
        refine ⟨c :: pre, col, post, bm, by rw [hsplit]; rfl, ?_, hcol, hm⟩
        intro x hx b
        rcases List.mem_cons.mp hx with rfl | hx
        · exact fun h => hc ⟨b, h⟩
        · exact hpre x hx b
      · rintro ⟨pre, col, post, bm, hsplit, hpre, hcol, hm⟩
        cases pre with
        | nil =>
          simp only [List.nil_append, List.cons.injEq] at hsplit
          obtain ⟨rfl, -⟩ := hsplit
          exact absurd ⟨bm, hcol⟩ hc
        | cons p pre =>
          simp only [List.cons_append, List.cons.injEq] at hsplit
          obtain ⟨rfl, rfl⟩ := hsplit
          exact ⟨pre, col, post, bm, rfl,
            fun x hx b => hpre x (List.mem_cons_of_mem _ hx) b, hcol, hm⟩

theorem mem_matchSamplesForFile_iff (icpData mainData : List Row) (filename : JSString)
    (index : Nat) (h : index < icpData.length) (m : Match) :
    (m ∈ matchSamplesForFile icpData mainData filename ∧ m.icpRowIndex = index) ↔
      matchRow mainData filename (icpData.get ⟨index, h⟩) index (findSampleIDColumns icpData) =
        some m := by
  unfold matchSamplesForFile
  rw [mem_matchRows]
  constructor
  · rintro ⟨⟨k, hk, hm⟩, hidx⟩
    have := matchRow_icpRowIndex hm
    have hk2 : k = index := by omega
    subst hk2
    simpa using hm
  · intro hm
    exact ⟨⟨index, h, by simpa using hm⟩, matchRow_icpRowIndex hm⟩

/-- C8, as stated, fails: in the example the first usable column `Sample` holds
`zzzz`, which matches nothing, and the row is still matched through its second
candidate column `Name`. -/
theorem first_usable_column_does_not_decide :
    ¬ DecidedByFirstUsableColumn sourceTwoColumns canonicalS001 (js "run.csv") 0
        [(js "Sample", Value.str (js "zzzz")), (js "Name", Value.str (js "S001"))] := by
  intro h
  have hm : ∃ m ∈ matchSamplesForFile sourceTwoColumns canonicalS001 (js "run.csv"),
      m.icpRowIndex = 0 :=
    ⟨⟨js "run.csv", js "S001", js "S001", 1, 0, canonicalS001.head?⟩, by decide!, rfl⟩
  obtain ⟨col, b, hcol, hb⟩ := h.mp hm
  have hfirst : firstUsableColumn
      [(js "Sample", Value.str (js "zzzz")), (js "Name", Value.str (js "S001"))]
      (findSampleIDColumns sourceTwoColumns) = some (js "Sample") := by decide!
  rw [hfirst] at hcol
  cases hcol
  have hnone : findBestMatch
      (cellText [(js "Sample", Value.str (js "zzzz")), (js "Name", Value.str (js "S001"))]
        (js "Sample")) canonicalS001 = none := by decide!
  rw [ColumnMatches, hnone] at hb
  exact absurd hb.2.1 (by simp)

/-- C8, amended: the record of row `index` is built from the first candidate
column, in the order of `findSampleIDColumns`, whose trimmed value has length at
least 2 and whose best match scores above 0.6; the row has no record exactly
when no candidate column is such a column. -/
theorem matchSamplesForFile_first_matching_column (icpData mainData : List Row)
    (filename : JSString) (index : Nat) (h : index < icpData.length) (m : Match) :
    (m ∈ matchSamplesForFile icpData mainData filename ∧ m.icpRowIndex = index) ↔
      ∃ pre col post bestMatch, findSampleIDColumns icpData = pre ++ col :: post ∧
        (∀ c ∈ pre, ∀ b, ¬ ColumnMatches mainData (icpData.get ⟨index, h⟩) c b) ∧
        ColumnMatches mainData (icpData.get ⟨index, h⟩) col bestMatch ∧
        m = ⟨filename, cellText (icpData.get ⟨index, h⟩) col, bestMatch.id, bestMatch.score,
          index, findMainSample mainData bestMatch.id⟩ := by
  rw [mem_matchSamplesForFile_iff, matchRow_eq_some_iff]

/-- An instance of the amended C8: the row of the example is matched through
its second candidate column. -/
theorem matchSamplesForFile_first_matching_column_witness :
    ∃ pre col post bestMatch, findSampleIDColumns sourceTwoColumns = pre ++ col :: post ∧
      (∀ c ∈ pre, ∀ b, ¬ ColumnMatches canonicalS001
        (sourceTwoColumns.get ⟨0, by decide⟩) c b) ∧
      ColumnMatches canonicalS001 (sourceTwoColumns.get ⟨0, by decide⟩) col bestMatch ∧
      (⟨js "run.csv", js "S001", js "S001", 1, 0, canonicalS001.head?⟩ : Match) =
        ⟨js "run.csv", cellText (sourceTwoColumns.get ⟨0, by decide⟩) col, bestMatch.id,
          bestMatch.score, 0, findMainSample canonicalS001 bestMatch.id⟩ :=
  (matchSamplesForFile_first_matching_column sourceTwoColumns canonicalS001 (js "run.csv") 0
    (by decide) ⟨js "run.csv", js "S001", js "S001", 1, 0, canonicalS001.head?⟩).mp
    ⟨by decide!, rfl⟩

/-! ## The best match -/

/-- The invariant of the `forEach` of `findBestMatch`: `bestScore` bounds the
scores seen so far, and `bestMatch` is the first row that reaches it. -/
theorem findBestMatch_fold_inv (icpID : JSString) (rows : List Row) :
    0 ≤ (rows.foldl (findBestMatchStep (normalizeID icpID)) (0, none)).1 ∧
    (∀ x ∈ rows, sampleID x ≠ [] →
      rowScore icpID x ≤ (rows.foldl (findBestMatchStep (normalizeID icpID)) (0, none)).1) ∧
    ((rows.foldl (findBestMatchStep (normalizeID icpID)) (0, none)).2 = none →
      (rows.foldl (findBestMatchStep (normalizeID icpID)) (0, none)).1 = 0) ∧
    (∀ bm, (rows.foldl (findBestMatchStep (normalizeID icpID)) (0, none)).2 = some bm →
      (rows.foldl (findBestMatchStep (normalizeID icpID)) (0, none)).1 = bm.score ∧
        0 < bm.score ∧
        ∃ pre r post, rows = pre ++ r :: post ∧ sampleID r ≠ [] ∧ bm.id = sampleID r ∧
          bm.score = rowScore icpID r ∧
          ∀ x ∈ pre, sampleID x ≠ [] → rowScore icpID x < bm.score) := by
  induction rows using List.reverseRecOn with
  | nil => simp
  | append_singleton l a ih =>
    obtain ⟨h0, hle, hnone, hsome⟩ := ih
    rw [List.foldl_append, List.foldl_cons, List.foldl_nil]
    generalize l.foldl (findBestMatchStep (normalizeID icpID)) (0, none) = st at h0 hle hnone hsome
    by_cases hid : sampleID a = []
    · have hstep : findBestMatchStep (normalizeID icpID) st a = st := by
        simp only [findBestMatchStep]
        exact if_pos hid
      rw [hstep]
      refine ⟨h0, ?_, hnone, ?_⟩
      · intro x hx hv
        rcases List.mem_append.mp hx with hx | hx
        · exact hle x hx hv
        · rw [List.mem_singleton.mp hx] at hv
          exact absurd hid hv
      · intro bm hbm
        obtain ⟨h1, h2, pre, r, post, hsplit, hr, hidr, hsc, hpre⟩ := hsome bm hbm
        exact ⟨h1, h2, pre, r, post ++ [a], by rw [hsplit]; simp, hr, hidr, hsc, hpre⟩
    · by_cases hgt : rowScore icpID a > st.1
      · have hstep : findBestMatchStep (normalizeID icpID) st a =
            (rowScore icpID a, some ⟨sampleID a, rowScore icpID a⟩) := by
          simp only [findBestMatchStep]
          exact (if_neg hid).trans (if_pos hgt)
        rw [hstep]
        refine ⟨le_of_lt (lt_of_le_of_lt h0 hgt), ?_, by simp, ?_⟩
        · intro x hx hv
          rcases List.mem_append.mp hx with hx | hx
          · exact le_of_lt (lt_of_le_of_lt (hle x hx hv) hgt)
          · rw [List.mem_singleton.mp hx]
        · intro bm hbm
          have hbm2 : bm = ⟨sampleID a, rowScore icpID a⟩ := (Option.some.inj hbm).symm
          subst hbm2
          exact ⟨rfl, lt_of_le_of_lt h0 hgt, l, a, [], rfl, hid, rfl, rfl,
            fun x hx hv => lt_of_le_of_lt (hle x hx hv) hgt⟩
      · have hstep : findBestMatchStep (normalizeID icpID) st a = st := by
          simp only [findBestMatchStep]
          exact (if_neg hid).trans (if_neg hgt)
        rw [hstep]
        refine ⟨h0, ?_, hnone, ?_⟩
        · intro x hx hv
          rcases List.mem_append.mp hx with hx | hx
          · exact hle x hx hv
          · rw [List.mem_singleton.mp hx]
            exact not_lt.mp hgt
        · intro bm hbm
          obtain ⟨h1, h2, pre, r, post, hsplit, hr, hidr, hsc, hpre⟩ := hsome bm hbm
          exact ⟨h1, h2, pre, r, post ++ [a], by rw [hsplit]; simp, hr, hidr, hsc, hpre⟩

/-- C10 fails on the code: when the canonical identifier is stored with
surrounding white space, or as a number, the record is emitted with
`mainSample` undefined, because `find` compares the stored value with the
trimmed string by `===`. -/
theorem matchSamplesForFile_mainSample_undefined :
    matchSamplesForFile sourcePadded canonicalPadded (js "run.csv") =
      [⟨js "run.csv", js "S001", js "S001", 1, 0, none⟩,
        ⟨js "run.csv", js "1001", js "1001", 1, 1, none⟩] := by
  decide!


/-! ## The calibration point extractor -/

theorem extractRows_index_ge {columns : List JSString} {concCol intensityCol : JSString}
    (rows : List StandardRow) (start : Nat) :
    ∀ p ∈ extractRows columns concCol intensityCol start rows, start ≤ p.index := by
  induction rows generalizing start with
  | nil => simp [extractRows]
  | cons row rest ih =>
    intro p hp
    simp only [extractRows] at hp
    split at hp
    · rcases List.mem_cons.mp hp with rfl | hp
      · exact le_rfl
      · exact le_trans (Nat.le_succ start) (ih (start + 1) p hp)
    · exact le_trans (Nat.le_succ start) (ih (start + 1) p hp)

theorem extractRows_index_pairwise {columns : List JSString} {concCol intensityCol : JSString}
    (rows : List StandardRow) (start : Nat) :
    ((extractRows columns concCol intensityCol start rows).map
      (fun p => p.index)).Pairwise (fun a b => a < b) := by
  induction rows generalizing start with
  | nil => simp [extractRows]
  | cons row rest ih =>
    simp only [extractRows]
    split
    · rw [List.map_cons, List.pairwise_cons]
      refine ⟨fun b hb => ?_, ih (start + 1)⟩
      obtain ⟨p, hp, rfl⟩ := List.mem_map.mp hb
      exact extractRows_index_ge rest (start + 1) p hp
    · exact ih (start + 1)

/-- A point is emitted for a row exactly when both of its values parse to a
number that is not `NaN`, and it carries the position and the parsed values of
that row. -/
theorem mem_extractRows {columns : List JSString} {concCol intensityCol : JSString}
    (rows : List StandardRow) (start : Nat) (p : CalibrationPoint) :
    p ∈ extractRows columns concCol intensityCol start rows ↔
      ∃ k row, rows[k]? = some row ∧
        parseFloat (cellAt row concCol) ≠ JSNum.nan ∧
        parseFloat (cellAt row intensityCol) ≠ JSNum.nan ∧
        p = ⟨start + k, pointLabel columns row (start + k), parseFloat (cellAt row concCol),
          parseFloat (cellAt row intensityCol), false⟩ := by
  induction rows generalizing start with
  | nil => simp [extractRows]
  | cons row rest ih =>
    have hcond : (!isNaN (parseFloat (cellAt row concCol)) &&
        !isNaN (parseFloat (cellAt row intensityCol))) = true ↔
        parseFloat (cellAt row concCol) ≠ JSNum.nan ∧
          parseFloat (cellAt row intensityCol) ≠ JSNum.nan := by
      simp [isNaN]
    constructor
    · intro hp
      simp only [extractRows] at hp
      have hrest : p ∈ extractRows columns concCol intensityCol (start + 1) rest →
          ∃ k row', (row :: rest)[k]? = some row' ∧
            parseFloat (cellAt row' concCol) ≠ JSNum.nan ∧
            parseFloat (cellAt row' intensityCol) ≠ JSNum.nan ∧
            p = ⟨start + k, pointLabel columns row' (start + k),
              parseFloat (cellAt row' concCol), parseFloat (cellAt row' intensityCol),
              false⟩ := by
        intro h
        obtain ⟨k, row', hk, h1, h2, h3⟩ := (ih (start + 1) ).mp h
        refine ⟨k + 1, row', by simpa using hk, h1, h2, ?_⟩
        rw [h3, Nat.add_assoc, Nat.add_comm 1 k]
      split at hp
      · next hc =>
        rcases List.mem_cons.mp hp with rfl | hp
        · exact ⟨0, row, by simp, (hcond.mp hc).1, (hcond.mp hc).2, rfl⟩
        · exact hrest hp
      · exact hrest hp
    · rintro ⟨k, row', hk, h1, h2, h3⟩
      simp only [extractRows]
      cases k with
      | zero =>
        simp only [List.getElem?_cons_zero, Option.some.injEq] at hk
        subst hk
        rw [if_pos (hcond.mpr ⟨h1, h2⟩), h3]
        exact List.mem_cons_self _ _
      | succ k =>
        have hmem : p ∈ extractRows columns concCol intensityCol (start + 1) rest := by
          refine (ih (start + 1)).mpr ⟨k, row', by simpa using hk, h1, h2, ?_⟩
          rw [h3, Nat.add_assoc, Nat.add_comm 1 k]
        split
        · exact List.mem_cons_of_mem _ hmem
        · exact hmem

theorem mem_extractCalibrationPoints (standardsData : List StandardRow)
    (intensityCol : JSString) (p : CalibrationPoint) :
    p ∈ extractCalibrationPoints standardsData intensityCol ↔
      ∃ concCol row,
        findConcentrationColumn (standardsColumns standardsData) intensityCol = some concCol ∧
        standardsData[p.index]? = some row ∧
        parseFloat (cellAt row concCol) ≠ JSNum.nan ∧
        parseFloat (cellAt row intensityCol) ≠ JSNum.nan ∧
        p = ⟨p.index, pointLabel (standardsColumns standardsData) row p.index,
          parseFloat (cellAt row concCol), parseFloat (cellAt row intensityCol), false⟩ := by
  unfold extractCalibrationPoints
  cases hc : findConcentrationColumn (standardsColumns standardsData) intensityCol with
  | none => simp
  | some concCol =>
    simp only [mem_extractRows, Nat.zero_add]
    constructor
    · rintro ⟨k, row, hk, h1, h2, h3⟩
      have hidx : p.index = k := by rw [h3]
      exact ⟨concCol, row, rfl, by rw [hidx]; exact hk, h1, h2, by rw [hidx]; exact h3⟩
    · rintro ⟨c, row, hceq, hk, h1, h2, h3⟩
      cases hceq
      exact ⟨p.index, row, hk, h1, h2, h3⟩

theorem extractCalibrationPoints_excluded (standardsData : List StandardRow)
    (intensityCol : JSString) :
    ∀ p ∈ extractCalibrationPoints standardsData intensityCol, p.excluded = false := by
  intro p hp
  obtain ⟨concCol, row, -, -, -, -, h⟩ :=
    (mem_extractCalibrationPoints standardsData intensityCol p).mp hp
  rw [h]

/-- C11, as stated, fails: a concentration cell holding the text `Infinity`
parses to `Infinity`, which passes the test `!isNaN`, and the point is emitted. -/
theorem extractCalibrationPoints_emits_infinity :
    ¬ ∀ p ∈ extractCalibrationPoints standardsWithInfinity (js "Ba Intensity"),
        p.concentration.isFinite = true ∧ p.intensity.isFinite = true := by
  decide!

/-- C11, amended: a point is emitted for a row only when both the concentration
and the intensity of the row parse to a number that is not `NaN`; no emitted
point has a `NaN` concentration or intensity. -/
theorem extractCalibrationPoints_not_nan (standardsData : List StandardRow)
    (intensityCol : JSString) (p : CalibrationPoint)
    (hp : p ∈ extractCalibrationPoints standardsData intensityCol) :
    p.concentration ≠ JSNum.nan ∧ p.intensity ≠ JSNum.nan ∧
      ∃ concCol row,
        findConcentrationColumn (standardsColumns standardsData) intensityCol = some concCol ∧
        standardsData[p.index]? = some row ∧
        parseFloat (cellAt row concCol) ≠ JSNum.nan ∧
        parseFloat (cellAt row intensityCol) ≠ JSNum.nan := by
  obtain ⟨concCol, row, hc, hrow, h1, h2, h⟩ :=
    (mem_extractCalibrationPoints standardsData intensityCol p).mp hp
  refine ⟨?_, ?_, concCol, row, hc, hrow, h1, h2⟩
  · rw [h]; exact h1
  · rw [h]; exact h2

/-- An instance of the amended C11: the point of the row whose concentration is
`Infinity` is emitted, and neither of its values is `NaN`. -/
theorem extractCalibrationPoints_not_nan_witness :
    (⟨0, Cell.text (js "A"), JSNum.inf false, JSNum.fin 1000, false⟩ : CalibrationPoint) ∈
        extractCalibrationPoints standardsWithInfinity (js "Ba Intensity") ∧
      JSNum.inf false ≠ JSNum.nan ∧ JSNum.fin 1000 ≠ JSNum.nan :=
  ⟨by decide!,
    (extractCalibrationPoints_not_nan standardsWithInfinity (js "Ba Intensity")
      ⟨0, Cell.text (js "A"), JSNum.inf false, JSNum.fin 1000, false⟩ (by decide!)).1,
    (extractCalibrationPoints_not_nan standardsWithInfinity (js "Ba Intensity")
      ⟨0, Cell.text (js "A"), JSNum.inf false, JSNum.fin 1000, false⟩ (by decide!)).2.1⟩

/-- C12: the indices of the points returned by `extractCalibrationPoints` are
strictly increasing, hence pairwise distinct, each is the position of a row of
the standards table, and the concentration and the intensity of a point are the
parsed values of the row at that position. -/
theorem extractCalibrationPoints_index (standardsData : List StandardRow)
    (intensityCol : JSString) :
    ((extractCalibrationPoints standardsData intensityCol).map
        (fun p => p.index)).Pairwise (fun a b => a < b) ∧
      ((extractCalibrationPoints standardsData intensityCol).map (fun p => p.index)).Nodup ∧
      ∀ p ∈ extractCalibrationPoints standardsData intensityCol,
        p.index < standardsData.length ∧
        ∃ concCol row,
          findConcentrationColumn (standardsColumns standardsData) intensityCol =
            some concCol ∧
          standardsData[p.index]? = some row ∧
          p.concentration = parseFloat (cellAt row concCol) ∧
          p.intensity = parseFloat (cellAt row intensityCol) := by
  have hpair : ((extractCalibrationPoints standardsData intensityCol).map
      (fun p => p.index)).Pairwise (fun a b => a < b) := by
    unfold extractCalibrationPoints
    split
    · simp
    · exact extractRows_index_pairwise standardsData 0
  refine ⟨hpair, hpair.imp (fun h => Nat.ne_of_lt h), fun p hp => ?_⟩
  obtain ⟨concCol, row, hc, hrow, h1, h2, h⟩ :=
    (mem_extractCalibrationPoints standardsData intensityCol p).mp hp
  refine ⟨?_, concCol, row, hc, hrow, by rw [h], by rw [h]⟩
  by_contra hlt
  rw [List.getElem?_eq_none (by omega)] at hrow
  exact absurd hrow (by simp)

/-- An instance of C12: the second point of the three-standards table has index
1, inside the table. -/
theorem extractCalibrationPoints_index_witness :
    (⟨1, Cell.text (js "B"), JSNum.fin 3, JSNum.fin 2, false⟩ : CalibrationPoint) ∈
        extractCalibrationPoints threeStandards (js "Ba Intensity") ∧
      1 < threeStandards.length :=
  ⟨by decide!,
    ((extractCalibrationPoints_index threeStandards (js "Ba Intensity")).2.2
      ⟨1, Cell.text (js "B"), JSNum.fin 3, JSNum.fin 2, false⟩ (by decide!)).1⟩


/-! ## The concentration column -/

theorem toLowerCase_isEmpty (s : JSString) : (toLowerCase s).isEmpty = s.isEmpty := by
  cases s with
  | nil => rfl
  | cons c t =>
    simp only [toLowerCase, List.flatMap_cons, List.isEmpty_cons]
    unfold lowerUnit
    split_ifs <;> rfl

theorem find?_of_isFirstColumn {P : JSString → Prop} {p : JSString → Bool}
    (hp : ∀ c, p c = true ↔ P c) {columns : List JSString} {c : JSString}
    (h : IsFirstColumn P columns c) : columns.find? p = some c := by
  obtain ⟨pre, post, hsplit, hc, hpre⟩ := h
  rw [List.find?_eq_some]
  refine ⟨(hp c).mpr hc, pre, post, hsplit, fun a ha => ?_⟩
  have := hpre a ha
  rw [← hp a] at this
  simpa using this

/-! ## Arithmetic of numbers -/

theorem fin_add (a b : ℚ) : JSNum.fin a + JSNum.fin b = JSNum.fin (a + b) := rfl

theorem fin_sub (a b : ℚ) : JSNum.fin a - JSNum.fin b = JSNum.fin (a - b) := by
  show JSNum.fin (a + -b) = JSNum.fin (a - b)
  rw [sub_eq_add_neg]

theorem fin_mul (a b : ℚ) : JSNum.fin a * JSNum.fin b = JSNum.fin (a * b) := rfl

theorem fin_div (a b : ℚ) (hb : b ≠ 0) : JSNum.fin a / JSNum.fin b = JSNum.fin (a / b) := by
  show JSNum.div (JSNum.fin a) (JSNum.fin b) = JSNum.fin (a / b)
  simp [JSNum.div, hb]

theorem fin_zero_div_zero : JSNum.fin 0 / JSNum.fin 0 = JSNum.nan := by
  show JSNum.div (JSNum.fin 0) (JSNum.fin 0) = JSNum.nan
  simp [JSNum.div]

theorem nan_add (a : JSNum) : JSNum.nan + a = JSNum.nan := by
  cases a <;> rfl

theorem add_nan (a : JSNum) : a + JSNum.nan = JSNum.nan := by
  cases a <;> rfl

theorem nan_sub (a : JSNum) : JSNum.nan - a = JSNum.nan := by
  cases a <;> rfl

theorem sub_nan (a : JSNum) : a - JSNum.nan = JSNum.nan := by
  cases a <;> rfl

theorem nan_mul (a : JSNum) : JSNum.nan * a = JSNum.nan := by
  cases a <;> rfl

theorem mul_nan (a : JSNum) : a * JSNum.nan = JSNum.nan := by
  cases a <;> rfl

theorem nan_div (a : JSNum) : JSNum.nan / a = JSNum.nan := by
  cases a <;> rfl

theorem div_nan (a : JSNum) : a / JSNum.nan = JSNum.nan := by
  cases a <;> rfl

theorem fin_zero_add (a : JSNum) : JSNum.fin 0 + a = a := by
  cases a with
  | nan => rfl
  | inf s => rfl
  | fin q => rw [fin_add, zero_add]

theorem eq_fin_toRat {x : JSNum} (h : x.isFinite = true) : x = JSNum.fin x.toRat := by
  cases x with
  | nan => exact absurd h (by decide)
  | inf s => simp [JSNum.isFinite] at h
  | fin q => rfl

/-! ## Sums over points -/

theorem sumOver_nil (f : CalibrationPoint → ℚ) : sumOver [] f = 0 := rfl

theorem sumOver_cons (p : CalibrationPoint) (points : List CalibrationPoint)
    (f : CalibrationPoint → ℚ) : sumOver (p :: points) f = f p + sumOver points f := by
  simp [sumOver]

theorem foldl_add_fin (f : CalibrationPoint → JSNum) (g : CalibrationPoint → ℚ)
    (points : List CalibrationPoint) (h : ∀ p ∈ points, f p = JSNum.fin (g p)) (a : ℚ) :
    points.foldl (fun sum p => sum + f p) (JSNum.fin a) = JSNum.fin (a + sumOver points g) := by
  induction points generalizing a with
  | nil => simp [sumOver]
  | cons p rest ih =>
    rw [List.foldl_cons, h p (List.mem_cons_self _ _), fin_add,
      ih (fun q hq => h q (List.mem_cons_of_mem _ hq)), sumOver_cons, add_assoc]

theorem foldl_add_fin_zero (f : CalibrationPoint → JSNum) (g : CalibrationPoint → ℚ)
    (points : List CalibrationPoint) (h : ∀ p ∈ points, f p = JSNum.fin (g p)) :
    points.foldl (fun sum p => sum + f p) (JSNum.fin 0) = JSNum.fin (sumOver points g) := by
  rw [foldl_add_fin f g points h, zero_add]

theorem foldl_sq_map_fin (g : CalibrationPoint → ℚ) (points : List CalibrationPoint) (a : ℚ) :
    (points.map (fun p => JSNum.fin (g p))).foldl (fun sum r => sum + r * r) (JSNum.fin a) =
      JSNum.fin (a + sumOver points (fun p => g p ^ 2)) := by
  induction points generalizing a with
  | nil => simp [sumOver]
  | cons p rest ih =>
    rw [List.map_cons, List.foldl_cons, fin_mul, fin_add, ih, sumOver_cons]
    congr 1
    ring

theorem sumOver_congr {points : List CalibrationPoint} {f g : CalibrationPoint → ℚ}
    (h : ∀ p ∈ points, f p = g p) : sumOver points f = sumOver points g := by
  unfold sumOver
  rw [List.map_congr_left h]

theorem sumOver_nonneg {points : List CalibrationPoint} {f : CalibrationPoint → ℚ}
    (h : ∀ p ∈ points, 0 ≤ f p) : 0 ≤ sumOver points f := by
  induction points with
  | nil => exact le_rfl
  | cons p rest ih =>
    rw [sumOver_cons]
    exact add_nonneg (h p (List.mem_cons_self _ _))
      (ih (fun q hq => h q (List.mem_cons_of_mem _ hq)))

theorem eq_zero_of_sumOver_eq_zero {points : List CalibrationPoint}
    {f : CalibrationPoint → ℚ} (h : ∀ p ∈ points, 0 ≤ f p) (hsum : sumOver points f = 0) :
    ∀ p ∈ points, f p = 0 := by
  induction points with
  | nil => intro p hp; exact absurd hp (List.not_mem_nil p)
  | cons q rest ih =>
    rw [sumOver_cons] at hsum
    have hq := h q (List.mem_cons_self _ _)
    have hrest := sumOver_nonneg (fun r hr => h r (List.mem_cons_of_mem _ hr))
    intro p hp
    rcases List.mem_cons.mp hp with rfl | hp
    · linarith
    · exact ih (fun r hr => h r (List.mem_cons_of_mem _ hr)) (by linarith) p hp

/-- The sum of the squares of `a x − b` in terms of the sums of `x` and `x²`. -/
theorem sumOver_sq_affine (points : List CalibrationPoint) (f : CalibrationPoint → ℚ)
    (a b : ℚ) :
    sumOver points (fun p => (a * f p - b) ^ 2) =
      a ^ 2 * sumOver points (fun p => f p * f p) - 2 * a * b * sumOver points f +
        (points.length : ℚ) * b ^ 2 := by
  induction points with
  | nil => simp [sumOver]
  | cons p rest ih =>
    simp only [sumOver_cons, ih, List.length_cons, Nat.cast_add, Nat.cast_one]
    ring

/-- The sum of squared residuals in terms of the five sums. -/
theorem residualSumOfSquares_expand (m c : ℚ) (points : List CalibrationPoint) :
    residualSumOfSquares m c points =
      sumOver points (fun p => yOf p * yOf p) - 2 * m * sumOver points (fun p => xOf p * yOf p) -
        2 * c * sumOver points yOf + m ^ 2 * sumOver points (fun p => xOf p * xOf p) +
        2 * m * c * sumOver points xOf + (points.length : ℚ) * c ^ 2 := by
  unfold residualSumOfSquares
  induction points with
  | nil => simp [sumOver]
  | cons p rest ih =>
    simp only [sumOver_cons, ih, List.length_cons, Nat.cast_add, Nat.cast_one]
    ring

theorem length_mul_olsDenominator (points : List CalibrationPoint) :
    (points.length : ℚ) * olsDenominator points =
      sumOver points (fun p => ((points.length : ℚ) * xOf p - sumOver points xOf) ^ 2) := by
  rw [sumOver_sq_affine, olsDenominator]
  ring

theorem olsDenominator_nonneg (points : List CalibrationPoint) : 0 ≤ olsDenominator points := by
  cases points with
  | nil => simp [olsDenominator, sumOver]
  | cons p rest =>
    have hn : (0 : ℚ) < ((p :: rest).length : ℚ) := by
      simp only [List.length_cons, Nat.cast_add, Nat.cast_one]
      positivity
    have h := length_mul_olsDenominator (p :: rest)
    have h2 : 0 ≤ ((p :: rest).length : ℚ) * olsDenominator (p :: rest) := by
      rw [h]
      exact sumOver_nonneg (fun q _ => sq_nonneg _)
    exact nonneg_of_mul_nonneg_right h2 hn

/-- If the denominator vanishes, all the points have the same `x`. -/
theorem xOf_eq_of_olsDenominator_eq_zero {points : List CalibrationPoint}
    (h : olsDenominator points = 0) : ∀ p ∈ points, ∀ q ∈ points, xOf p = xOf q := by
  intro p hp q hq
  have hn : (points.length : ℚ) ≠ 0 := by
    have : points ≠ [] := List.ne_nil_of_mem hp
    exact_mod_cast (List.length_pos.mpr this).ne'
  have hsum := length_mul_olsDenominator points
  rw [h, mul_zero] at hsum
  have hz := eq_zero_of_sumOver_eq_zero (fun r _ => sq_nonneg _) hsum.symm
  have h1 := hz p hp
  have h2 := hz q hq
  simp only [pow_eq_zero_iff (two_ne_zero), sub_eq_zero] at h1 h2
  exact mul_left_cancel₀ hn (h1.trans h2.symm)

theorem olsDenominator_pos {points : List CalibrationPoint} (hfin : AllFinite points)
    (hne : IntensitiesDiffer points) : 0 < olsDenominator points := by
  rcases (olsDenominator_nonneg points).lt_or_eq with h | h
  · exact h
  · exfalso
    obtain ⟨p, hp, q, hq, hpq⟩ := hne
    have hx := xOf_eq_of_olsDenominator_eq_zero h.symm p hp q hq
    apply hpq
    rw [eq_fin_toRat (hfin p hp).1, eq_fin_toRat (hfin q hq).1]
    exact congrArg JSNum.fin hx


/-! ## The regression on finite points -/

theorem zipWith_map_self {α β γ : Type} (f : α → β → γ) (g : α → β) (l : List α) :
    List.zipWith f l (l.map g) = l.map (fun a => f a (g a)) := by
  induction l with
  | nil => rfl
  | cons a l ih => simp [ih]

theorem intensity_eq_fin {points : List CalibrationPoint} (hfin : AllFinite points)
    {p : CalibrationPoint} (hp : p ∈ points) : p.intensity = JSNum.fin (xOf p) :=
  eq_fin_toRat (hfin p hp).1

theorem concentration_eq_fin {points : List CalibrationPoint} (hfin : AllFinite points)
    {p : CalibrationPoint} (hp : p ∈ points) : p.concentration = JSNum.fin (yOf p) :=
  eq_fin_toRat (hfin p hp).2

theorem length_ne_zero_of_olsDenominator {points : List CalibrationPoint}
    (hD : olsDenominator points ≠ 0) : (points.length : ℚ) ≠ 0 := by
  intro h
  apply hD
  have : points = [] := List.length_eq_zero.mp (by exact_mod_cast h)
  subst this
  simp [olsDenominator, sumOver]

/-- On finite points with a non-zero denominator, `calculateRegression` returns
the least-squares line and the quantities derived from it. -/
theorem calculateRegression_of_finite (sqrt : JSNum → JSNum) {points : List CalibrationPoint}
    (hfin : AllFinite points) (hD : olsDenominator points ≠ 0) :
    calculateRegression sqrt points =
      ⟨JSNum.fin (olsSlope points), JSNum.fin (olsIntercept points),
        JSNum.fin 1 -
          JSNum.fin (residualSumOfSquares (olsSlope points) (olsIntercept points) points) /
            JSNum.fin (totalSumOfSquares points),
        sqrt (JSNum.fin
          (residualSumOfSquares (olsSlope points) (olsIntercept points) points /
            (points.length : ℚ))),
        points.length,
        points.map (fun p => JSNum.fin (olsSlope points * xOf p + olsIntercept points)),
        points.map (fun p =>
          JSNum.fin (yOf p - (olsSlope points * xOf p + olsIntercept points)))⟩ := by
  have hn := length_ne_zero_of_olsDenominator hD
  have hsumX : points.foldl (fun sum p => sum + p.intensity) (JSNum.fin 0) =
      JSNum.fin (sumOver points xOf) :=
    foldl_add_fin_zero _ _ points (fun p hp => intensity_eq_fin hfin hp)
  have hsumY : points.foldl (fun sum p => sum + p.concentration) (JSNum.fin 0) =
      JSNum.fin (sumOver points yOf) :=
    foldl_add_fin_zero _ _ points (fun p hp => concentration_eq_fin hfin hp)
  have hsumXY : points.foldl (fun sum p => sum + p.intensity * p.concentration) (JSNum.fin 0) =
      JSNum.fin (sumOver points (fun p => xOf p * yOf p)) :=
    foldl_add_fin_zero _ _ points (fun p hp => by
      rw [intensity_eq_fin hfin hp, concentration_eq_fin hfin hp, fin_mul])
  have hsumXX : points.foldl (fun sum p => sum + p.intensity * p.intensity) (JSNum.fin 0) =
      JSNum.fin (sumOver points (fun p => xOf p * xOf p)) :=
    foldl_add_fin_zero _ _ points (fun p hp => by
      rw [intensity_eq_fin hfin hp, fin_mul])
  have hslope : (JSNum.ofNat points.length * JSNum.fin (sumOver points (fun p => xOf p * yOf p)) -
      JSNum.fin (sumOver points xOf) * JSNum.fin (sumOver points yOf)) /
      (JSNum.ofNat points.length * JSNum.fin (sumOver points (fun p => xOf p * xOf p)) -
        JSNum.fin (sumOver points xOf) * JSNum.fin (sumOver points xOf)) =
      JSNum.fin (olsSlope points) := by
    simp only [JSNum.ofNat, fin_mul, fin_sub]
    exact fin_div _ _ hD
  have hintercept : (JSNum.fin (sumOver points yOf) -
      JSNum.fin (olsSlope points) * JSNum.fin (sumOver points xOf)) /
      JSNum.ofNat points.length = JSNum.fin (olsIntercept points) := by
    simp only [JSNum.ofNat, fin_mul, fin_sub]
    exact fin_div _ _ hn
  have hpred : points.map (fun p =>
      JSNum.fin (olsSlope points) * p.intensity + JSNum.fin (olsIntercept points)) =
      points.map (fun p => JSNum.fin (olsSlope points * xOf p + olsIntercept points)) :=
    List.map_congr_left (fun p hp => by
      rw [intensity_eq_fin hfin hp, fin_mul, fin_add])
  have hres : List.zipWith (fun (p : CalibrationPoint) pr => p.concentration - pr) points
      (points.map (fun p => JSNum.fin (olsSlope points * xOf p + olsIntercept points))) =
      points.map (fun p =>
        JSNum.fin (yOf p - (olsSlope points * xOf p + olsIntercept points))) := by
    rw [zipWith_map_self]
    exact List.map_congr_left (fun p hp => by
      rw [concentration_eq_fin hfin hp, fin_sub])
  have hmean : JSNum.fin (sumOver points yOf) / JSNum.ofNat points.length =
      JSNum.fin (sumOver points yOf / (points.length : ℚ)) := by
    simp only [JSNum.ofNat]
    rw [fin_div _ _ hn]
  have htotal : points.foldl (fun sum p => sum + JSNum.pow2
      (p.concentration - JSNum.fin (sumOver points yOf / (points.length : ℚ)))) (JSNum.fin 0) =
      JSNum.fin (totalSumOfSquares points) :=
    foldl_add_fin_zero _ _ points (fun p hp => by
      rw [concentration_eq_fin hfin hp, fin_sub, JSNum.pow2, fin_mul, ← pow_two])
  have hssr : (points.map (fun p =>
      JSNum.fin (yOf p - (olsSlope points * xOf p + olsIntercept points)))).foldl
      (fun sum r => sum + r * r) (JSNum.fin 0) =
      JSNum.fin (residualSumOfSquares (olsSlope points) (olsIntercept points) points) := by
    rw [foldl_sq_map_fin, zero_add]
    rfl
  have hrmse : JSNum.fin (residualSumOfSquares (olsSlope points) (olsIntercept points) points) /
      JSNum.ofNat points.length =
      JSNum.fin (residualSumOfSquares (olsSlope points) (olsIntercept points) points /
        (points.length : ℚ)) := by
    simp only [JSNum.ofNat]
    rw [fin_div _ _ hn]
  simp only [calculateRegression, hsumX, hsumY, hsumXY, hsumXX, hslope, hintercept, hpred,
    hres, hmean, htotal, hssr, hrmse]

/-- The normal equations make the least-squares line a minimiser. -/
theorem residualSumOfSquares_olsSlope_le {points : List CalibrationPoint}
    (hD : 0 < olsDenominator points) (m c : ℚ) :
    residualSumOfSquares (olsSlope points) (olsIntercept points) points ≤
      residualSumOfSquares m c points := by
  have hn := length_ne_zero_of_olsDenominator hD.ne'
  have hnpos : (0 : ℚ) < (points.length : ℚ) :=
    lt_of_le_of_ne (Nat.cast_nonneg _) (Ne.symm hn)
  have h1 : olsSlope points * olsDenominator points =
      (points.length : ℚ) * sumOver points (fun p => xOf p * yOf p) -
        sumOver points xOf * sumOver points yOf := by
    unfold olsSlope
    field_simp
  have h2 : (points.length : ℚ) * olsIntercept points =
      sumOver points yOf - olsSlope points * sumOver points xOf := by
    unfold olsIntercept
    field_simp
  have key : (points.length : ℚ) *
      (residualSumOfSquares m c points -
        residualSumOfSquares (olsSlope points) (olsIntercept points) points) =
      ((points.length : ℚ) * (c - olsIntercept points) +
        (m - olsSlope points) * sumOver points xOf) ^ 2 +
        (m - olsSlope points) ^ 2 * olsDenominator points := by
    rw [residualSumOfSquares_expand, residualSumOfSquares_expand]
    unfold olsDenominator at h1 ⊢
    linear_combination (2 * (m - olsSlope points)) * h1 +
      (2 * (m - olsSlope points) * sumOver points xOf +
        2 * (points.length : ℚ) * (c - olsIntercept points)) * h2
  have hnonneg : 0 ≤ (points.length : ℚ) *
      (residualSumOfSquares m c points -
        residualSumOfSquares (olsSlope points) (olsIntercept points) points) := by
    rw [key]
    have := mul_nonneg (sq_nonneg (m - olsSlope points)) hD.le
    positivity
  have := nonneg_of_mul_nonneg_right hnonneg hnpos
  linarith


/-! ## Points on a line -/

theorem sumOver_affine (points : List CalibrationPoint) (f : CalibrationPoint → ℚ) (a b : ℚ) :
    sumOver points (fun p => a * f p + b) = a * sumOver points f + (points.length : ℚ) * b := by
  induction points with
  | nil => simp [sumOver]
  | cons p rest ih =>
    simp only [sumOver_cons, ih, List.length_cons, Nat.cast_add, Nat.cast_one]
    ring

theorem sumOver_mul_affine (points : List CalibrationPoint) (f : CalibrationPoint → ℚ)
    (a b : ℚ) :
    sumOver points (fun p => f p * (a * f p + b)) =
      a * sumOver points (fun p => f p * f p) + b * sumOver points f := by
  induction points with
  | nil => simp [sumOver]
  | cons p rest ih =>
    simp only [sumOver_cons, ih]
    ring

theorem allFinite_of_line {points : List CalibrationPoint} {m c : ℚ}
    (hline : ∀ p ∈ points, ∃ x, p.intensity = JSNum.fin x ∧
      p.concentration = JSNum.fin (m * x + c)) : AllFinite points := by
  intro p hp
  obtain ⟨x, hx, hy⟩ := hline p hp
  rw [hx, hy]
  exact ⟨rfl, rfl⟩

theorem yOf_of_line {points : List CalibrationPoint} {m c : ℚ}
    (hline : ∀ p ∈ points, ∃ x, p.intensity = JSNum.fin x ∧
      p.concentration = JSNum.fin (m * x + c)) :
    ∀ p ∈ points, yOf p = m * xOf p + c := by
  intro p hp
  obtain ⟨x, hx, hy⟩ := hline p hp
  simp [yOf, xOf, hx, hy, JSNum.toRat]

theorem olsSlope_of_line {points : List CalibrationPoint} {m c : ℚ}
    (hy : ∀ p ∈ points, yOf p = m * xOf p + c) (hD : olsDenominator points ≠ 0) :
    olsSlope points = m := by
  have h1 : sumOver points yOf = m * sumOver points xOf + (points.length : ℚ) * c := by
    rw [sumOver_congr hy, sumOver_affine]
  have h2 : sumOver points (fun p => xOf p * yOf p) =
      m * sumOver points (fun p => xOf p * xOf p) + c * sumOver points xOf := by
    rw [sumOver_congr (fun p hp => by rw [hy p hp]), sumOver_mul_affine]
  unfold olsSlope
  rw [div_eq_iff hD, h1, h2]
  unfold olsDenominator
  ring

theorem olsIntercept_of_line {points : List CalibrationPoint} {m c : ℚ}
    (hy : ∀ p ∈ points, yOf p = m * xOf p + c) (hD : olsDenominator points ≠ 0) :
    olsIntercept points = c := by
  have hn := length_ne_zero_of_olsDenominator hD
  have h1 : sumOver points yOf = m * sumOver points xOf + (points.length : ℚ) * c := by
    rw [sumOver_congr hy, sumOver_affine]
  unfold olsIntercept
  rw [olsSlope_of_line hy hD, div_eq_iff hn, h1]
  ring

theorem residualSumOfSquares_of_line {points : List CalibrationPoint} {m c : ℚ}
    (hy : ∀ p ∈ points, yOf p = m * xOf p + c) : residualSumOfSquares m c points = 0 := by
  unfold residualSumOfSquares
  rw [sumOver_congr (g := fun _ => 0) (fun p hp => by rw [hy p hp]; ring)]
  simp [sumOver]

/-- If the total sum of squares vanishes, all the points have the same `y`. -/
theorem yOf_eq_of_totalSumOfSquares_eq_zero {points : List CalibrationPoint}
    (h : totalSumOfSquares points = 0) : ∀ p ∈ points, ∀ q ∈ points, yOf p = yOf q := by
  intro p hp q hq
  have hz := eq_zero_of_sumOver_eq_zero (fun r _ => sq_nonneg _) h
  have h1 := hz p hp
  have h2 := hz q hq
  simp only [pow_eq_zero_iff (two_ne_zero), sub_eq_zero] at h1 h2
  exact h1.trans h2.symm

theorem totalSumOfSquares_ne_zero {points : List CalibrationPoint} (hfin : AllFinite points)
    (hne : ConcentrationsDiffer points) : totalSumOfSquares points ≠ 0 := by
  intro h
  obtain ⟨p, hp, q, hq, hpq⟩ := hne
  apply hpq
  rw [eq_fin_toRat (hfin p hp).2, eq_fin_toRat (hfin q hq).2]
  exact congrArg JSNum.fin (yOf_eq_of_totalSumOfSquares_eq_zero h p hp q hq)

theorem concentrationsDiffer_of_line {points : List CalibrationPoint} {m c : ℚ}
    (hline : ∀ p ∈ points, ∃ x, p.intensity = JSNum.fin x ∧
      p.concentration = JSNum.fin (m * x + c))
    (hne : IntensitiesDiffer points) (hm : m ≠ 0) : ConcentrationsDiffer points := by
  obtain ⟨p, hp, q, hq, hpq⟩ := hne
  refine ⟨p, hp, q, hq, fun h => hpq ?_⟩
  obtain ⟨x, hx, hy⟩ := hline p hp
  obtain ⟨x2, hx2, hy2⟩ := hline q hq
  rw [hy, hy2] at h
  have h3 : m * x + c = m * x2 + c := JSNum.fin.inj h
  have h4 : x = x2 := mul_left_cancel₀ hm (by linarith)
  rw [hx, hx2, h4]

theorem calculateRegression_of_line (sqrt : JSNum → JSNum) (points : List CalibrationPoint)
    (m c : ℚ)
    (hline : ∀ p ∈ points, ∃ x, p.intensity = JSNum.fin x ∧
      p.concentration = JSNum.fin (m * x + c))
    (hne : IntensitiesDiffer points) :
    (calculateRegression sqrt points).slope = JSNum.fin m ∧
      (calculateRegression sqrt points).intercept = JSNum.fin c ∧
      (calculateRegression sqrt points).residuals = points.map (fun _ => JSNum.fin 0) ∧
      (sqrt (JSNum.fin 0) = JSNum.fin 0 →
        (calculateRegression sqrt points).rmse = JSNum.fin 0) ∧
      (calculateRegression sqrt points).nPoints = points.length ∧
      (m ≠ 0 → (calculateRegression sqrt points).rSquared = JSNum.fin 1) := by
  have hfin := allFinite_of_line hline
  have hy := yOf_of_line hline
  have hD := (olsDenominator_pos hfin hne).ne'
  have hs := olsSlope_of_line hy hD
  have hi := olsIntercept_of_line hy hD
  have hr := residualSumOfSquares_of_line hy
  rw [calculateRegression_of_finite sqrt hfin hD, hs, hi, hr]
  refine ⟨rfl, rfl, ?_, ?_, rfl, ?_⟩
  · exact List.map_congr_left (fun p hp => by rw [hy p hp, sub_self])
  · intro h0
    show sqrt (JSNum.fin (0 / (points.length : ℚ))) = JSNum.fin 0
    rw [zero_div, h0]
  · intro hm
    have ht := totalSumOfSquares_ne_zero hfin (concentrationsDiffer_of_line hline hne hm)
    show JSNum.fin 1 - JSNum.fin 0 / JSNum.fin (totalSumOfSquares points) = JSNum.fin 1
    rw [fin_div _ _ ht, zero_div, fin_sub, sub_zero]

theorem linePoints_on_line :
    ∀ p ∈ linePoints, ∃ x, p.intensity = JSNum.fin x ∧
      p.concentration = JSNum.fin (2 * x + 1) := by
  intro p hp
  simp only [linePoints, pointsOf, List.enum, List.enumFrom, List.map_cons, List.map_nil,
    List.mem_cons, List.mem_singleton, List.not_mem_nil, or_false] at hp
  rcases hp with rfl | rfl | rfl | rfl
  · exact ⟨1, rfl, by norm_num⟩
  · exact ⟨2, rfl, by norm_num⟩
  · exact ⟨3, rfl, by norm_num⟩
  · exact ⟨4, rfl, by norm_num⟩

/-! ## Degenerate inputs of the regression -/

theorem ofNat_one_mul (u : JSNum) : JSNum.ofNat 1 * u = u := by
  cases u with
  | nan => rfl
  | inf s =>
    show JSNum.mul (JSNum.fin ((1 : ℕ) : ℚ)) (JSNum.inf s) = JSNum.inf s
    cases s <;> simp [JSNum.mul]
  | fin q =>
    show JSNum.fin (((1 : ℕ) : ℚ) * q) = JSNum.fin q
    simp

theorem sub_self_nan_or_zero (u : JSNum) : u - u = JSNum.nan ∨ u - u = JSNum.fin 0 := by
  cases u with
  | nan => exact Or.inl rfl
  | inf s =>
    left
    show JSNum.add (JSNum.inf s) (JSNum.inf (!s)) = JSNum.nan
    cases s <;> rfl
  | fin q => exact Or.inr (by rw [fin_sub, sub_self])

theorem div_nan_or_zero {a b : JSNum} (ha : a = JSNum.nan ∨ a = JSNum.fin 0)
    (hb : b = JSNum.nan ∨ b = JSNum.fin 0) : a / b = JSNum.nan := by
  rcases hb with rfl | rfl
  · exact div_nan a
  · rcases ha with rfl | rfl
    · exact nan_div _
    · exact fin_zero_div_zero

theorem foldl_from_nan (l : List JSNum) :
    l.foldl (fun sum r => sum + r * r) JSNum.nan = JSNum.nan := by
  induction l with
  | nil => rfl
  | cons r l ih => rw [List.foldl_cons, nan_add, ih]

theorem foldl_map_nan (points : List CalibrationPoint) (hne : points ≠ []) (init : JSNum) :
    (points.map (fun _ => JSNum.nan)).foldl (fun sum r => sum + r * r) init = JSNum.nan := by
  cases points with
  | nil => exact absurd rfl hne
  | cons p rest => rw [List.map_cons, List.foldl_cons, nan_mul, add_nan, foldl_from_nan]

/-- When the slope is `NaN`, so are the intercept and R². -/
theorem regression_nan_of_slope_nan (sqrt : JSNum → JSNum) (points : List CalibrationPoint)
    (hs : (calculateRegression sqrt points).slope = JSNum.nan) :
    (calculateRegression sqrt points).intercept = JSNum.nan ∧
      (calculateRegression sqrt points).rSquared = JSNum.nan := by
  simp only [calculateRegression] at hs ⊢
  rw [hs]
  simp only [nan_mul, sub_nan, nan_div, nan_add, zipWith_map_self, true_and]
  cases points with
  | nil =>
    show JSNum.fin 1 - JSNum.fin 0 / JSNum.fin 0 = JSNum.nan
    rw [fin_zero_div_zero, sub_nan]
  | cons p rest =>
    rw [foldl_map_nan (p :: rest) (List.cons_ne_nil _ _), nan_div, sub_nan]

theorem slope_nil (sqrt : JSNum → JSNum) : (calculateRegression sqrt []).slope = JSNum.nan := by
  show (JSNum.ofNat 0 * JSNum.fin 0 - JSNum.fin 0 * JSNum.fin 0) /
    (JSNum.ofNat 0 * JSNum.fin 0 - JSNum.fin 0 * JSNum.fin 0) = JSNum.nan
  simp only [JSNum.ofNat, fin_mul, fin_sub, Nat.cast_zero, mul_zero, sub_zero]
  exact fin_zero_div_zero

theorem slope_singleton (sqrt : JSNum → JSNum) (p : CalibrationPoint) :
    (calculateRegression sqrt [p]).slope = JSNum.nan := by
  show (JSNum.ofNat 1 * (JSNum.fin 0 + p.intensity * p.concentration) -
      (JSNum.fin 0 + p.intensity) * (JSNum.fin 0 + p.concentration)) /
    (JSNum.ofNat 1 * (JSNum.fin 0 + p.intensity * p.intensity) -
      (JSNum.fin 0 + p.intensity) * (JSNum.fin 0 + p.intensity)) = JSNum.nan
  simp only [fin_zero_add, ofNat_one_mul]
  exact div_nan_or_zero (sub_self_nan_or_zero _) (sub_self_nan_or_zero _)

/-- C16, as stated, fails: on the empty list `calculateRegression` does not
fail with `InsufficientPoints`; it returns an object whose slope, intercept, R²
and RMSE are `NaN`. -/
theorem calculateRegression_empty_returns :
    calculateRegressionOutcome sqrtOnSquares [] ≠
        Except.error CalibrationError.insufficientPoints ∧
      calculateRegressionOutcome sqrtOnSquares [] =
        Except.ok ⟨JSNum.nan, JSNum.nan, JSNum.nan, JSNum.nan, 0, [], []⟩ := by
  constructor
  · intro h
    cases h
  · exact congrArg Except.ok (by decide!)

/-- C16, amended: given fewer than 2 points, `calculateRegression` returns an
object (it has no guard and no failure) with `nPoints` the number of points and
with slope, intercept and R² equal to `NaN`. -/
theorem calculateRegression_few_points (sqrt : JSNum → JSNum)
    (points : List CalibrationPoint) (h : points.length < 2) :
    calculateRegressionOutcome sqrt points = Except.ok (calculateRegression sqrt points) ∧
      (calculateRegression sqrt points).nPoints = points.length ∧
      (calculateRegression sqrt points).slope = JSNum.nan ∧
      (calculateRegression sqrt points).intercept = JSNum.nan ∧
      (calculateRegression sqrt points).rSquared = JSNum.nan := by
  have hs : (calculateRegression sqrt points).slope = JSNum.nan := by
    rcases points with _ | ⟨p, _ | ⟨q, rest⟩⟩
    · exact slope_nil sqrt
    · exact slope_singleton sqrt p
    · simp only [List.length_cons] at h
      omega
  exact ⟨rfl, rfl, hs, regression_nan_of_slope_nan sqrt points hs⟩

/-- An instance of the amended C16: a single point gives a `NaN` slope. -/
theorem calculateRegression_few_points_witness :
    (pointsOf [(1, 1)]).length < 2 ∧
      (calculateRegression sqrtOnSquares (pointsOf [(1, 1)])).slope = JSNum.nan :=
  ⟨by decide,
    (calculateRegression_few_points sqrtOnSquares (pointsOf [(1, 1)]) (by decide)).2.2.1⟩

/-! ## Equal intensities -/

theorem sumOver_const (points : List CalibrationPoint) (a : ℚ) :
    sumOver points (fun _ => a) = (points.length : ℚ) * a := by
  induction points with
  | nil => simp [sumOver]
  | cons p rest ih =>
    simp only [sumOver_cons, ih, List.length_cons, Nat.cast_add, Nat.cast_one]
    ring

theorem sumOver_const_mul (points : List CalibrationPoint) (f : CalibrationPoint → ℚ) (a : ℚ) :
    sumOver points (fun p => a * f p) = a * sumOver points f := by
  induction points with
  | nil => simp [sumOver]
  | cons p rest ih =>
    simp only [sumOver_cons, ih]
    ring

theorem slope_of_finite (sqrt : JSNum → JSNum) {points : List CalibrationPoint}
    (hfin : AllFinite points) :
    (calculateRegression sqrt points).slope =
      JSNum.fin ((points.length : ℚ) * sumOver points (fun p => xOf p * yOf p) -
        sumOver points xOf * sumOver points yOf) /
      JSNum.fin (olsDenominator points) := by
  have hsumX : points.foldl (fun sum p => sum + p.intensity) (JSNum.fin 0) =
      JSNum.fin (sumOver points xOf) :=
    foldl_add_fin_zero _ _ points (fun p hp => intensity_eq_fin hfin hp)
  have hsumY : points.foldl (fun sum p => sum + p.concentration) (JSNum.fin 0) =
      JSNum.fin (sumOver points yOf) :=
    foldl_add_fin_zero _ _ points (fun p hp => concentration_eq_fin hfin hp)
  have hsumXY : points.foldl (fun sum p => sum + p.intensity * p.concentration) (JSNum.fin 0) =
      JSNum.fin (sumOver points (fun p => xOf p * yOf p)) :=
    foldl_add_fin_zero _ _ points (fun p hp => by
      rw [intensity_eq_fin hfin hp, concentration_eq_fin hfin hp, fin_mul])
  have hsumXX : points.foldl (fun sum p => sum + p.intensity * p.intensity) (JSNum.fin 0) =
      JSNum.fin (sumOver points (fun p => xOf p * xOf p)) :=
    foldl_add_fin_zero _ _ points (fun p hp => by
      rw [intensity_eq_fin hfin hp, fin_mul])
  simp only [calculateRegression, hsumX, hsumY, hsumXY, hsumXX, JSNum.ofNat, fin_mul, fin_sub]
  rfl

theorem slope_nan_of_equal_intensity (sqrt : JSNum → JSNum) {points : List CalibrationPoint}
    (hfin : AllFinite points)
    (heq : ∀ p ∈ points, ∀ q ∈ points, p.intensity = q.intensity) :
    (calculateRegression sqrt points).slope = JSNum.nan := by
  cases points with
  | nil => exact slope_nil sqrt
  | cons p0 rest =>
    have hx : ∀ p ∈ p0 :: rest, xOf p = xOf p0 := fun p hp => by
      unfold xOf
      rw [heq p hp p0 (List.mem_cons_self _ _)]
    have h1 : sumOver (p0 :: rest) xOf = ((p0 :: rest).length : ℚ) * xOf p0 := by
      rw [sumOver_congr hx, sumOver_const]
    have h2 : sumOver (p0 :: rest) (fun p => xOf p * xOf p) =
        ((p0 :: rest).length : ℚ) * (xOf p0 * xOf p0) := by
      rw [sumOver_congr (fun p hp => by rw [hx p hp]), sumOver_const]
    have h3 : sumOver (p0 :: rest) (fun p => xOf p * yOf p) =
        xOf p0 * sumOver (p0 :: rest) yOf := by
      rw [sumOver_congr (fun p hp => by rw [hx p hp]), sumOver_const_mul]
    have hN : ((p0 :: rest).length : ℚ) * sumOver (p0 :: rest) (fun p => xOf p * yOf p) -
        sumOver (p0 :: rest) xOf * sumOver (p0 :: rest) yOf = 0 := by
      rw [h1, h3]
      ring
    have hD : olsDenominator (p0 :: rest) = 0 := by
      unfold olsDenominator
      rw [h1, h2]
      ring
    rw [slope_of_finite sqrt hfin, hN, hD]
    exact fin_zero_div_zero

/-! ## The calibration state manager -/

theorem filter_applyExclusions (excluded : Option (List Nat)) (extracted : List CalibrationPoint)
    (h : ∀ p ∈ extracted, p.excluded = false) :
    (applyExclusions excluded extracted).filter (fun p => !p.excluded) =
      includedPoints excluded extracted := by
  unfold applyExclusions includedPoints
  induction extracted with
  | nil => rfl
  | cons p rest ih =>
    have hp := h p (List.mem_cons_self _ _)
    have ih2 := ih (fun q hq => h q (List.mem_cons_of_mem _ hq))
    rw [List.map_cons, List.filter_cons, List.filter_cons, ih2]
    cases excluded with
    | none => simp [hp]
    | some set =>
      by_cases hmem : p.index ∈ set
      · simp [hmem]
      · obtain ⟨idx, label, conc, inten, excl⟩ := p
        simp only at hp hmem
        subst hp
        simp [hmem]

theorem displaySingleCalibration_calibrations (sqrt : JSNum → JSNum) (s : CalibrationState)
    (analyte col : JSString) (data : List StandardRow) (hdata : s.standardsData = some data) :
    (displaySingleCalibration sqrt s analyte col).calibrations =
      if 2 ≤ (includedPoints (s.excludedStandards analyte)
          (extractCalibrationPoints data col)).length then
        fun a => if a = analyte then
          some (storedCalibration sqrt data (s.excludedStandards analyte) col)
        else s.calibrations a
      else s.calibrations := by
  have hfilter := filter_applyExclusions (s.excludedStandards analyte)
    (extractCalibrationPoints data col) (extractCalibrationPoints_excluded data col)
  have hle : (includedPoints (s.excludedStandards analyte)
      (extractCalibrationPoints data col)).length ≤
      (extractCalibrationPoints data col).length := List.length_filter_le _ _
  simp only [displaySingleCalibration, hdata, hfilter]
  by_cases h2 : 2 ≤ (includedPoints (s.excludedStandards analyte)
      (extractCalibrationPoints data col)).length
  · rw [if_pos h2, if_neg (by omega), if_neg (by omega)]
    rfl
  · rw [if_neg h2]
    by_cases h1 : (extractCalibrationPoints data col).length < 2
    · rw [if_pos h1]
    · rw [if_neg h1, if_pos (by omega)]

theorem displaySingleCalibration_excludedStandards (sqrt : JSNum → JSNum)
    (s : CalibrationState) (analyte col : JSString) :
    (displaySingleCalibration sqrt s analyte col).excludedStandards = s.excludedStandards := by
  unfold displaySingleCalibration
  simp only
  split
  · rfl
  · split
    · rfl
    · split <;> rfl

theorem displaySingleCalibration_standardsData (sqrt : JSNum → JSNum)
    (s : CalibrationState) (analyte col : JSString) :
    (displaySingleCalibration sqrt s analyte col).standardsData = s.standardsData := by
  unfold displaySingleCalibration
  simp only
  split
  · rfl
  · split
    · rfl
    · split <;> rfl

theorem displaySingleCalibration_currentIntensityCol (sqrt : JSNum → JSNum)
    (s : CalibrationState) (analyte col : JSString) :
    (displaySingleCalibration sqrt s analyte col).currentIntensityCol = some col := by
  unfold displaySingleCalibration
  simp only
  split
  · rfl
  · split
    · rfl
    · split <;> rfl

/-- C18: when `displaySingleCalibration(analyte, column)` stores a calibration,
which it does exactly when at least 2 extracted points are not excluded, the
cached points are the extracted points with their flags, the cached model is
`calculateRegression` of the extracted points whose index is not in the
exclusion set of the analyte, in point order, and its `nPoints` is the number of
those points; otherwise the cache is left as it was. -/
theorem displaySingleCalibration_stores (sqrt : JSNum → JSNum) (s : CalibrationState)
    (analyte col : JSString) (data : List StandardRow) (hdata : s.standardsData = some data) :
    (2 ≤ (includedPoints (s.excludedStandards analyte)
        (extractCalibrationPoints data col)).length →
      (displaySingleCalibration sqrt s analyte col).calibrations analyte =
          some ⟨applyExclusions (s.excludedStandards analyte)
              (extractCalibrationPoints data col),
            calculateRegression sqrt (includedPoints (s.excludedStandards analyte)
              (extractCalibrationPoints data col)), col⟩ ∧
        (calculateRegression sqrt (includedPoints (s.excludedStandards analyte)
            (extractCalibrationPoints data col))).nPoints =
          (includedPoints (s.excludedStandards analyte)
            (extractCalibrationPoints data col)).length) ∧
    (¬ 2 ≤ (includedPoints (s.excludedStandards analyte)
        (extractCalibrationPoints data col)).length →
      (displaySingleCalibration sqrt s analyte col).calibrations = s.calibrations) := by
  rw [displaySingleCalibration_calibrations sqrt s analyte col data hdata]
  constructor
  · intro h
    rw [if_pos h]
    exact ⟨by simp [storedCalibration], rfl⟩
  · intro h
    rw [if_neg h]

/-- An instance of C18: displaying `Ba Intensity` on the three standards stores
the regression of the three points. -/
theorem displaySingleCalibration_stores_witness :
    loadedState.standardsData = some threeStandards ∧
      (displaySingleCalibration sqrtOnSquares loadedState (js "Ba")
        (js "Ba Intensity")).calibrations (js "Ba") =
        some ⟨applyExclusions (loadedState.excludedStandards (js "Ba"))
            (extractCalibrationPoints threeStandards (js "Ba Intensity")),
          calculateRegression sqrtOnSquares
            (includedPoints (loadedState.excludedStandards (js "Ba"))
              (extractCalibrationPoints threeStandards (js "Ba Intensity"))),
          js "Ba Intensity"⟩ :=
  ⟨rfl,
    ((displaySingleCalibration_stores sqrtOnSquares loadedState (js "Ba") (js "Ba Intensity")
      threeStandards rfl).1 (by decide!)).1⟩


/-! ## Toggling a standard -/

theorem mem_toggleIndex (set : List Nat) (index j : Nat) :
    j ∈ toggleIndex set index ↔ (j ∈ set ∧ j ≠ index) ∨ (j = index ∧ index ∉ set) := by
  unfold toggleIndex
  by_cases h : index ∈ set
  · rw [if_pos h]
    simp [List.mem_filter, h]
  · rw [if_neg h]
    simp only [List.mem_append, List.mem_singleton, h, not_false_eq_true, and_true]
    constructor
    · rintro (hj | hj)
      · exact Or.inl ⟨hj, fun e => h (e ▸ hj)⟩
      · exact Or.inr hj
    · rintro (⟨hj, -⟩ | hj)
      · exact Or.inl hj
      · exact Or.inr hj

theorem mem_toggleIndex_twice (set : List Nat) (index j : Nat) :
    j ∈ toggleIndex (toggleIndex set index) index ↔ j ∈ set := by
  rw [mem_toggleIndex, mem_toggleIndex, mem_toggleIndex]
  by_cases hj : j = index
  · subst hj
    by_cases h : j ∈ set <;> simp [h]
  · simp [hj]

theorem applyExclusions_eq_map (excluded : Option (List Nat))
    (extracted : List CalibrationPoint) (h : ∀ p ∈ extracted, p.excluded = false) :
    applyExclusions excluded extracted =
      extracted.map (fun p => { p with excluded := decide (p.index ∈ excluded.getD []) }) := by
  unfold applyExclusions
  apply List.map_congr_left
  intro p hp
  cases excluded with
  | none =>
    have := h p hp
    obtain ⟨idx, label, conc, inten, excl⟩ := p
    simp only at this
    subst this
    simp
  | some set => rfl

theorem applyExclusions_congr {e1 e2 : Option (List Nat)} (extracted : List CalibrationPoint)
    (h : ∀ p ∈ extracted, p.excluded = false)
    (hmem : ∀ j, j ∈ e1.getD [] ↔ j ∈ e2.getD []) :
    applyExclusions e1 extracted = applyExclusions e2 extracted := by
  rw [applyExclusions_eq_map e1 extracted h, applyExclusions_eq_map e2 extracted h]
  apply List.map_congr_left
  intro p _
  have : decide (p.index ∈ e1.getD []) = decide (p.index ∈ e2.getD []) := by
    rw [decide_eq_decide]
    exact hmem p.index
  rw [this]

theorem includedPoints_congr {e1 e2 : Option (List Nat)} (extracted : List CalibrationPoint)
    (hmem : ∀ j, j ∈ e1.getD [] ↔ j ∈ e2.getD []) :
    includedPoints e1 extracted = includedPoints e2 extracted := by
  unfold includedPoints
  apply List.filter_congr
  intro p _
  rw [decide_eq_decide]
  exact not_congr (hmem p.index)

theorem storedCalibration_congr (sqrt : JSNum → JSNum) (data : List StandardRow)
    {e1 e2 : Option (List Nat)} (col : JSString)
    (hmem : ∀ j, j ∈ e1.getD [] ↔ j ∈ e2.getD []) :
    storedCalibration sqrt data e1 col = storedCalibration sqrt data e2 col := by
  unfold storedCalibration
  rw [applyExclusions_congr _ (extractCalibrationPoints_excluded data col) hmem,
    includedPoints_congr _ hmem]

theorem toggleStandard_of_column (sqrt : JSNum → JSNum) (s : CalibrationState)
    (analyte : JSString) (index : Nat) {col : JSString}
    (hcol : s.currentIntensityCol = some col) (hne : col.isEmpty = false) :
    toggleStandard sqrt s analyte index =
      displaySingleCalibration sqrt (withToggled s analyte index) analyte col := by
  simp [toggleStandard, withToggled, hcol, hne]

theorem toggleStandard_of_no_column (sqrt : JSNum → JSNum) (s : CalibrationState)
    (analyte : JSString) (index : Nat)
    (hcol : s.currentIntensityCol = none ∨ s.currentIntensityCol = some []) :
    toggleStandard sqrt s analyte index = withToggled s analyte index := by
  rcases hcol with hcol | hcol <;> simp [toggleStandard, withToggled, hcol]

theorem withToggled_excludedStandards (s : CalibrationState) (analyte : JSString)
    (index : Nat) :
    (withToggled s analyte index).excludedStandards analyte =
      some (toggleIndex ((s.excludedStandards analyte).getD []) index) := by
  simp [withToggled]

/-- C19, as stated, fails: in the state where the exclusion of standard 1 was
refused, the cache holds a calibration for `Ba`, and toggling standard 0 twice
leaves a different cached calibration. -/
theorem double_toggle_changes_stale_cache :
    (staleState.calibrations (js "Ba")).isSome = true ∧
      (toggleStandard sqrtOnSquares (toggleStandard sqrtOnSquares staleState (js "Ba") 0)
        (js "Ba") 0).calibrations (js "Ba") ≠ staleState.calibrations (js "Ba") := by
  decide!

/-- C19, amended: when the cached calibration of the analyte is the one that
`displaySingleCalibration` stores for the selected column and the current
exclusion set (or no column is selected), calling `toggleStandard(analyte, index)`
twice returns the exclusion set, as a set of indices, and the cached calibration
of the analyte, its points with their flags and its model, to their values
before the first call. -/
theorem toggleStandard_twice (sqrt : JSNum → JSNum) (s : CalibrationState)
    (analyte : JSString) (index : Nat) (hsync : CacheInSync sqrt s analyte) :
    (toggleStandard sqrt (toggleStandard sqrt s analyte index) analyte index).calibrations
        analyte = s.calibrations analyte ∧
      ∀ j, j ∈ ((toggleStandard sqrt (toggleStandard sqrt s analyte index) analyte
          index).excludedStandards analyte).getD [] ↔
        j ∈ (s.excludedStandards analyte).getD [] := by
  by_cases hcol : s.currentIntensityCol = none ∨ s.currentIntensityCol = some []
  · have hcol2 : (withToggled s analyte index).currentIntensityCol = none ∨
        (withToggled s analyte index).currentIntensityCol = some [] := hcol
    rw [toggleStandard_of_no_column sqrt s analyte index hcol,
      toggleStandard_of_no_column sqrt _ analyte index hcol2, withToggled_excludedStandards,
      withToggled_excludedStandards]
    exact ⟨rfl, fun j => by simp [mem_toggleIndex_twice]⟩
  · obtain ⟨col, hc, hne⟩ : ∃ col, s.currentIntensityCol = some col ∧ col.isEmpty = false := by
      cases hs : s.currentIntensityCol with
      | none => exact absurd (Or.inl hs) hcol
      | some col =>
        cases col with
        | nil => exact absurd (Or.inr hs) hcol
        | cons c t => exact ⟨c :: t, rfl, rfl⟩
    obtain ⟨data, hdata, hlen, hcache⟩ := hsync col hc (by
      intro h
      rw [h] at hne
      exact absurd hne (by decide))
    have h1 : toggleStandard sqrt s analyte index =
        displaySingleCalibration sqrt (withToggled s analyte index) analyte col :=
      toggleStandard_of_column sqrt s analyte index hc hne
    have hcol1 := displaySingleCalibration_currentIntensityCol sqrt
      (withToggled s analyte index) analyte col
    have hex1 := displaySingleCalibration_excludedStandards sqrt
      (withToggled s analyte index) analyte col
    have hdata1 : (displaySingleCalibration sqrt (withToggled s analyte index) analyte
        col).standardsData = some data := by
      rw [displaySingleCalibration_standardsData]
      exact hdata
    rw [h1, toggleStandard_of_column sqrt _ analyte index hcol1 hne]
    have hex2 : (withToggled (displaySingleCalibration sqrt (withToggled s analyte index)
        analyte col) analyte index).excludedStandards analyte =
        some (toggleIndex (toggleIndex ((s.excludedStandards analyte).getD []) index)
          index) := by
      rw [withToggled_excludedStandards, hex1, withToggled_excludedStandards]
      rfl
    have hdata2 : (withToggled (displaySingleCalibration sqrt (withToggled s analyte index)
        analyte col) analyte index).standardsData = some data := hdata1
    have hmem : ∀ j, j ∈ (some (toggleIndex (toggleIndex
        ((s.excludedStandards analyte).getD []) index) index)).getD [] ↔
        j ∈ (s.excludedStandards analyte).getD [] := fun j => by
      simp [mem_toggleIndex_twice]
    constructor
    · rw [displaySingleCalibration_calibrations sqrt _ analyte col data hdata2, hex2,
        includedPoints_congr _ hmem, if_pos hlen, if_pos rfl,
        storedCalibration_congr sqrt data col hmem, hcache]
    · intro j
      rw [displaySingleCalibration_excludedStandards, hex2]
      exact hmem j

/-- An instance of the amended C19: after `Ba Intensity` is displayed, toggling
standard 0 twice restores the cached calibration. -/
theorem toggleStandard_twice_witness :
    CacheInSync sqrtOnSquares displayedState (js "Ba") ∧
      (toggleStandard sqrtOnSquares (toggleStandard sqrtOnSquares displayedState (js "Ba") 0)
        (js "Ba") 0).calibrations (js "Ba") = displayedState.calibrations (js "Ba") :=
  have hsync : CacheInSync sqrtOnSquares displayedState (js "Ba") := fun col hcol _ => by
    have hc : col = js "Ba Intensity" := by
      have h1 : displayedState.currentIntensityCol = some (js "Ba Intensity") := by decide!
      rw [h1] at hcol
      exact (Option.some.inj hcol).symm
    subst hc
    exact ⟨threeStandards, by decide!, by decide!, by decide!⟩
  ⟨hsync, (toggleStandard_twice sqrtOnSquares displayedState (js "Ba") 0 hsync).1⟩


/-! ## The frame of a toggle -/

theorem onlyToggledFlagDiffers_refl (points : List CalibrationPoint) (index : Nat) :
    OnlyToggledFlagDiffers points points index := by
  refine ⟨rfl, fun pq hpq => ?_⟩
  have h : pq.1 = pq.2 := by
    have hz : points.zip points = points.map (fun p => (p, p)) := by
      have := List.zip_map' (fun p : CalibrationPoint => p) (fun p => p) points
      simpa using this
    rw [hz] at hpq
    obtain ⟨p, -, rfl⟩ := List.mem_map.mp hpq
    rfl
  rw [h]
  exact ⟨rfl, rfl, rfl, rfl, fun hne => absurd rfl hne⟩

theorem onlyToggledFlagDiffers_applyExclusions (excluded : Option (List Nat))
    (extracted : List CalibrationPoint) (h : ∀ p ∈ extracted, p.excluded = false)
    (index : Nat) :
    OnlyToggledFlagDiffers (applyExclusions excluded extracted)
      (applyExclusions (some (toggleIndex (excluded.getD []) index)) extracted) index := by
  rw [applyExclusions_eq_map excluded extracted h,
    applyExclusions_eq_map (some (toggleIndex (excluded.getD []) index)) extracted h]
  refine ⟨by simp, fun pq hpq => ?_⟩
  rw [List.zip_map'] at hpq
  obtain ⟨p, -, rfl⟩ := List.mem_map.mp hpq
  refine ⟨rfl, rfl, rfl, rfl, fun hne => ?_⟩
  by_contra hidx
  apply hne
  show decide (p.index ∈ excluded.getD []) =
    decide (p.index ∈ (some (toggleIndex (excluded.getD []) index)).getD [])
  rw [decide_eq_decide]
  simp only [Option.getD_some, mem_toggleIndex]
  constructor
  · intro hm
    exact Or.inl ⟨hm, hidx⟩
  · rintro (⟨hm, -⟩ | ⟨he, -⟩)
    · exact hm
    · exact absurd he hidx

/-- C20, as stated, fails: in the state where the exclusion of standard 1 was
refused, the cache is the one of the selected column, and toggling standard 0
changes the `excluded` flag of the point of index 1 as well. -/
theorem toggle_changes_other_flag_in_stale_state :
    (staleState.calibrations (js "Ba")).map (fun cal => cal.intensityCol) =
        staleState.currentIntensityCol ∧
      ¬ OnlyToggledFlagDiffers (cachedPoints staleState (js "Ba"))
        (cachedPoints (toggleStandard sqrtOnSquares staleState (js "Ba") 0) (js "Ba")) 0 := by
  unfold OnlyToggledFlagDiffers
  decide!

/-- C20, amended: when the cached points of the analyte are the extraction of
the selected column with the flags of the current exclusion set, the points list
cached after `toggleStandard(analyte, index)` has the same length and order,
every point has the same index, label, concentration and intensity, and only
points of index `index` have a different `excluded` flag (none when the
recalculation is refused). -/
theorem toggleStandard_points_frame (sqrt : JSNum → JSNum) (s : CalibrationState)
    (analyte : JSString) (index : Nat) (data : List StandardRow) (cal : Calibration)
    (hdata : s.standardsData = some data) (hcal : s.calibrations analyte = some cal)
    (hcol : s.currentIntensityCol = some cal.intensityCol)
    (hsync : cal.points = applyExclusions (s.excludedStandards analyte)
      (extractCalibrationPoints data cal.intensityCol)) :
    ∃ cal2, (toggleStandard sqrt s analyte index).calibrations analyte = some cal2 ∧
      OnlyToggledFlagDiffers cal.points cal2.points index := by
  by_cases hempty : cal.intensityCol.isEmpty = true
  · have hnil : cal.intensityCol = [] := List.isEmpty_iff.mp hempty
    rw [toggleStandard_of_no_column sqrt s analyte index (Or.inr (by rw [hcol, hnil]))]
    exact ⟨cal, hcal, onlyToggledFlagDiffers_refl _ _⟩
  · have hne : cal.intensityCol.isEmpty = false := by simpa using hempty
    have hdata2 : (withToggled s analyte index).standardsData = some data := hdata
    rw [toggleStandard_of_column sqrt s analyte index hcol hne,
      displaySingleCalibration_calibrations sqrt _ analyte cal.intensityCol data hdata2]
    split
    · refine ⟨storedCalibration sqrt data
        ((withToggled s analyte index).excludedStandards analyte) cal.intensityCol,
        by simp, ?_⟩
      rw [withToggled_excludedStandards, hsync]
      exact onlyToggledFlagDiffers_applyExclusions _ _
        (extractCalibrationPoints_excluded data cal.intensityCol) index
    · exact ⟨cal, hcal, onlyToggledFlagDiffers_refl _ _⟩

/-- An instance of the amended C20: after `Ba Intensity` is displayed, excluding
standard 0 changes only the flag of the point of index 0. -/
theorem toggleStandard_points_frame_witness :
    ∃ cal cal2, displayedState.calibrations (js "Ba") = some cal ∧
      (toggleStandard sqrtOnSquares displayedState (js "Ba") 0).calibrations (js "Ba") =
        some cal2 ∧
      OnlyToggledFlagDiffers cal.points cal2.points 0 :=
  have hcal : displayedState.calibrations (js "Ba") =
      some (storedCalibration sqrtOnSquares threeStandards none (js "Ba Intensity")) := by
    decide!
  have h := toggleStandard_points_frame sqrtOnSquares displayedState (js "Ba") 0
    threeStandards (storedCalibration sqrtOnSquares threeStandards none (js "Ba Intensity"))
    (by decide!) hcal (by decide!) (by decide!)
  ⟨_, h.choose, hcal, h.choose_spec.1, h.choose_spec.2⟩


/-! ## An identifier that normalizes to the empty string -/

theorem similarityScore_nil_left {b : JSString} (hb : b ≠ []) :
    similarityScore [] b = 0.8 := by
  rw [similarityScore_of_contained (Ne.symm hb) (Or.inl List.nil_infix)]
  simp

theorem rowScore_of_empty_normalized {icpID : JSString} {r : Row}
    (hnorm : normalizeID icpID = []) (hr : normalizeID (sampleID r) ≠ []) :
    rowScore icpID r = 0.8 := by
  unfold rowScore
  rw [hnorm]
  exact similarityScore_nil_left hr

theorem sampleID_ne_nil_of_normalized {r : Row} (hr : normalizeID (sampleID r) ≠ []) :
    sampleID r ≠ [] := by
  intro h
  rw [h] at hr
  exact hr rfl

theorem findBestMatch_of_empty_normalized (icpID : JSString) (first : Row) (rest : List Row)
    (hnorm : normalizeID icpID = [])
    (hall : ∀ r ∈ first :: rest, normalizeID (sampleID r) ≠ []) :
    findBestMatch icpID (first :: rest) = some ⟨sampleID first, 0.8⟩ := by
  obtain ⟨h0, hle, hnone, hsome⟩ := findBestMatch_fold_inv icpID (first :: rest)
  have hfirst := hall first (List.mem_cons_self _ _)
  unfold findBestMatch
  cases hres : ((first :: rest).foldl (findBestMatchStep (normalizeID icpID)) (0, none)).2 with
  | none =>
    exfalso
    have h1 := hle first (List.mem_cons_self _ _) (sampleID_ne_nil_of_normalized hfirst)
    rw [hnone hres, rowScore_of_empty_normalized hnorm hfirst] at h1
    norm_num at h1
  | some bm =>
    obtain ⟨-, -, pre, r, post, hsplit, -, hid, hsc, hpre⟩ := hsome bm hres
    cases pre with
    | nil =>
      simp only [List.nil_append, List.cons.injEq] at hsplit
      obtain ⟨rfl, -⟩ := hsplit
      obtain ⟨id, score⟩ := bm
      simp only at hid hsc
      rw [hid, hsc, rowScore_of_empty_normalized hnorm hfirst]
    | cons x pre =>
      exfalso
      simp only [List.cons_append, List.cons.injEq] at hsplit
      obtain ⟨rfl, hrest⟩ := hsplit
      have hr : r ∈ first :: rest := by
        rw [hrest]
        exact List.mem_cons_of_mem _ (List.mem_append_right _ (List.mem_cons_self _ _))
      have h1 := hpre first (List.mem_cons_self _ _) (sampleID_ne_nil_of_normalized hfirst)
      rw [hsc, rowScore_of_empty_normalized hnorm hfirst,
        rowScore_of_empty_normalized hnorm (hall r hr)] at h1
      exact lt_irrefl _ h1

/-- C27: for an identifier whose normalized form is the empty string and a
canonical list, with a first record, in which every `'Sample ID'` normalizes to
a non-empty string, `findBestMatch` returns the first record with score 0.8; so
a source row whose first matching candidate column holds such an identifier, of
trimmed length at least 2, is matched by `matchSamplesForFile` to that first
record with confidence 0.8. -/
theorem findBestMatch_empty_normalized_first (icpID : JSString) (first : Row)
    (rest : List Row) (hnorm : normalizeID icpID = js "")
    (hall : ∀ r ∈ first :: rest, normalizeID (sampleID r) ≠ js "") :
    findBestMatch icpID (first :: rest) = some ⟨sampleID first, 0.8⟩ ∧
      ∀ (icpData : List Row) (filename : JSString) (index : Nat)
        (h : index < icpData.length) (pre : List JSString) (col : JSString)
        (post : List JSString),
        findSampleIDColumns icpData = pre ++ col :: post →
        (∀ c ∈ pre, ∀ b, ¬ ColumnMatches (first :: rest) (icpData.get ⟨index, h⟩) c b) →
        cellText (icpData.get ⟨index, h⟩) col = icpID → 2 ≤ icpID.length →
        (⟨filename, icpID, sampleID first, 0.8, index,
          findMainSample (first :: rest) (sampleID first)⟩ : Match) ∈
          matchSamplesForFile icpData (first :: rest) filename := by
  have hbest := findBestMatch_of_empty_normalized icpID first rest hnorm hall
  refine ⟨hbest, fun icpData filename index h pre col post hcols hpre hcell hlen => ?_⟩
  refine ((mem_matchSamplesForFile_iff icpData (first :: rest) filename index h _).mpr ?_).1
  rw [matchRow_eq_some_iff]
  refine ⟨pre, col, post, ⟨sampleID first, 0.8⟩, hcols, hpre, ⟨?_, ?_, ?_⟩, ?_⟩
  · rw [hcell]
    exact hlen
  · rw [hcell]
    exact hbest
  · norm_num
  · rw [hcell]

/-- An instance of C27: the identifier `--` against the one-record canonical
list, and the Match emitted for the source row `{'Sample': '--'}`. -/
theorem findBestMatch_empty_normalized_first_witness :
    normalizeID (js "--") = js "" ∧
      findBestMatch (js "--") canonicalS001 = some ⟨js "S001", 0.8⟩ ∧
      (⟨js "run.csv", js "--", js "S001", 0.8, 0,
          findMainSample canonicalS001 (js "S001")⟩ : Match) ∈
        matchSamplesForFile [[(js "Sample", Value.str (js "--"))]] canonicalS001
          (js "run.csv") :=
  have h := findBestMatch_empty_normalized_first (js "--")
      [(js "Sample ID", Value.str (js "S001")), (js "Date", Value.str (js "2024"))] []
      (by decide) (by decide)
  ⟨by decide, h.1,
    h.2 [[(js "Sample", Value.str (js "--"))]] (js "run.csv") 0 (by decide) [] (js "Sample") []
      (by decide) (by simp) (by decide) (by decide)⟩

/-! ## The element fallback -/

/-- C28 fails on the code: for the sulfur intensity column `S 180 CPS` the
fallback takes the first column that contains the letter `s` and `ppm`, the
silicon column `Si ppm`, although the sulfur column `S ppm` is present; the
leading element token of the chosen column is `Si`, not `S`. -/
theorem findConcentrationColumn_wrong_element :
    sulfurColumns.find? (matchesBaseName (baseNameOf (js "S 180 CPS"))) = none ∧
      findConcentrationColumn sulfurColumns (js "S 180 CPS") = some (js "Si ppm") ∧
      leadingElement (js "Si ppm") = some (js "Si") ∧
      leadingElement (js "S 180 CPS") = some (js "S") := by
  decide

/-! ## The range of R² -/

theorem residualSumOfSquares_mean (points : List CalibrationPoint) :
    residualSumOfSquares 0 (sumOver points yOf / (points.length : ℚ)) points =
      totalSumOfSquares points := by
  unfold residualSumOfSquares totalSumOfSquares
  exact sumOver_congr (fun p _ => by ring)

/-- C29: on finite points whose intensities are not all equal and whose
concentrations are not all equal, the R² returned by `calculateRegression` is a
number between 0 and 1. -/
theorem calculateRegression_rSquared_unit_interval (sqrt : JSNum → JSNum)
    (points : List CalibrationPoint) (hfin : AllFinite points)
    (hx : IntensitiesDiffer points) (hy : ConcentrationsDiffer points) :
    ∃ r : ℚ, (calculateRegression sqrt points).rSquared = JSNum.fin r ∧ 0 ≤ r ∧ r ≤ 1 := by
  have hD := olsDenominator_pos hfin hx
  have ht := totalSumOfSquares_ne_zero hfin hy
  have htpos : 0 < totalSumOfSquares points :=
    lt_of_le_of_ne (sumOver_nonneg (fun p _ => sq_nonneg _)) (Ne.symm ht)
  have hle : residualSumOfSquares (olsSlope points) (olsIntercept points) points ≤
      totalSumOfSquares points := by
    rw [← residualSumOfSquares_mean]
    exact residualSumOfSquares_olsSlope_le hD _ _
  have hnonneg : 0 ≤ residualSumOfSquares (olsSlope points) (olsIntercept points) points :=
    sumOver_nonneg (fun p _ => sq_nonneg _)
  refine ⟨1 - residualSumOfSquares (olsSlope points) (olsIntercept points) points /
    totalSumOfSquares points, ?_, ?_, ?_⟩
  · rw [calculateRegression_of_finite sqrt hfin hD.ne']
    show JSNum.fin 1 - JSNum.fin _ / JSNum.fin (totalSumOfSquares points) = _
    rw [fin_div _ _ ht, fin_sub]
  · have := (div_le_one htpos).mpr hle
    linarith
  · have := div_nonneg hnonneg htpos.le
    linarith

/-- An instance of C29 on the points `(1,1), (2,3), (3,4)`. -/
theorem calculateRegression_rSquared_unit_interval_witness :
    AllFinite (pointsOf [(1, 1), (2, 3), (3, 4)]) ∧
      ∃ r : ℚ, (calculateRegression sqrtOnSquares (pointsOf [(1, 1), (2, 3), (3, 4)])).rSquared =
        JSNum.fin r ∧ 0 ≤ r ∧ r ≤ 1 :=
  have hfin : AllFinite (pointsOf [(1, 1), (2, 3), (3, 4)]) := by unfold AllFinite; decide!
  ⟨hfin, calculateRegression_rSquared_unit_interval sqrtOnSquares _ hfin
    (by unfold IntensitiesDiffer; decide!) (by unfold ConcentrationsDiffer; decide!)⟩


/-! ## The analyte display and the loading of a run -/

/-- C21 fails on the code: with the exclusion set `{0, 1}` on three standards,
`displayAnalyteCalibration` calls `calculateRegression` on the single point that
is not excluded; it checks the number of extracted points only, where
`displaySingleCalibration` checks the number of active points. -/
theorem displayAnalyteCalibration_regression_on_one_point :
    staleState.excludedStandards (js "Ba") = some [0, 1] ∧
      (displayAnalyteCalibration sqrtOnSquares staleState (js "Ba")).regressionCalls =
        [[⟨2, Cell.text (js "C"), JSNum.fin 4, JSNum.fin 3, false⟩]] ∧
      (calculateRegression sqrtOnSquares
        [⟨2, Cell.text (js "C"), JSNum.fin 4, JSNum.fin 3, false⟩]).slope = JSNum.nan := by
  decide!

/-- C24 fails on the code: loading a new run empties `calibrations` and
`excludedStandards` but leaves `currentAnalyte` and `currentIntensityCol` as
they were, here `Ba` and `Ba Intensity` of the previous run. -/
theorem loadRunCalibration_keeps_selection :
    (loadRunCalibration excludedState (js "run2.xlsx") twoChannelStandards).standardsData =
        some twoChannelStandards ∧
      (loadRunCalibration excludedState (js "run2.xlsx") twoChannelStandards).calibrations
        (js "Ba") = none ∧
      (loadRunCalibration excludedState (js "run2.xlsx")
        twoChannelStandards).excludedStandards (js "Ba") = none ∧
      (loadRunCalibration excludedState (js "run2.xlsx") twoChannelStandards).currentAnalyte =
        some (js "Ba") ∧
      (loadRunCalibration excludedState (js "run2.xlsx")
        twoChannelStandards).currentIntensityCol = some (js "Ba Intensity") := by
  decide!

/-- C25 fails on the code: for the analyte `Ba` with its single intensity
column and three valid points, `displayAnalyteCalibration` computes the
regression, then throws the `ReferenceError` for `labelCol`, which it catches,
and leaves `calibrations['Ba']` undefined. -/
theorem displayAnalyteCalibration_stores_nothing :
    (standardsColumns threeStandards).filter (isIntensityColumnOf (js "Ba")) =
        [js "Ba Intensity"] ∧
      (extractCalibrationPoints threeStandards (js "Ba Intensity")).length = 3 ∧
      (displayAnalyteCalibration sqrtOnSquares loadedState (js "Ba")).caughtError = true ∧
      (displayAnalyteCalibration sqrtOnSquares loadedState (js "Ba")).state.calibrations
        (js "Ba") = none := by
  decide!

/-! ## The channel comparison -/

theorem mem_displayWavelengthComparison (sqrt : JSNum → JSNum) (s : CalibrationState)
    (analyte : JSString) (intensityCols : List JSString) (data : List StandardRow)
    (hdata : s.standardsData = some data) (e : ComparisonEntry) :
    e ∈ displayWavelengthComparison sqrt s analyte intensityCols ↔
      ∃ col ∈ intensityCols, 2 ≤ (extractCalibrationPoints data col).length ∧
        e = ⟨col, wavelengthOf col, viewOf col,
          calculateRegression sqrt (extractCalibrationPoints data col),
          extractCalibrationPoints data col⟩ := by
  simp only [displayWavelengthComparison, hdata, List.mem_filterMap, comparisonEntry]
  constructor
  · rintro ⟨col, hcol, h⟩
    split at h
    · next hlen => exact ⟨col, hcol, hlen, (Option.some.inj h).symm⟩
    · exact absurd h (by simp)
  · rintro ⟨col, hcol, hlen, rfl⟩
    exact ⟨col, hcol, by rw [if_pos hlen]⟩

/-- C30: `displayWavelengthComparison` reads the standards only: two states
with the same `standardsData` give the same list of entries, whatever their
exclusion sets, and each entry holds all the extracted points of its column,
none of them flagged as excluded, and the regression over all of them. -/
theorem displayWavelengthComparison_ignores_exclusions (sqrt : JSNum → JSNum)
    (s1 s2 : CalibrationState) (analyte : JSString) (intensityCols : List JSString)
    (h : s1.standardsData = s2.standardsData) :
    displayWavelengthComparison sqrt s1 analyte intensityCols =
        displayWavelengthComparison sqrt s2 analyte intensityCols ∧
      ∀ data, s1.standardsData = some data →
        ∀ e ∈ displayWavelengthComparison sqrt s1 analyte intensityCols,
          e.points = extractCalibrationPoints data e.column ∧
            e.regression = calculateRegression sqrt e.points ∧
            e.regression.nPoints = e.points.length ∧
            ∀ p ∈ e.points, p.excluded = false := by
  constructor
  · unfold displayWavelengthComparison
    rw [h]
  · intro data hdata e he
    obtain ⟨col, -, -, rfl⟩ :=
      (mem_displayWavelengthComparison sqrt s1 analyte intensityCols data hdata e).mp he
    exact ⟨rfl, rfl, rfl, extractCalibrationPoints_excluded data col⟩

/-- An instance of C30: the comparison of the two channels is the same before
and after standard 2 is excluded. -/
theorem displayWavelengthComparison_ignores_exclusions_witness :
    twoChannelState.standardsData =
        (toggleStandard sqrtOnSquares twoChannelState (js "Ba") 2).standardsData ∧
      (toggleStandard sqrtOnSquares twoChannelState (js "Ba") 2).excludedStandards (js "Ba") =
        some [2] ∧
      displayWavelengthComparison sqrtOnSquares twoChannelState (js "Ba")
          [js "Ba 233 Intensity", js "Ba 455 Intensity"] =
        displayWavelengthComparison sqrtOnSquares
          (toggleStandard sqrtOnSquares twoChannelState (js "Ba") 2) (js "Ba")
          [js "Ba 233 Intensity", js "Ba 455 Intensity"] :=
  ⟨by decide!, by decide!,
    (displayWavelengthComparison_ignores_exclusions sqrtOnSquares twoChannelState
      (toggleStandard sqrtOnSquares twoChannelState (js "Ba") 2) (js "Ba")
      [js "Ba 233 Intensity", js "Ba 455 Intensity"] (by decide!)).1⟩


/-! ## The exclusion set is never pruned -/

theorem toggleStandard_excludedStandards (sqrt : JSNum → JSNum) (s : CalibrationState)
    (analyte : JSString) (index : Nat) :
    (toggleStandard sqrt s analyte index).excludedStandards analyte =
      some (toggleIndex ((s.excludedStandards analyte).getD []) index) := by
  by_cases hcol : s.currentIntensityCol = none ∨ s.currentIntensityCol = some []
  · rw [toggleStandard_of_no_column sqrt s analyte index hcol, withToggled_excludedStandards]
  · obtain ⟨col, hc, hne⟩ : ∃ col, s.currentIntensityCol = some col ∧ col.isEmpty = false := by
      cases hs : s.currentIntensityCol with
      | none => exact absurd (Or.inl hs) hcol
      | some col =>
        cases col with
        | nil => exact absurd (Or.inr hs) hcol
        | cons c t => exact ⟨c :: t, rfl, rfl⟩
    rw [toggleStandard_of_column sqrt s analyte index hc hne,
      displaySingleCalibration_excludedStandards, withToggled_excludedStandards]

/-- C22, as stated, fails: after the first channel is displayed, standard 2 is
excluded and the second channel, which has no point for standard 2, is
displayed, the exclusion set of `Ba` is still `{2}` while the cached points have
the indices 0 and 1. -/
theorem excluded_index_outside_points :
    switchedChannelState.excludedStandards (js "Ba") = some [2] ∧
      (cachedPoints switchedChannelState (js "Ba")).map (fun p => p.index) = [0, 1] ∧
      ¬ ExcludedWithinPoints switchedChannelState (js "Ba") := by
  unfold ExcludedWithinPoints
  decide!

/-- C22, amended: `displaySingleCalibration` never changes `excludedStandards`,
and `toggleStandard` adds or removes exactly the given index, whatever it is;
an excluded index that is not the index of a rebuilt point is ignored: the
calibration stored for the analyte has the indices of the extracted points, its
points flagged as excluded are those whose index is in the set, and its model is
the regression of the others. -/
theorem excludedStandards_not_pruned (sqrt : JSNum → JSNum) (s : CalibrationState)
    (analyte col : JSString) (index : Nat) :
    (displaySingleCalibration sqrt s analyte col).excludedStandards = s.excludedStandards ∧
    (∀ j, j ∈ ((toggleStandard sqrt s analyte index).excludedStandards analyte).getD [] ↔
      (j ∈ (s.excludedStandards analyte).getD [] ∧ j ≠ index) ∨
        (j = index ∧ index ∉ (s.excludedStandards analyte).getD [])) ∧
    (∀ data, s.standardsData = some data →
      2 ≤ (includedPoints (s.excludedStandards analyte)
        (extractCalibrationPoints data col)).length →
      ∃ cal, (displaySingleCalibration sqrt s analyte col).calibrations analyte = some cal ∧
        cal.points.map (fun p => p.index) =
          (extractCalibrationPoints data col).map (fun p => p.index) ∧
        (∀ p ∈ cal.points,
          (p.excluded = true ↔ p.index ∈ (s.excludedStandards analyte).getD [])) ∧
        cal.regression = calculateRegression sqrt
          (includedPoints (s.excludedStandards analyte)
            (extractCalibrationPoints data col))) := by
  refine ⟨displaySingleCalibration_excludedStandards sqrt s analyte col, fun j => ?_,
    fun data hdata hlen => ?_⟩
  · rw [toggleStandard_excludedStandards, Option.getD_some, mem_toggleIndex]
  · rw [displaySingleCalibration_calibrations sqrt s analyte col data hdata, if_pos hlen]
    refine ⟨storedCalibration sqrt data (s.excludedStandards analyte) col, by simp, ?_, ?_, rfl⟩
    · simp only [storedCalibration]
      rw [applyExclusions_eq_map _ _ (extractCalibrationPoints_excluded data col),
        List.map_map]
      rfl
    · intro p hp
      simp only [storedCalibration] at hp
      rw [applyExclusions_eq_map _ _ (extractCalibrationPoints_excluded data col)] at hp
      obtain ⟨q, -, rfl⟩ := List.mem_map.mp hp
      simp

/-- An instance of the amended C22: displaying the second channel keeps the
exclusion set `{2}` and stores a calibration with the point indices 0 and 1. -/
theorem excludedStandards_not_pruned_witness :
    (toggleStandard sqrtOnSquares
        (displaySingleCalibration sqrtOnSquares twoChannelState (js "Ba")
          (js "Ba 233 Intensity")) (js "Ba") 2).standardsData = some twoChannelStandards ∧
      ∃ cal, switchedChannelState.calibrations (js "Ba") = some cal ∧
        cal.points.map (fun p => p.index) =
          (extractCalibrationPoints twoChannelStandards (js "Ba 455 Intensity")).map
            (fun p => p.index) :=
  have h := (excludedStandards_not_pruned sqrtOnSquares
    (toggleStandard sqrtOnSquares
      (displaySingleCalibration sqrtOnSquares twoChannelState (js "Ba")
        (js "Ba 233 Intensity")) (js "Ba") 2)
    (js "Ba") (js "Ba 455 Intensity") 0).2.2 twoChannelStandards (by decide!) (by decide!)
  ⟨by decide!, h.choose, h.choose_spec.1, h.choose_spec.2.1⟩

/-! ## The selected column is shared by the analytes -/

theorem displaySingleCalibration_calibrations_other (sqrt : JSNum → JSNum)
    (s : CalibrationState) (a b col : JSString) (hab : a ≠ b) :
    (displaySingleCalibration sqrt s b col).calibrations a = s.calibrations a := by
  unfold displaySingleCalibration
  simp only
  split
  · rfl
  · split
    · rfl
    · split
      · rfl
      · simp [hab]

/-- C26, as stated, fails: after `Ba Intensity` is selected for `Ba` and then
`Sr Intensity` for `Sr`, `toggleStandard('Ba', 0)` recomputes the calibration of
`Ba` from the column `Sr Intensity`. -/
theorem toggle_uses_column_of_other_analyte :
    (twoAnalyteState.calibrations (js "Ba")).map (fun cal => cal.intensityCol) =
        some (js "Ba Intensity") ∧
      twoAnalyteState.currentAnalyte = some (js "Sr") ∧
      ((toggleStandard sqrtOnSquares twoAnalyteState (js "Ba") 0).calibrations (js "Ba")).map
          (fun cal => (cal.intensityCol, cal.regression.slope)) =
        some (js "Sr Intensity", JSNum.fin (1 / 10)) := by
  decide!

/-- C26, amended: the selected intensity column is one value shared by all
analytes. Selecting a column for an analyte `b` leaves the cached calibration
and the exclusion set of every other analyte `a` as they were, and makes that
column the one from which the next `toggleStandard(a, index)` recomputes the
calibration of `a`. -/
theorem currentIntensityCol_shared (sqrt : JSNum → JSNum) (s : CalibrationState)
    (a b col : JSString) (index : Nat) (hab : a ≠ b) :
    (displaySingleCalibration sqrt s b col).calibrations a = s.calibrations a ∧
      (displaySingleCalibration sqrt s b col).excludedStandards a = s.excludedStandards a ∧
      (displaySingleCalibration sqrt s b col).currentIntensityCol = some col ∧
      (col ≠ js "" →
        toggleStandard sqrt (displaySingleCalibration sqrt s b col) a index =
          displaySingleCalibration sqrt
            (withToggled (displaySingleCalibration sqrt s b col) a index) a col) := by
  refine ⟨displaySingleCalibration_calibrations_other sqrt s a b col hab, ?_,
    displaySingleCalibration_currentIntensityCol sqrt s b col, fun hcol => ?_⟩
  · rw [displaySingleCalibration_excludedStandards]
  · have hne : col.isEmpty = false := by
      cases col with
      | nil => exact absurd rfl hcol
      | cons c t => rfl
    exact toggleStandard_of_column sqrt _ a index
      (displaySingleCalibration_currentIntensityCol sqrt s b col) hne

/-- An instance of the amended C26: selecting `Sr Intensity` for `Sr` leaves
the cached calibration of `Ba` as it was. -/
theorem currentIntensityCol_shared_witness :
    js "Ba" ≠ js "Sr" ∧
      twoAnalyteState.calibrations (js "Ba") =
        (displaySingleCalibration sqrtOnSquares
          ⟨some (js "run.xlsx"), some twoAnalyteStandards, fun _ => none, fun _ => none, none,
            none⟩
          (js "Ba") (js "Ba Intensity")).calibrations (js "Ba") :=
  ⟨by decide,
    (currentIntensityCol_shared sqrtOnSquares
      (displaySingleCalibration sqrtOnSquares
        ⟨some (js "run.xlsx"), some twoAnalyteStandards, fun _ => none, fun _ => none, none,
          none⟩
        (js "Ba") (js "Ba Intensity"))
      (js "Ba") (js "Sr") (js "Sr Intensity") 0 (by decide)).1⟩


/-! ## The comparison table -/

theorem jsnum_le_refl (a : JSNum) (ha : a ≠ JSNum.nan) : JSNum.le a a = true := by
  cases a with
  | nan => exact absurd rfl ha
  | inf s => cases s <;> rfl
  | fin q => simp [JSNum.le]

theorem jsnum_le_ne_nan (a b : JSNum) (h : JSNum.le a b = true) :
    a ≠ JSNum.nan ∧ b ≠ JSNum.nan := by
  cases a <;> cases b <;> simp_all [JSNum.le]

theorem jsnum_le_total (a b : JSNum) (ha : a ≠ JSNum.nan) (hb : b ≠ JSNum.nan) :
    JSNum.le a b = true ∨ JSNum.le b a = true := by
  cases a with
  | nan => exact absurd rfl ha
  | inf s =>
    cases b with
    | nan => exact absurd rfl hb
    | inf t => cases s <;> cases t <;> simp [JSNum.le]
    | fin q => cases s <;> simp [JSNum.le]
  | fin p =>
    cases b with
    | nan => exact absurd rfl hb
    | inf t => cases t <;> simp [JSNum.le]
    | fin q => simpa [JSNum.le] using le_total p q

theorem jsnum_le_antisymm (a b : JSNum) (hab : JSNum.le a b = true)
    (hba : JSNum.le b a = true) : a = b := by
  cases a with
  | nan => simp [JSNum.le] at hab
  | inf s =>
    cases b with
    | nan => simp [JSNum.le] at hba
    | inf t => cases s <;> cases t <;> simp_all [JSNum.le]
    | fin q => cases s <;> simp_all [JSNum.le]
  | fin p =>
    cases b with
    | nan => simp [JSNum.le] at hab
    | inf t => cases t <;> simp_all [JSNum.le]
    | fin q =>
      simp only [JSNum.le, decide_eq_true_eq] at hab hba
      rw [le_antisymm hab hba]

theorem jsnum_le_trans (a b c : JSNum) (hab : JSNum.le a b = true)
    (hbc : JSNum.le b c = true) : JSNum.le a c = true := by
  cases a with
  | nan => simp [JSNum.le] at hab
  | inf s =>
    cases b with
    | nan => simp [JSNum.le] at hab
    | inf t =>
      cases c with
      | nan => simp [JSNum.le] at hbc
      | inf u => cases s <;> cases t <;> cases u <;> simp_all [JSNum.le]
      | fin r => cases s <;> cases t <;> simp_all [JSNum.le]
    | fin q =>
      cases c with
      | nan => simp [JSNum.le] at hbc
      | inf u => cases s <;> cases u <;> simp_all [JSNum.le]
      | fin r => cases s <;> simp_all [JSNum.le]
  | fin p =>
    cases b with
    | nan => simp [JSNum.le] at hab
    | inf t =>
      cases c with
      | nan => simp [JSNum.le] at hbc
      | inf u => cases t <;> cases u <;> simp_all [JSNum.le]
      | fin r => cases t <;> simp_all [JSNum.le]
    | fin q =>
      cases c with
      | nan => simp [JSNum.le] at hbc
      | inf u => cases u <;> simp_all [JSNum.le]
      | fin r =>
        simp only [JSNum.le, decide_eq_true_eq] at hab hbc ⊢
        exact le_trans hab hbc

theorem max2_of_ne_nan (a b : JSNum) (ha : a ≠ JSNum.nan) (hb : b ≠ JSNum.nan) :
    JSNum.max2 a b = if JSNum.le a b = true then b else a := by
  unfold JSNum.max2
  rw [if_neg (by simp [ha, hb])]

theorem max2_nan_left (b : JSNum) : JSNum.max2 JSNum.nan b = JSNum.nan := by
  simp [JSNum.max2]

theorem max2_nan_right (a : JSNum) : JSNum.max2 a JSNum.nan = JSNum.nan := by
  simp [JSNum.max2]

theorem foldl_max2_nan (xs : List JSNum) : xs.foldl JSNum.max2 JSNum.nan = JSNum.nan := by
  induction xs with
  | nil => rfl
  | cons x rest ih => rw [List.foldl_cons, max2_nan_left, ih]

theorem foldl_max2_of_mem_nan (xs : List JSNum) (init : JSNum) (h : JSNum.nan ∈ xs) :
    xs.foldl JSNum.max2 init = JSNum.nan := by
  induction xs generalizing init with
  | nil => simp at h
  | cons x rest ih =>
    rw [List.foldl_cons]
    rcases List.mem_cons.mp h with hx | hrest
    · rw [← hx, max2_nan_right, foldl_max2_nan]
    · exact ih _ hrest

theorem foldl_max2_spec (xs : List JSNum) (init : JSNum) (hinit : init ≠ JSNum.nan)
    (hxs : ∀ x ∈ xs, x ≠ JSNum.nan) :
    xs.foldl JSNum.max2 init ≠ JSNum.nan ∧
      JSNum.le init (xs.foldl JSNum.max2 init) = true ∧
      (∀ x ∈ xs, JSNum.le x (xs.foldl JSNum.max2 init) = true) ∧
      (xs.foldl JSNum.max2 init = init ∨ xs.foldl JSNum.max2 init ∈ xs) := by
  induction xs generalizing init with
  | nil => exact ⟨hinit, jsnum_le_refl init hinit, by simp, Or.inl rfl⟩
  | cons x rest ih =>
    have hx : x ≠ JSNum.nan := hxs x (List.mem_cons_self _ _)
    have hrest : ∀ y ∈ rest, y ≠ JSNum.nan := fun y hy => hxs y (List.mem_cons_of_mem _ hy)
    rw [List.foldl_cons, max2_of_ne_nan init x hinit hx]
    by_cases hle : JSNum.le init x = true
    · rw [if_pos hle]
      obtain ⟨h1, h2, h3, h4⟩ := ih x hx hrest
      refine ⟨h1, jsnum_le_trans _ _ _ hle h2, ?_, ?_⟩
      · intro y hy
        rcases List.mem_cons.mp hy with rfl | hy
        · exact h2
        · exact h3 y hy
      · rcases h4 with h4 | h4
        · exact Or.inr (by rw [h4]; exact List.mem_cons_self _ _)
        · exact Or.inr (List.mem_cons_of_mem _ h4)
    · rw [if_neg hle]
      have hxi : JSNum.le x init = true := (jsnum_le_total init x hinit hx).resolve_left hle
      obtain ⟨h1, h2, h3, h4⟩ := ih init hinit hrest
      refine ⟨h1, h2, ?_, ?_⟩
      · intro y hy
        rcases List.mem_cons.mp hy with rfl | hy
        · exact jsnum_le_trans _ _ _ hxi h2
        · exact h3 y hy
      · rcases h4 with h4 | h4
        · exact Or.inl h4
        · exact Or.inr (List.mem_cons_of_mem _ h4)

theorem strictEq_mathMax_iff (xs : List JSNum) (x : JSNum) (hx : x ∈ xs) :
    JSNum.strictEq x (mathMax xs) = true ↔
      (∀ y ∈ xs, y ≠ JSNum.nan) ∧ ∀ y ∈ xs, JSNum.le y x = true := by
  unfold JSNum.strictEq mathMax
  simp only [Bool.and_eq_true, decide_eq_true_eq]
  constructor
  · rintro ⟨hne, heq⟩
    have hall : ∀ y ∈ xs, y ≠ JSNum.nan := by
      intro y hy hnan
      rw [hnan] at hy
      rw [foldl_max2_of_mem_nan xs _ hy] at heq
      exact hne heq
    refine ⟨hall, fun y hy => ?_⟩
    rw [heq]
    exact (foldl_max2_spec xs (JSNum.inf true) (by simp) hall).2.2.1 y hy
  · rintro ⟨hall, hmax⟩
    refine ⟨hall x hx, ?_⟩
    obtain ⟨-, -, h3, h4⟩ := foldl_max2_spec xs (JSNum.inf true) (by simp) hall
    refine jsnum_le_antisymm _ _ (h3 x hx) ?_
    rcases h4 with h4 | h4
    · rw [h4]
      cases x with
      | nan => exact absurd rfl (hall _ hx)
      | inf s => rfl
      | fin q => rfl
    · exact hmax _ h4

theorem map_column_displayWavelengthComparison (sqrt : JSNum → JSNum) (s : CalibrationState)
    (analyte : JSString) (intensityCols : List JSString) (data : List StandardRow)
    (hdata : s.standardsData = some data) :
    (displayWavelengthComparison sqrt s analyte intensityCols).map (fun e => e.column) =
      intensityCols.filter
        (fun col => decide (2 ≤ (extractCalibrationPoints data col).length)) := by
  simp only [displayWavelengthComparison, hdata]
  induction intensityCols with
  | nil => rfl
  | cons col rest ih =>
    by_cases hlen : 2 ≤ (extractCalibrationPoints data col).length
    · have hentry : comparisonEntry sqrt data col =
          some ⟨col, wavelengthOf col, viewOf col,
            calculateRegression sqrt (extractCalibrationPoints data col),
            extractCalibrationPoints data col⟩ := by
        unfold comparisonEntry
        exact if_pos hlen
      rw [List.filterMap_cons_some hentry, List.map_cons, ih,
        List.filter_cons_of_pos (by simpa using hlen)]
    · have hentry : comparisonEntry sqrt data col = none := by
        unfold comparisonEntry
        exact if_neg hlen
      rw [List.filterMap_cons_none hentry, ih, List.filter_cons_of_neg (by simpa using hlen)]

/-- C23, as stated, fails: `Ba` has the two intensity columns
`Ba 233 Intensity` and `Ba 455 Intensity`; the comparison lists them in that
order with R² 27/28 and 1, so the list is not in descending order of R² and the
recommended row is the second one. -/
theorem comparison_not_ranked :
    (standardsColumns twoChannelStandards).filter (isIntensityColumnOf (js "Ba")) =
        [js "Ba 233 Intensity", js "Ba 455 Intensity"] ∧
      (displayComparisonTable (displayWavelengthComparison sqrtOnSquares twoChannelState
          (js "Ba") [js "Ba 233 Intensity", js "Ba 455 Intensity"])).map
          (fun row => (row.entry.column, row.entry.regression.rSquared, row.recommended)) =
        [(js "Ba 233 Intensity", JSNum.fin (27 / 28), false),
          (js "Ba 455 Intensity", JSNum.fin 1, true)] ∧
      ¬ RankedWithBestFirst
        (displayComparisonTable (displayWavelengthComparison sqrtOnSquares twoChannelState
          (js "Ba") [js "Ba 233 Intensity", js "Ba 455 Intensity"])) := by
  unfold RankedWithBestFirst
  decide!

/-- C23, amended: the comparison lists the intensity columns that have at least
2 points in the order in which they were given, the table has one row per entry
in the same order, and a row is recommended exactly when no R² of the comparison
is `NaN` and its own R² is at least every R² of the comparison, wherever the row
stands. -/
theorem comparison_in_column_order (sqrt : JSNum → JSNum) (s : CalibrationState)
    (analyte : JSString) (intensityCols : List JSString) (data : List StandardRow)
    (hdata : s.standardsData = some data) :
    (displayWavelengthComparison sqrt s analyte intensityCols).map (fun e => e.column) =
        intensityCols.filter
          (fun col => decide (2 ≤ (extractCalibrationPoints data col).length)) ∧
      (displayComparisonTable (displayWavelengthComparison sqrt s analyte intensityCols)).map
          (fun row => row.entry) =
        displayWavelengthComparison sqrt s analyte intensityCols ∧
      ∀ row ∈ displayComparisonTable
          (displayWavelengthComparison sqrt s analyte intensityCols),
        (row.recommended = true ↔
          (∀ e ∈ displayWavelengthComparison sqrt s analyte intensityCols,
            e.regression.rSquared ≠ JSNum.nan) ∧
          ∀ e ∈ displayWavelengthComparison sqrt s analyte intensityCols,
            JSNum.le e.regression.rSquared row.entry.regression.rSquared = true) := by
  refine ⟨map_column_displayWavelengthComparison sqrt s analyte intensityCols data hdata,
    ?_, ?_⟩
  · unfold displayComparisonTable
    rw [List.map_map]
    exact List.map_id _
  · intro row hrow
    unfold displayComparisonTable at hrow
    obtain ⟨e, he, rfl⟩ := List.mem_map.mp hrow
    simp only
    rw [strictEq_mathMax_iff _ _ (List.mem_map_of_mem (fun c => c.regression.rSquared) he)]
    simp only [List.mem_map, forall_exists_index, and_imp, forall_apply_eq_imp_iff₂]

/-- An instance of the amended C23: the two channels of `Ba` are listed in
column order. -/
theorem comparison_in_column_order_witness :
    twoChannelState.standardsData = some twoChannelStandards ∧
      (displayWavelengthComparison sqrtOnSquares twoChannelState (js "Ba")
          [js "Ba 233 Intensity", js "Ba 455 Intensity"]).map (fun e => e.column) =
        [js "Ba 233 Intensity", js "Ba 455 Intensity"].filter
          (fun col => decide (2 ≤ (extractCalibrationPoints twoChannelStandards col).length)) :=
  ⟨by decide!,
    (comparison_in_column_order sqrtOnSquares twoChannelState (js "Ba")
      [js "Ba 233 Intensity", js "Ba 455 Intensity"] twoChannelStandards (by decide!)).1⟩


/-! ## Rounding to binary64 -/

theorem twoPow_eq_zpow (t : ℤ) : twoPow t = (2 : ℚ) ^ t := by
  unfold twoPow
  split
  · next h =>
    obtain ⟨n, rfl⟩ := Int.eq_ofNat_of_zero_le h
    simp
  · next h =>
    push_neg at h
    obtain ⟨n, hn⟩ := Int.exists_eq_neg_ofNat (le_of_lt h)
    subst hn
    simp

theorem twoPow_pos (t : ℤ) : 0 < twoPow t := by
  rw [twoPow_eq_zpow]
  positivity

theorem twoPow_add (s t : ℤ) : twoPow (s + t) = twoPow s * twoPow t := by
  simp only [twoPow_eq_zpow]
  exact zpow_add₀ (by norm_num) s t

theorem twoPow_le_twoPow {s t : ℤ} (h : s ≤ t) : twoPow s ≤ twoPow t := by
  simp only [twoPow_eq_zpow]
  exact zpow_le_zpow_right₀ (by norm_num) h

theorem twoPow_lt_twoPow {s t : ℤ} (h : s < t) : twoPow s < twoPow t := by
  simp only [twoPow_eq_zpow]
  exact zpow_lt_zpow_right₀ (by norm_num) h

theorem twoPow_natCast (n : ℕ) : twoPow (n : ℤ) = ((2 ^ n : ℕ) : ℚ) := by
  rw [twoPow_eq_zpow]
  simp

theorem bitLengthAux_spec (fuel n : ℕ) (h : n ≤ fuel) (hn : 0 < n) :
    2 ^ (bitLengthAux fuel n - 1) ≤ n ∧ n < 2 ^ bitLengthAux fuel n ∧
      0 < bitLengthAux fuel n := by
  induction fuel generalizing n with
  | zero => omega
  | succ fuel ih =>
    have hn0 : n ≠ 0 := by omega
    simp only [bitLengthAux, if_neg hn0]
    by_cases h2 : n / 2 = 0
    · have h1 : n = 1 := by omega
      subst h1
      have : bitLengthAux fuel (1 / 2) = 0 := by
        cases fuel with
        | zero => rfl
        | succ f => simp [bitLengthAux]
      rw [this]
      simp
    · obtain ⟨h3, h4, h5⟩ := ih (n / 2) (by omega) (by omega)
      refine ⟨?_, ?_, by omega⟩
      · have e : bitLengthAux fuel (n / 2) + 1 - 1 = (bitLengthAux fuel (n / 2) - 1) + 1 := by
          omega
        rw [e, pow_succ]
        omega
      · rw [pow_succ]
        omega

theorem bitLength_spec (n : ℕ) (hn : 0 < n) :
    2 ^ (bitLength n - 1) ≤ n ∧ n < 2 ^ bitLength n ∧ 0 < bitLength n :=
  bitLengthAux_spec n n le_rfl hn

theorem twoPow_ratio_bounds (a b la lb : ℕ) (ha0 : 0 < a) (hb0 : 0 < b)
    (ha1 : 2 ^ (la - 1) ≤ a) (ha2 : a < 2 ^ la) (hb1 : 2 ^ (lb - 1) ≤ b) (hb2 : b < 2 ^ lb)
    (ha3 : 0 < la) (hb3 : 0 < lb) :
    twoPow ((la : ℤ) - (lb : ℤ) - 1) < (a : ℚ) / (b : ℚ) ∧
      (a : ℚ) / (b : ℚ) < twoPow ((la : ℤ) - (lb : ℤ) + 1) := by
  have hA1 : ((2 ^ (la - 1) : ℕ) : ℚ) ≤ (a : ℚ) := by exact_mod_cast ha1
  have hA2 : (a : ℚ) < ((2 ^ la : ℕ) : ℚ) := by exact_mod_cast ha2
  have hB1 : (2 : ℚ) ^ (lb - 1) ≤ (b : ℚ) := by exact_mod_cast hb1
  have hB2 : (b : ℚ) < (2 : ℚ) ^ lb := by exact_mod_cast hb2
  have hBpos : (0 : ℚ) < (b : ℚ) := by exact_mod_cast hb0
  have hApos : (0 : ℚ) < (a : ℚ) := by exact_mod_cast ha0
  constructor
  · have e : (la : ℤ) - (lb : ℤ) - 1 = ((la - 1 : ℕ) : ℤ) + -((lb : ℕ) : ℤ) := by omega
    rw [e, twoPow_add, twoPow_natCast, twoPow_eq_zpow, zpow_neg, zpow_natCast, div_eq_mul_inv]
    have h2 : (0 : ℚ) < (2 : ℚ) ^ lb := by positivity
    have hinv : ((2 : ℚ) ^ lb)⁻¹ < ((b : ℚ))⁻¹ := inv_strictAnti₀ hBpos hB2
    calc ((2 ^ (la - 1) : ℕ) : ℚ) * ((2 : ℚ) ^ lb)⁻¹
        ≤ (a : ℚ) * ((2 : ℚ) ^ lb)⁻¹ := mul_le_mul_of_nonneg_right hA1 (inv_nonneg.mpr h2.le)
      _ < (a : ℚ) * ((b : ℚ))⁻¹ := mul_lt_mul_of_pos_left hinv hApos
  · have e : (la : ℤ) - (lb : ℤ) + 1 = ((la : ℕ) : ℤ) + -((lb - 1 : ℕ) : ℤ) := by omega
    rw [e, twoPow_add, twoPow_natCast, twoPow_eq_zpow, zpow_neg, zpow_natCast, div_eq_mul_inv]
    have h2 : (0 : ℚ) < (2 : ℚ) ^ (lb - 1) := by positivity
    have hinv : ((b : ℚ))⁻¹ ≤ ((2 : ℚ) ^ (lb - 1))⁻¹ := inv_anti₀ h2 hB1
    calc (a : ℚ) * ((b : ℚ))⁻¹
        ≤ (a : ℚ) * ((2 : ℚ) ^ (lb - 1))⁻¹ := mul_le_mul_of_nonneg_left hinv hApos.le
      _ < ((2 ^ la : ℕ) : ℚ) * ((2 : ℚ) ^ (lb - 1))⁻¹ :=
          mul_lt_mul_of_pos_right hA2 (inv_pos.mpr h2)

/-- The exponent found by `floorLog2` is the one of the binade of `q`. -/
theorem floorLog2_spec (q : ℚ) (hq : 0 < q) :
    twoPow (floorLog2 q) ≤ q ∧ q < twoPow (floorLog2 q + 1) := by
  have hnum : 0 < q.num := Rat.num_pos.mpr hq
  obtain ⟨a, ha⟩ := Int.eq_ofNat_of_zero_le hnum.le
  have ha0 : 0 < a := by
    rw [ha] at hnum
    exact_mod_cast hnum
  have hb0 : 0 < q.den := q.den_pos
  obtain ⟨ha1, ha2, ha3⟩ := bitLength_spec a ha0
  obtain ⟨hb1, hb2, hb3⟩ := bitLength_spec q.den hb0
  have hqdef : (a : ℚ) / (q.den : ℚ) = q := by
    have := Rat.num_div_den q
    rw [ha] at this
    simpa using this
  have htoNat : q.num.toNat = a := by
    rw [ha]
    simp
  obtain ⟨hlow, hhigh⟩ := twoPow_ratio_bounds a q.den (bitLength a) (bitLength q.den) ha0 hb0
    ha1 ha2 hb1 hb2 ha3 hb3
  rw [hqdef] at hlow hhigh
  unfold floorLog2
  simp only [htoNat]
  split
  · next h =>
    refine ⟨hlow.le, ?_⟩
    have e : (bitLength a : ℤ) - (bitLength q.den : ℤ) - 1 + 1 =
        (bitLength a : ℤ) - (bitLength q.den : ℤ) := by ring
    rw [e]
    exact h
  · next h => exact ⟨not_lt.mp h, hhigh⟩

theorem roundHalfEven_floor (m : ℚ) :
    ((m.num / (m.den : ℤ) : ℤ) : ℚ) ≤ m ∧ m < ((m.num / (m.den : ℤ) : ℤ) : ℚ) + 1 := by
  rw [← Rat.floor_def]
  exact ⟨Int.floor_le m, Int.lt_floor_add_one m⟩

/-- The integer chosen by `roundHalfEven` is within one half of the rational. -/
theorem abs_roundHalfEven_sub_le (m : ℚ) : |(roundHalfEven m : ℚ) - m| ≤ 1 / 2 := by
  obtain ⟨h1, h2⟩ := roundHalfEven_floor m
  unfold roundHalfEven
  simp only
  split_ifs with ha hb hc
  · rw [abs_le]
    constructor <;> linarith
  · rw [abs_le]
    push_cast
    constructor <;> linarith
  · rw [abs_le]
    constructor <;> linarith
  · rw [abs_le]
    push_cast
    constructor <;> linarith

theorem roundHalfEven_intCast (k : ℤ) : roundHalfEven (k : ℚ) = k := by
  unfold roundHalfEven
  simp


theorem roundHalfEven_nonneg {m : ℚ} (hm : 0 ≤ m) : 0 ≤ roundHalfEven m := by
  have h := abs_roundHalfEven_sub_le m
  rw [abs_le] at h
  have h1 : (-1 : ℚ) < (roundHalfEven m : ℚ) := by linarith [h.1]
  have h2 : (-1 : ℤ) < roundHalfEven m := by exact_mod_cast h1
  omega

/-- The error of the rounding of a positive rational below `2 ^ 1023`: the
result is a number within half a unit in the last place. -/
theorem roundPositive_error (q : ℚ) (hq : 0 < q) (hlt : q < twoPow 1023) :
    ∃ v : ℚ, roundPositive q = JSNum.fin v ∧ 0 ≤ v ∧
      |v - q| ≤ twoPow (max (floorLog2 q) (-1022) - 53) := by
  obtain ⟨hlow, hhigh⟩ := floorLog2_spec q hq
  have hfl : floorLog2 q < 1023 := by
    by_contra hcon
    push_neg at hcon
    have := twoPow_le_twoPow hcon
    linarith
  have he : max (floorLog2 q) (-1022) ≤ 1022 := max_le (by omega) (by norm_num)
  have hulp := twoPow_pos (max (floorLog2 q) (-1022) - 52)
  have hhalf : twoPow (max (floorLog2 q) (-1022) - 53) * 2 =
      twoPow (max (floorLog2 q) (-1022) - 52) := by
    have e : max (floorLog2 q) (-1022) - 52 = (max (floorLog2 q) (-1022) - 53) + 1 := by ring
    rw [e, twoPow_add]
    have : twoPow 1 = 2 := by decide!
    rw [this]
  have hk := abs_roundHalfEven_sub_le (q / twoPow (max (floorLog2 q) (-1022) - 52))
  have hk0 := roundHalfEven_nonneg (div_nonneg hq.le hulp.le)
  have herr : |(roundHalfEven (q / twoPow (max (floorLog2 q) (-1022) - 52)) : ℚ) *
      twoPow (max (floorLog2 q) (-1022) - 52) - q| ≤
      twoPow (max (floorLog2 q) (-1022) - 53) := by
    have e : (roundHalfEven (q / twoPow (max (floorLog2 q) (-1022) - 52)) : ℚ) *
        twoPow (max (floorLog2 q) (-1022) - 52) - q =
        ((roundHalfEven (q / twoPow (max (floorLog2 q) (-1022) - 52)) : ℚ) -
          q / twoPow (max (floorLog2 q) (-1022) - 52)) *
          twoPow (max (floorLog2 q) (-1022) - 52) := by
      field_simp
    rw [e, abs_mul, abs_of_pos hulp]
    calc |(roundHalfEven (q / twoPow (max (floorLog2 q) (-1022) - 52)) : ℚ) -
          q / twoPow (max (floorLog2 q) (-1022) - 52)| *
          twoPow (max (floorLog2 q) (-1022) - 52)
        ≤ 1 / 2 * twoPow (max (floorLog2 q) (-1022) - 52) :=
          mul_le_mul_of_nonneg_right hk hulp.le
      _ = twoPow (max (floorLog2 q) (-1022) - 53) := by
          rw [← hhalf]
          ring
  have hbound : twoPow (max (floorLog2 q) (-1022) - 53) ≤ twoPow 969 :=
    twoPow_le_twoPow (by omega)
  have hnover : ¬ twoPow 1024 ≤
      (roundHalfEven (q / twoPow (max (floorLog2 q) (-1022) - 52)) : ℚ) *
        twoPow (max (floorLog2 q) (-1022) - 52) := by
    rw [abs_le] at herr
    have h1 : twoPow 1023 + twoPow 969 < twoPow 1024 := by decide!
    intro hcon
    linarith [herr.2]
  refine ⟨(roundHalfEven (q / twoPow (max (floorLog2 q) (-1022) - 52)) : ℚ) *
    twoPow (max (floorLog2 q) (-1022) - 52), ?_, ?_, herr⟩
  · unfold roundPositive
    simp only
    rw [if_neg hnover]
  · exact mul_nonneg (by exact_mod_cast hk0) hulp.le

/-- The rounding of a rational in `[0, 2)` moves it by at most `2 ^ -53`. -/
theorem binary64_error (q : ℚ) (h0 : 0 ≤ q) (h2 : q < 2) :
    0 ≤ binary64 q ∧ |binary64 q - q| ≤ 1 / 2 ^ 53 := by
  rcases eq_or_lt_of_le h0 with h | hpos
  · rw [← h]
    have : binary64 0 = 0 := by decide!
    rw [this]
    norm_num
  · have h1023 : (2 : ℚ) < twoPow 1023 := by decide!
    obtain ⟨v, hv, hv0, herr⟩ := roundPositive_error q hpos (by linarith)
    have hb : binary64 q = v := by
      unfold binary64 roundBinary64
      rw [if_neg hpos.ne', if_pos hpos, hv]
      rfl
    rw [hb]
    refine ⟨hv0, le_trans herr ?_⟩
    obtain ⟨hlow, -⟩ := floorLog2_spec q hpos
    have hfl : floorLog2 q < 1 := by
      by_contra hcon
      push_neg at hcon
      have := twoPow_le_twoPow hcon
      have h1 : twoPow 1 = 2 := by decide!
      rw [h1] at this
      linarith
    have he : max (floorLog2 q) (-1022) - 53 ≤ -53 := by
      have : max (floorLog2 q) (-1022) ≤ 0 := max_le (by omega) (by norm_num)
      omega
    have h53 : twoPow (-53) = 1 / 2 ^ 53 := by decide!
    rw [← h53]
    exact twoPow_le_twoPow he


/-- The containment score computed in binary64 is within `2 ^ -51` of the
exact value `0.8 + 0.2 * s / l`. -/
theorem containment_score_accuracy (s l : ℕ) (hsl : s ≤ l) (hl : l ≠ 0) :
    |binary64 (binary64 0.8 + binary64 (binary64 ((s : ℚ) / (l : ℚ)) * binary64 0.2)) -
      (0.8 + 0.2 * (s : ℚ) / (l : ℚ))| ≤ 1 / 2 ^ 51 := by
  have hl0 : (0 : ℚ) < (l : ℚ) := by exact_mod_cast Nat.pos_of_ne_zero hl
  have hx0 : (0 : ℚ) ≤ (s : ℚ) / (l : ℚ) := by positivity
  have hx1 : (s : ℚ) / (l : ℚ) ≤ 1 := by
    rw [div_le_one hl0]
    exact_mod_cast hsl
  have c02 : binary64 0.2 = 3602879701896397 / 18014398509481984 := by decide!
  have c08 : binary64 0.8 = 3602879701896397 / 4503599627370496 := by decide!
  rw [c02, c08]
  obtain ⟨h1a, h1b⟩ := binary64_error ((s : ℚ) / (l : ℚ)) hx0 (by linarith)
  rw [abs_le] at h1b
  have hy0 : 0 ≤ binary64 ((s : ℚ) / (l : ℚ)) * (3602879701896397 / 18014398509481984) :=
    mul_nonneg h1a (by norm_num)
  obtain ⟨h2a, h2b⟩ := binary64_error
    (binary64 ((s : ℚ) / (l : ℚ)) * (3602879701896397 / 18014398509481984)) hy0
    (by linarith [h1b.2])
  rw [abs_le] at h2b
  obtain ⟨h3a, h3b⟩ := binary64_error
    (3602879701896397 / 4503599627370496 +
      binary64 (binary64 ((s : ℚ) / (l : ℚ)) * (3602879701896397 / 18014398509481984)))
    (by linarith) (by linarith [h1b.2, h2b.2])
  rw [abs_le] at h3b
  have e : (0.8 : ℚ) + 0.2 * (s : ℚ) / (l : ℚ) = 0.8 + 0.2 * ((s : ℚ) / (l : ℚ)) := by ring
  rw [e, abs_le]
  constructor <;> linarith [h1b.1, h1b.2, h2b.1, h2b.2, h3b.1, h3b.2]


theorem roundPositive_of_multiple (q : ℚ) (hlt : q < twoPow 1024) (j : ℤ)
    (hj : q / twoPow (max (floorLog2 q) (-1022) - 52) = (j : ℚ)) :
    roundPositive q = JSNum.fin q := by
  have hulp := twoPow_pos (max (floorLog2 q) (-1022) - 52)
  have hval : (j : ℚ) * twoPow (max (floorLog2 q) (-1022) - 52) = q := by
    rw [← hj]
    field_simp
  unfold roundPositive
  simp only
  rw [hj, roundHalfEven_intCast, hval, if_neg (not_le.mpr hlt)]

/-- A natural number up to `2 ^ 53` is a binary64 number. -/
theorem roundBinary64_natCast (k : ℕ) (hk : k ≤ 2 ^ 53) :
    roundBinary64 (k : ℚ) = JSNum.fin (k : ℚ) := by
  rcases Nat.eq_zero_or_pos k with h0 | hpos
  · subst h0
    decide!
  · have hq : (0 : ℚ) < (k : ℚ) := by exact_mod_cast hpos
    have hk' : (k : ℚ) ≤ twoPow 53 := by
      have h53 : twoPow 53 = ((2 ^ 53 : ℕ) : ℚ) := twoPow_natCast 53
      rw [h53]
      exact_mod_cast hk
    obtain ⟨hlow, hhigh⟩ := floorLog2_spec (k : ℚ) hq
    have hfl1 : floorLog2 (k : ℚ) ≤ 53 := by
      by_contra hcon
      push_neg at hcon
      have := twoPow_lt_twoPow hcon
      linarith
    have hfl0 : 0 ≤ floorLog2 (k : ℚ) := by
      by_contra hcon
      push_neg at hcon
      have h1 : floorLog2 (k : ℚ) + 1 ≤ 0 := by omega
      have := twoPow_le_twoPow h1
      have h2 : twoPow 0 = 1 := by decide!
      have h3 : (1 : ℚ) ≤ (k : ℚ) := by exact_mod_cast hpos
      linarith
    have hmax : max (floorLog2 (k : ℚ)) (-1022) = floorLog2 (k : ℚ) := max_eq_left (by omega)
    have hlt : (k : ℚ) < twoPow 1024 := by
      have : twoPow 53 < twoPow 1024 := by decide!
      linarith
    unfold roundBinary64
    rw [if_neg hq.ne', if_pos hq]
    rcases Int.lt_or_le (floorLog2 (k : ℚ)) 53 with hlt53 | hge53
    · obtain ⟨n, hn⟩ := Int.eq_ofNat_of_zero_le (show 0 ≤ 52 - floorLog2 (k : ℚ) by omega)
      refine roundPositive_of_multiple (k : ℚ) hlt (((k * 2 ^ n : ℕ) : ℤ)) ?_
      rw [hmax]
      have e : floorLog2 (k : ℚ) - 52 = -(n : ℤ) := by omega
      rw [e, twoPow_eq_zpow, zpow_neg, zpow_natCast]
      push_cast
      field_simp
    · have hfl : floorLog2 (k : ℚ) = 53 := by omega
      have hkeq : (k : ℚ) = twoPow 53 := le_antisymm hk' (by rw [hfl] at hlow; exact hlow)
      refine roundPositive_of_multiple (k : ℚ) hlt ((2 : ℤ) ^ 52) ?_
      rw [hmax, hfl, hkeq]
      decide!

theorem roundBinary64_neg (q : ℚ) : roundBinary64 (-q) = JSNum.neg (roundBinary64 q) := by
  unfold roundBinary64
  rcases lt_trichotomy q 0 with h | h | h
  · have h1 : -q ≠ 0 := by
      intro hc
      linarith [neg_eq_zero.mp hc]
    have h2 : 0 < -q := by linarith
    rw [if_neg h1, if_pos h2, if_neg h.ne, if_neg (not_lt.mpr h.le)]
    cases hr : roundPositive (-q) with
    | nan => rfl
    | inf s => simp [JSNum.neg]
    | fin v => simp [JSNum.neg]
  · subst h
    simp [JSNum.neg]
  · have h1 : -q ≠ 0 := by
      intro hc
      linarith [neg_eq_zero.mp hc]
    have h2 : ¬ 0 < -q := by linarith
    rw [if_neg h1, if_neg h2, if_neg h.ne', if_pos h, neg_neg]

/-- An integer of absolute value up to `2 ^ 53` is a binary64 number. -/
theorem roundBinary64_intCast (k : ℤ) (hk : |k| ≤ 2 ^ 53) :
    roundBinary64 (k : ℚ) = JSNum.fin (k : ℚ) := by
  rcases le_or_lt 0 k with h | h
  · obtain ⟨n, rfl⟩ := Int.eq_ofNat_of_zero_le h
    have hn : n ≤ 2 ^ 53 := by
      rw [abs_of_nonneg h] at hk
      exact_mod_cast hk
    have := roundBinary64_natCast n hn
    simpa using this
  · obtain ⟨n, hn⟩ := Int.exists_eq_neg_ofNat h.le
    subst hn
    have hn2 : n ≤ 2 ^ 53 := by
      rw [abs_neg, abs_of_nonneg (by positivity)] at hk
      exact_mod_cast hk
    have := roundBinary64_natCast n hn2
    push_cast
    rw [roundBinary64_neg, this]
    rfl


/-! ## The regression in binary64 -/

theorem round_nan : JSNum.round JSNum.nan = JSNum.nan := rfl

theorem roundingFree_append {a b : List JSNum} :
    RoundingFree (a ++ b) ↔ RoundingFree a ∧ RoundingFree b := by
  unfold RoundingFree
  simp only [List.mem_append]
  constructor
  · exact fun h => ⟨fun v hv => h v (Or.inl hv), fun v hv => h v (Or.inr hv)⟩
  · rintro ⟨h1, h2⟩ v (hv | hv)
    · exact h1 v hv
    · exact h2 v hv

theorem roundingFree_cons {v : JSNum} {l : List JSNum} :
    RoundingFree (v :: l) ↔ v.round = v ∧ RoundingFree l := by
  unfold RoundingFree
  simp only [List.mem_cons, forall_eq_or_imp]

theorem foldl_add64 {α : Type} (f g : α → JSNum) (xs : List α) (init : JSNum)
    (hg : ∀ x ∈ xs, g x = f x) (hs : RoundingFree (partialSums f init xs)) :
    xs.foldl (fun sum x => add64 sum (g x)) init = xs.foldl (fun sum x => sum + f x) init := by
  induction xs generalizing init with
  | nil => rfl
  | cons x rest ih =>
    have hx : add64 init (g x) = init + f x := by
      rw [hg x (List.mem_cons_self _ _)]
      exact hs _ (List.mem_cons_self _ _)
    rw [List.foldl_cons, List.foldl_cons, hx]
    exact ih _ (fun y hy => hg y (List.mem_cons_of_mem _ hy))
      (fun v hv => hs v (List.mem_cons_of_mem _ hv))

theorem map_predicted64 (points : List CalibrationPoint) (slope intercept : JSNum)
    (h1 : RoundingFree (points.map (fun p => slope * p.intensity)))
    (h2 : RoundingFree (points.map (fun p => slope * p.intensity + intercept))) :
    points.map (fun p => add64 (mul64 slope p.intensity) intercept) =
      points.map (fun p => slope * p.intensity + intercept) := by
  refine List.map_congr_left (fun p hp => ?_)
  have e1 : mul64 slope p.intensity = slope * p.intensity :=
    h1 _ (List.mem_map_of_mem (fun p : CalibrationPoint => slope * p.intensity) hp)
  rw [e1]
  exact h2 _ (List.mem_map_of_mem (fun p : CalibrationPoint => slope * p.intensity + intercept) hp)

theorem zipWith_residual64 (points : List CalibrationPoint) (g : CalibrationPoint → JSNum)
    (h : RoundingFree (points.map (fun p => p.concentration - g p))) :
    List.zipWith (fun p pr => sub64 p.concentration pr) points (points.map g) =
      List.zipWith (fun p pr => p.concentration - pr) points (points.map g) := by
  rw [zipWith_map_self, zipWith_map_self]
  exact List.map_congr_left (fun p hp =>
    h _ (List.mem_map_of_mem (fun p : CalibrationPoint => p.concentration - g p) hp))

/-- When no operation on the way to the numerator and the denominator rounds,
the slope is the rounded quotient of the exact evaluation. -/
theorem calculateRegressionBinary64_slope (sqrt : JSNum → JSNum)
    (points : List CalibrationPoint) (h : RoundingFree (sumSteps points)) :
    (calculateRegressionBinary64 sqrt points).slope =
      (calculateRegression sqrt points).slope.round := by
  unfold sumSteps at h
  simp only [roundingFree_append, roundingFree_cons] at h
  obtain ⟨⟨⟨⟨⟨⟨hX, hY⟩, hxy⟩, hXY⟩, hxx⟩, hXX⟩, h1, h2, h3, h4, h5, h6, -⟩ := h
  have hsumX := foldl_add64 (fun p : CalibrationPoint => p.intensity)
    (fun p : CalibrationPoint => p.intensity) points (JSNum.fin 0) (fun _ _ => rfl) hX
  have hsumY := foldl_add64 (fun p : CalibrationPoint => p.concentration)
    (fun p : CalibrationPoint => p.concentration) points (JSNum.fin 0) (fun _ _ => rfl) hY
  have hsumXY := foldl_add64 (fun p : CalibrationPoint => p.intensity * p.concentration)
    (fun p : CalibrationPoint => mul64 p.intensity p.concentration) points (JSNum.fin 0)
    (fun p hp => hxy (p.intensity * p.concentration)
      (List.mem_map_of_mem (fun p : CalibrationPoint => p.intensity * p.concentration) hp)) hXY
  have hsumXX := foldl_add64 (fun p : CalibrationPoint => p.intensity * p.intensity)
    (fun p : CalibrationPoint => mul64 p.intensity p.intensity) points (JSNum.fin 0)
    (fun p hp => hxx (p.intensity * p.intensity)
      (List.mem_map_of_mem (fun p : CalibrationPoint => p.intensity * p.intensity) hp)) hXX
  simp only [calculateRegressionBinary64, calculateRegression, hsumX, hsumY, hsumXY, hsumXX]
  simp only [mul64, sub64, div64, h1, h2, h3, h4, h5, h6]

/-- When no operation on the way to the slope and the intercept rounds, the
binary64 evaluation gives the slope and the intercept of the exact one. -/
theorem calculateRegressionBinary64_line (sqrt : JSNum → JSNum)
    (points : List CalibrationPoint) (h : RoundingFree (lineSteps points)) :
    (calculateRegressionBinary64 sqrt points).slope = (calculateRegression sqrt points).slope ∧
      (calculateRegressionBinary64 sqrt points).intercept =
        (calculateRegression sqrt points).intercept := by
  unfold lineSteps at h
  simp only [roundingFree_append, roundingFree_cons] at h
  obtain ⟨hsum, h7, h8, h9, h10, -⟩ := h
  have hslope : (calculateRegressionBinary64 sqrt points).slope =
      (calculateRegression sqrt points).slope := by
    rw [calculateRegressionBinary64_slope sqrt points hsum]
    exact h7
  refine ⟨hslope, ?_⟩
  unfold sumSteps at hsum
  simp only [roundingFree_append, roundingFree_cons] at hsum
  obtain ⟨⟨⟨⟨⟨⟨hX, hY⟩, -⟩, -⟩, -⟩, -⟩, -⟩ := hsum
  have hsumX := foldl_add64 (fun p : CalibrationPoint => p.intensity)
    (fun p : CalibrationPoint => p.intensity) points (JSNum.fin 0) (fun _ _ => rfl) hX
  have hsumY := foldl_add64 (fun p : CalibrationPoint => p.concentration)
    (fun p : CalibrationPoint => p.concentration) points (JSNum.fin 0) (fun _ _ => rfl) hY
  have hint : (calculateRegressionBinary64 sqrt points).intercept =
      div64 (sub64 (points.foldl (fun sum p => add64 sum p.concentration) (JSNum.fin 0))
        (mul64 (calculateRegressionBinary64 sqrt points).slope
          (points.foldl (fun sum p => add64 sum p.intensity) (JSNum.fin 0))))
        (JSNum.ofNat points.length) := rfl
  rw [hint, hslope, hsumX, hsumY]
  have e8 : mul64 (calculateRegression sqrt points).slope
      (points.foldl (fun sum p => sum + p.intensity) (JSNum.fin 0)) =
      (calculateRegression sqrt points).slope *
        points.foldl (fun sum p => sum + p.intensity) (JSNum.fin 0) := h8
  have e9 : sub64 (points.foldl (fun sum p => sum + p.concentration) (JSNum.fin 0))
      ((calculateRegression sqrt points).slope *
        points.foldl (fun sum p => sum + p.intensity) (JSNum.fin 0)) =
      points.foldl (fun sum p => sum + p.concentration) (JSNum.fin 0) -
        (calculateRegression sqrt points).slope *
          points.foldl (fun sum p => sum + p.intensity) (JSNum.fin 0) := h9
  rw [e8, e9]
  exact h10

/-- When no operation of the evaluation rounds, the binary64 evaluation gives
the object of the exact one. -/
theorem calculateRegressionBinary64_eq (sqrt : JSNum → JSNum)
    (points : List CalibrationPoint) (h : RoundingFree (lineSteps points))
    (hq : RoundingFree (qualitySteps points)) :
    calculateRegressionBinary64 sqrt points = calculateRegression sqrt points := by
  obtain ⟨hslope, hintercept⟩ := calculateRegressionBinary64_line sqrt points h
  unfold lineSteps sumSteps at h
  simp only [roundingFree_append, roundingFree_cons] at h
  obtain ⟨⟨⟨⟨⟨⟨⟨hX, hY⟩, -⟩, -⟩, -⟩, -⟩, -⟩, -⟩ := h
  have hsumY := foldl_add64 (fun p : CalibrationPoint => p.concentration)
    (fun p : CalibrationPoint => p.concentration) points (JSNum.fin 0) (fun _ _ => rfl) hY
  unfold qualitySteps at hq
  simp only [roundingFree_append, roundingFree_cons] at hq
  obtain ⟨⟨⟨⟨⟨⟨⟨⟨⟨hsx, hpred⟩, hres⟩, hrr⟩, hRR⟩, hmean, -⟩, hym⟩, hym2⟩, hYM⟩, hl1, hl2, hl3, -⟩ := hq
  have hpredicted : (calculateRegressionBinary64 sqrt points).predicted =
      (calculateRegression sqrt points).predicted := by
    have e : (calculateRegressionBinary64 sqrt points).predicted =
        points.map (fun p => add64 (mul64 (calculateRegressionBinary64 sqrt points).slope
          p.intensity) (calculateRegressionBinary64 sqrt points).intercept) := rfl
    rw [e, hslope, hintercept]
    exact map_predicted64 points (calculateRegression sqrt points).slope
      (calculateRegression sqrt points).intercept hsx hpred
  have hresiduals : (calculateRegressionBinary64 sqrt points).residuals =
      (calculateRegression sqrt points).residuals := by
    have e : (calculateRegressionBinary64 sqrt points).residuals =
        List.zipWith (fun p pr => sub64 p.concentration pr) points
          (calculateRegressionBinary64 sqrt points).predicted := rfl
    rw [e, hpredicted]
    exact zipWith_residual64 points
      (fun p => (calculateRegression sqrt points).slope * p.intensity +
        (calculateRegression sqrt points).intercept) hres
  have hmeanE : div64 (points.foldl (fun sum p => sum + p.concentration) (JSNum.fin 0))
      (JSNum.ofNat points.length) =
      points.foldl (fun sum p => sum + p.concentration) (JSNum.fin 0) /
        JSNum.ofNat points.length := hmean
  have hssTotal := foldl_add64
    (fun p : CalibrationPoint => JSNum.pow2 (p.concentration -
      points.foldl (fun sum p => sum + p.concentration) (JSNum.fin 0) /
        JSNum.ofNat points.length))
    (fun p : CalibrationPoint => mul64
      (sub64 p.concentration (points.foldl (fun sum p => sum + p.concentration) (JSNum.fin 0) /
        JSNum.ofNat points.length))
      (sub64 p.concentration (points.foldl (fun sum p => sum + p.concentration) (JSNum.fin 0) /
        JSNum.ofNat points.length)))
    points (JSNum.fin 0)
    (fun p hp => by
      have e1 : sub64 p.concentration
          (points.foldl (fun sum p => sum + p.concentration) (JSNum.fin 0) /
            JSNum.ofNat points.length) =
          p.concentration - points.foldl (fun sum p => sum + p.concentration) (JSNum.fin 0) /
            JSNum.ofNat points.length :=
        hym _ (List.mem_map_of_mem (fun p : CalibrationPoint => p.concentration -
          points.foldl (fun sum p => sum + p.concentration) (JSNum.fin 0) /
            JSNum.ofNat points.length) hp)
      simp only [e1]
      exact hym2 _ (List.mem_map_of_mem (fun p : CalibrationPoint => JSNum.pow2 (p.concentration -
          points.foldl (fun sum p => sum + p.concentration) (JSNum.fin 0) /
            JSNum.ofNat points.length)) hp)) hYM
  have hssResidual := foldl_add64 (fun r : JSNum => r * r) (fun r : JSNum => mul64 r r)
    (calculateRegression sqrt points).residuals (JSNum.fin 0)
    (fun r hr => hrr _ (List.mem_map_of_mem (fun r : JSNum => r * r) hr)) hRR
  have hdiv : div64
      ((calculateRegression sqrt points).residuals.foldl (fun sum r => sum + r * r) (JSNum.fin 0))
      (points.foldl (fun sum p => sum + JSNum.pow2 (p.concentration -
        points.foldl (fun sum p => sum + p.concentration) (JSNum.fin 0) /
          JSNum.ofNat points.length)) (JSNum.fin 0)) =
      (calculateRegression sqrt points).residuals.foldl (fun sum r => sum + r * r) (JSNum.fin 0) /
      points.foldl (fun sum p => sum + JSNum.pow2 (p.concentration -
        points.foldl (fun sum p => sum + p.concentration) (JSNum.fin 0) /
          JSNum.ofNat points.length)) (JSNum.fin 0) := hl1
  have hr2 : sub64 (JSNum.fin 1)
      ((calculateRegression sqrt points).residuals.foldl (fun sum r => sum + r * r) (JSNum.fin 0) /
      points.foldl (fun sum p => sum + JSNum.pow2 (p.concentration -
        points.foldl (fun sum p => sum + p.concentration) (JSNum.fin 0) /
          JSNum.ofNat points.length)) (JSNum.fin 0)) = (calculateRegression sqrt points).rSquared :=
    hl2
  have hrmse : div64
      ((calculateRegression sqrt points).residuals.foldl (fun sum r => sum + r * r) (JSNum.fin 0))
      (JSNum.ofNat points.length) =
      (calculateRegression sqrt points).residuals.foldl (fun sum r => sum + r * r) (JSNum.fin 0) /
        JSNum.ofNat points.length := hl3
  have hR : (calculateRegressionBinary64 sqrt points).rSquared =
      (calculateRegression sqrt points).rSquared := by
    have e : (calculateRegressionBinary64 sqrt points).rSquared =
        sub64 (JSNum.fin 1) (div64
          ((calculateRegressionBinary64 sqrt points).residuals.foldl
            (fun sum r => add64 sum (mul64 r r)) (JSNum.fin 0))
          (points.foldl (fun sum p => add64 sum (mul64
            (sub64 p.concentration (div64
              (points.foldl (fun sum p => add64 sum p.concentration) (JSNum.fin 0))
              (JSNum.ofNat points.length)))
            (sub64 p.concentration (div64
              (points.foldl (fun sum p => add64 sum p.concentration) (JSNum.fin 0))
              (JSNum.ofNat points.length))))) (JSNum.fin 0))) := rfl
    rw [e, hresiduals, hsumY, hmeanE, hssTotal, hssResidual, hdiv, hr2]
  have hM : (calculateRegressionBinary64 sqrt points).rmse =
      (calculateRegression sqrt points).rmse := by
    have e : (calculateRegressionBinary64 sqrt points).rmse =
        sqrt (div64 ((calculateRegressionBinary64 sqrt points).residuals.foldl
            (fun sum r => add64 sum (mul64 r r)) (JSNum.fin 0))
          (JSNum.ofNat points.length)) := rfl
    rw [e, hresiduals, hssResidual, hrmse]
    rfl
  have hn : (calculateRegressionBinary64 sqrt points).nPoints =
      (calculateRegression sqrt points).nPoints := rfl
  calc calculateRegressionBinary64 sqrt points
      = ⟨(calculateRegressionBinary64 sqrt points).slope,
          (calculateRegressionBinary64 sqrt points).intercept,
          (calculateRegressionBinary64 sqrt points).rSquared,
          (calculateRegressionBinary64 sqrt points).rmse,
          (calculateRegressionBinary64 sqrt points).nPoints,
          (calculateRegressionBinary64 sqrt points).predicted,
          (calculateRegressionBinary64 sqrt points).residuals⟩ := rfl
    _ = calculateRegression sqrt points := by
      rw [hslope, hintercept, hR, hM, hn, hpredicted, hresiduals]

/-! ## `NaN` in the binary64 evaluation -/

theorem foldl_from_nan64 (l : List JSNum) :
    l.foldl (fun sum r => add64 sum (mul64 r r)) JSNum.nan = JSNum.nan := by
  induction l with
  | nil => rfl
  | cons r l ih =>
    rw [List.foldl_cons]
    have e : add64 JSNum.nan (mul64 r r) = JSNum.nan := by
      unfold add64
      rw [nan_add]
      rfl
    rw [e, ih]

theorem foldl_map_nan64 (points : List CalibrationPoint) (hne : points ≠ []) (init : JSNum) :
    (points.map (fun _ => JSNum.nan)).foldl (fun sum r => add64 sum (mul64 r r)) init =
      JSNum.nan := by
  cases points with
  | nil => exact absurd rfl hne
  | cons p rest =>
    rw [List.map_cons, List.foldl_cons]
    have e : add64 init (mul64 JSNum.nan JSNum.nan) = JSNum.nan := by
      unfold add64 mul64
      rw [nan_mul, round_nan, add_nan]
      rfl
    rw [e, foldl_from_nan64]

/-- When the slope of the binary64 evaluation is `NaN`, so are the intercept
and R². -/
theorem regressionBinary64_nan_of_slope_nan (sqrt : JSNum → JSNum)
    (points : List CalibrationPoint)
    (hs : (calculateRegressionBinary64 sqrt points).slope = JSNum.nan) :
    (calculateRegressionBinary64 sqrt points).intercept = JSNum.nan ∧
      (calculateRegressionBinary64 sqrt points).rSquared = JSNum.nan := by
  simp only [calculateRegressionBinary64] at hs ⊢
  rw [hs]
  simp only [mul64, sub64, div64, nan_mul, sub_nan, nan_div, nan_add, round_nan,
    zipWith_map_self, true_and]
  cases points with
  | nil =>
    show (JSNum.fin 1 - (JSNum.fin 0 / JSNum.fin 0).round).round = JSNum.nan
    rw [fin_zero_div_zero, round_nan, sub_nan, round_nan]
  | cons p rest =>
    have e := foldl_map_nan64 (p :: rest) (List.cons_ne_nil _ _) (JSNum.fin 0)
    simp only [mul64] at e
    have e2 : add64 JSNum.nan JSNum.nan = JSNum.nan := rfl
    simp only [e2, sub_nan, round_nan, e, nan_div]

/-! ## Integer data -/

theorem isIntegerUpTo_mono {M N : ℕ} (h : M ≤ N) {v : JSNum} (hv : IsIntegerUpTo M v) :
    IsIntegerUpTo N v := by
  obtain ⟨z, rfl, hz⟩ := hv
  exact ⟨z, rfl, le_trans hz (by exact_mod_cast h)⟩

theorem isIntegerUpTo_add {M N : ℕ} {u v : JSNum} (hu : IsIntegerUpTo M u)
    (hv : IsIntegerUpTo N v) : IsIntegerUpTo (M + N) (u + v) := by
  obtain ⟨a, rfl, ha⟩ := hu
  obtain ⟨b, rfl, hb⟩ := hv
  refine ⟨a + b, by rw [fin_add]; push_cast; rfl, ?_⟩
  push_cast
  exact le_trans (abs_add a b) (add_le_add ha hb)

theorem isIntegerUpTo_sub {M N : ℕ} {u v : JSNum} (hu : IsIntegerUpTo M u)
    (hv : IsIntegerUpTo N v) : IsIntegerUpTo (M + N) (u - v) := by
  obtain ⟨a, rfl, ha⟩ := hu
  obtain ⟨b, rfl, hb⟩ := hv
  refine ⟨a - b, by rw [fin_sub]; push_cast; rfl, ?_⟩
  push_cast
  exact le_trans (abs_sub a b) (add_le_add ha hb)

theorem isIntegerUpTo_mul {M N : ℕ} {u v : JSNum} (hu : IsIntegerUpTo M u)
    (hv : IsIntegerUpTo N v) : IsIntegerUpTo (M * N) (u * v) := by
  obtain ⟨a, rfl, ha⟩ := hu
  obtain ⟨b, rfl, hb⟩ := hv
  refine ⟨a * b, by rw [fin_mul]; push_cast; rfl, ?_⟩
  push_cast
  rw [abs_mul]
  exact mul_le_mul ha hb (abs_nonneg b) (by positivity)

theorem isIntegerUpTo_ofNat (n : ℕ) : IsIntegerUpTo n (JSNum.ofNat n) :=
  ⟨(n : ℤ), by simp [JSNum.ofNat], by simp⟩

theorem isIntegerUpTo_zero : IsIntegerUpTo 0 (JSNum.fin 0) := ⟨0, by simp, by simp⟩

theorem round_of_isIntegerUpTo {M : ℕ} (hM : M ≤ 2 ^ 53) {v : JSNum}
    (hv : IsIntegerUpTo M v) : v.round = v := by
  obtain ⟨z, rfl, hz⟩ := hv
  exact roundBinary64_intCast z (le_trans hz (by exact_mod_cast hM))

theorem partialSums_isIntegerUpTo {α : Type} (f : α → JSNum) (M : ℕ) (xs : List α)
    (hf : ∀ x ∈ xs, IsIntegerUpTo M (f x)) (A : ℕ) (init : JSNum)
    (hinit : IsIntegerUpTo A init) :
    (∀ v ∈ partialSums f init xs, IsIntegerUpTo (A + xs.length * M) v) ∧
      IsIntegerUpTo (A + xs.length * M) (xs.foldl (fun sum x => sum + f x) init) := by
  induction xs generalizing A init with
  | nil =>
    refine ⟨fun v hv => by simp [partialSums] at hv, ?_⟩
    simpa using hinit
  | cons x rest ih =>
    have hx := hf x (List.mem_cons_self _ _)
    have hstep : IsIntegerUpTo (A + M) (init + f x) := isIntegerUpTo_add hinit hx
    obtain ⟨ih1, ih2⟩ := ih (fun y hy => hf y (List.mem_cons_of_mem _ hy)) (A + M) (init + f x)
      hstep
    have e : A + M + rest.length * M = A + (x :: rest).length * M := by
      simp only [List.length_cons]
      ring
    rw [e] at ih1 ih2
    refine ⟨fun v hv => ?_, ?_⟩
    · simp only [partialSums, List.mem_cons] at hv
      rcases hv with rfl | hv
      · exact isIntegerUpTo_mono (by
          simp only [List.length_cons]
          nlinarith [Nat.zero_le (rest.length * M)]) hstep
      · exact ih1 v hv
    · rw [List.foldl_cons]
      exact ih2

theorem integer_bounds (n B : ℕ) (hn : 1 ≤ n) :
    n * B ≤ 2 * (n * B) ^ 2 ∧ B * B ≤ 2 * (n * B) ^ 2 ∧ n * (B * B) ≤ 2 * (n * B) ^ 2 ∧
      n * (n * (B * B)) ≤ 2 * (n * B) ^ 2 ∧ n * B * (n * B) ≤ 2 * (n * B) ^ 2 ∧
      n * (n * (B * B)) + n * B * (n * B) ≤ 2 * (n * B) ^ 2 := by
  have h1 : B ≤ n * B := Nat.le_mul_of_pos_left B hn
  have h2 : B * B ≤ n * B * (n * B) := Nat.mul_le_mul h1 h1
  have h3 : n * (B * B) ≤ n * B * (n * B) := by
    calc n * (B * B) = n * B * B := by ring
      _ ≤ n * B * (n * B) := Nat.mul_le_mul le_rfl h1
  have h4 : n * (n * (B * B)) = n * B * (n * B) := by ring
  have h5 : n * B ≤ n * B * (n * B) := by
    rcases Nat.eq_zero_or_pos (n * B) with h | h
    · rw [h]
    · exact Nat.le_mul_of_pos_left _ h
  have h6 : (n * B) ^ 2 = n * B * (n * B) := by ring
  rw [h6, h4]
  omega

/-- On integer data of absolute value at most `bound` with
`2 * (n * bound) ^ 2 ≤ 2 ^ 53`, no operation on the way to the numerator and the
denominator of the slope rounds. -/
theorem sumSteps_roundingFree_of_integers (bound : ℕ) (points : List CalibrationPoint)
    (hint : IntegerPoints bound points)
    (hbound : 2 * (points.length * bound) ^ 2 ≤ 2 ^ 53) :
    RoundingFree (sumSteps points) := by
  rcases Nat.eq_zero_or_pos points.length with hzero | hlen
  · have hnil : points = [] := List.length_eq_zero.mp hzero
    subst hnil
    unfold RoundingFree
    decide!
  have hx : ∀ p ∈ points, IsIntegerUpTo bound p.intensity := fun p hp => by
    obtain ⟨x, y, h1, -, h3, -⟩ := hint p hp
    exact ⟨x, h1, h3⟩
  have hy : ∀ p ∈ points, IsIntegerUpTo bound p.concentration := fun p hp => by
    obtain ⟨x, y, -, h2, -, h4⟩ := hint p hp
    exact ⟨y, h2, h4⟩
  have hxy : ∀ p ∈ points, IsIntegerUpTo (bound * bound) (p.intensity * p.concentration) :=
    fun p hp => isIntegerUpTo_mul (hx p hp) (hy p hp)
  have hxx : ∀ p ∈ points, IsIntegerUpTo (bound * bound) (p.intensity * p.intensity) :=
    fun p hp => isIntegerUpTo_mul (hx p hp) (hx p hp)
  obtain ⟨hX1, hX2⟩ := partialSums_isIntegerUpTo (fun p : CalibrationPoint => p.intensity)
    bound points hx 0 (JSNum.fin 0) isIntegerUpTo_zero
  obtain ⟨hY1, hY2⟩ := partialSums_isIntegerUpTo (fun p : CalibrationPoint => p.concentration)
    bound points hy 0 (JSNum.fin 0) isIntegerUpTo_zero
  obtain ⟨hXY1, hXY2⟩ := partialSums_isIntegerUpTo
    (fun p : CalibrationPoint => p.intensity * p.concentration)
    (bound * bound) points hxy 0 (JSNum.fin 0) isIntegerUpTo_zero
  obtain ⟨hXX1, hXX2⟩ := partialSums_isIntegerUpTo
    (fun p : CalibrationPoint => p.intensity * p.intensity)
    (bound * bound) points hxx 0 (JSNum.fin 0) isIntegerUpTo_zero
  simp only [zero_add] at hX1 hX2 hY1 hY2 hXY1 hXY2 hXX1 hXX2
  have hn := isIntegerUpTo_ofNat points.length
  have hnXY := isIntegerUpTo_mul hn hXY2
  have hXtY := isIntegerUpTo_mul hX2 hY2
  have hN := isIntegerUpTo_sub hnXY hXtY
  have hnXX := isIntegerUpTo_mul hn hXX2
  have hXtX := isIntegerUpTo_mul hX2 hX2
  have hD := isIntegerUpTo_sub hnXX hXtX
  obtain ⟨b1, b2, b3, b4, b5, b6⟩ := integer_bounds points.length bound hlen
  have hfree : ∀ {M : ℕ} {v : JSNum}, M ≤ 2 * (points.length * bound) ^ 2 →
      IsIntegerUpTo M v → v.round = v :=
    fun hM hv => round_of_isIntegerUpTo (le_trans hM hbound) hv
  unfold sumSteps
  simp only [roundingFree_append, roundingFree_cons]
  refine ⟨⟨⟨⟨⟨⟨?_, ?_⟩, ?_⟩, ?_⟩, ?_⟩, ?_⟩, ?_, ?_, ?_, ?_, ?_, ?_, ?_⟩
  · exact fun v hv => hfree b1 (hX1 v hv)
  · exact fun v hv => hfree b1 (hY1 v hv)
  · intro v hv
    obtain ⟨p, hp, rfl⟩ := List.mem_map.mp hv
    exact hfree b2 (hxy p hp)
  · exact fun v hv => hfree b3 (hXY1 v hv)
  · intro v hv
    obtain ⟨p, hp, rfl⟩ := List.mem_map.mp hv
    exact hfree b2 (hxx p hp)
  · exact fun v hv => hfree b3 (hXX1 v hv)
  · exact hfree b4 hnXY
  · exact hfree b5 hXtY
  · exact hfree b6 hN
  · exact hfree b4 hnXX
  · exact hfree b5 hXtX
  · exact hfree b6 hD
  · exact fun v hv => by simp at hv


/-! ## Least squares in binary64 -/

theorem largeLinePoints_on_line :
    ∀ p ∈ largeLinePoints, ∃ x, p.intensity = JSNum.fin x ∧
      p.concentration = JSNum.fin (3 * x + 1) := by
  intro p hp
  simp only [largeLinePoints, pointsOf, List.enum, List.enumFrom, List.map_cons, List.map_nil,
    List.mem_cons, List.mem_singleton, List.not_mem_nil, or_false] at hp
  rcases hp with rfl | rfl | rfl
  · exact ⟨30000000, rfl, by norm_num⟩
  · exact ⟨30000001, rfl, by norm_num⟩
  · exact ⟨30000002, rfl, by norm_num⟩

/-- C14, as stated, fails. On the three points `(3e7, 9e7+1)`, `(3e7+1, 9e7+4)`,
`(3e7+2, 9e7+7)` of the line `y = 3x + 1` the code returns the slope
`3.3333333333333335` and the intercept `-9999999.333333334`, and the line
`y = 3x + 1` has a smaller sum of squared residuals than the returned line. On
the two points extracted from a table with the concentration `Infinity` the
returned slope is `NaN`. -/
theorem calculateRegression_not_least_squares :
    2 ≤ largeLinePoints.length ∧ IntensitiesDiffer largeLinePoints ∧
      (calculateRegressionBinary64 sqrtOnSquares largeLinePoints).slope =
        JSNum.fin (7505999378950827 / 2251799813685248) ∧
      (calculateRegressionBinary64 sqrtOnSquares largeLinePoints).intercept =
        JSNum.fin (-5368708762086059 / 536870912) ∧
      residualSumOfSquares 3 1 largeLinePoints <
        residualSumOfSquares (7505999378950827 / 2251799813685248)
          (-5368708762086059 / 536870912) largeLinePoints ∧
      2 ≤ (extractCalibrationPoints standardsWithInfinity (js "Ba Intensity")).length ∧
      IntensitiesDiffer (extractCalibrationPoints standardsWithInfinity (js "Ba Intensity")) ∧
      (calculateRegressionBinary64 sqrtOnSquares
        (extractCalibrationPoints standardsWithInfinity (js "Ba Intensity"))).slope =
        JSNum.nan := by
  refine ⟨by decide, ?_, by decide!, by decide!, by decide!, by decide!, ?_, by decide!⟩
  · unfold IntensitiesDiffer
    decide!
  · unfold IntensitiesDiffer
    decide!

/-- C14, amended: `calculateRegression` evaluates the closed formulas of the
least-squares line in binary64. On finite points whose intensities are not all
equal, the line of slope `olsSlope` and intercept `olsIntercept` minimises the
sum of squared residuals. When no operation on the way to the numerator and the
denominator of the slope rounds, as on integer data of absolute value at most
`bound` with `2 * (n * bound) ^ 2 ≤ 2 ^ 53`, the returned slope is the binary64
number nearest to `olsSlope`. When no operation on the way to the slope and the
intercept rounds, the returned slope and intercept are those of that line, so
they minimise the sum of squared residuals. -/
theorem calculateRegressionBinary64_least_squares (sqrt : JSNum → JSNum)
    (points : List CalibrationPoint) (hfin : AllFinite points)
    (hne : IntensitiesDiffer points) :
    (∀ m c : ℚ, residualSumOfSquares (olsSlope points) (olsIntercept points) points ≤
      residualSumOfSquares m c points) ∧
    (RoundingFree (sumSteps points) →
      (calculateRegressionBinary64 sqrt points).slope = roundBinary64 (olsSlope points)) ∧
    (∀ bound : ℕ, IntegerPoints bound points → 2 * (points.length * bound) ^ 2 ≤ 2 ^ 53 →
      (calculateRegressionBinary64 sqrt points).slope = roundBinary64 (olsSlope points)) ∧
    (RoundingFree (lineSteps points) →
      (calculateRegressionBinary64 sqrt points).slope = JSNum.fin (olsSlope points) ∧
        (calculateRegressionBinary64 sqrt points).intercept =
          JSNum.fin (olsIntercept points) ∧
        ∃ slope intercept : ℚ,
          (calculateRegressionBinary64 sqrt points).slope = JSNum.fin slope ∧
          (calculateRegressionBinary64 sqrt points).intercept = JSNum.fin intercept ∧
          ∀ m c : ℚ,
            residualSumOfSquares slope intercept points ≤
              residualSumOfSquares m c points) := by
  have hD := olsDenominator_pos hfin hne
  have hmin := residualSumOfSquares_olsSlope_le hD
  have hexact := calculateRegression_of_finite sqrt hfin hD.ne'
  have hslope : RoundingFree (sumSteps points) →
      (calculateRegressionBinary64 sqrt points).slope = roundBinary64 (olsSlope points) := by
    intro h
    rw [calculateRegressionBinary64_slope sqrt points h, hexact]
    rfl
  refine ⟨hmin, hslope, fun bound hint hbound => ?_, fun h => ?_⟩
  · exact hslope (sumSteps_roundingFree_of_integers bound points hint hbound)
  · obtain ⟨hs, hi⟩ := calculateRegressionBinary64_line sqrt points h
    rw [hexact] at hs hi
    exact ⟨hs, hi, olsSlope points, olsIntercept points, hs, hi, hmin⟩

/-- An instance of the amended C14. On the points `(1,3), (2,5), (3,7), (4,9)`
no operation rounds, and the returned slope 2 and intercept 1 minimise the sum
of squared residuals. The standards of intensity 1000, 500, 100 and
concentration 10, 5, 1 are integer data within the bound, and the returned
slope is the binary64 number nearest to their least-squares slope 0.01. -/
theorem calculateRegressionBinary64_least_squares_witness :
    (AllFinite linePoints ∧ IntensitiesDiffer linePoints ∧
      RoundingFree (lineSteps linePoints) ∧
      (calculateRegressionBinary64 sqrtOnSquares linePoints).slope = JSNum.fin 2 ∧
      ∃ slope intercept : ℚ,
        (calculateRegressionBinary64 sqrtOnSquares linePoints).slope = JSNum.fin slope ∧
        (calculateRegressionBinary64 sqrtOnSquares linePoints).intercept =
          JSNum.fin intercept ∧
        ∀ m c : ℚ,
          residualSumOfSquares slope intercept linePoints ≤
            residualSumOfSquares m c linePoints) ∧
    (AllFinite standardPoints ∧ IntensitiesDiffer standardPoints ∧
      IntegerPoints 1000 standardPoints ∧
      2 * (standardPoints.length * 1000) ^ 2 ≤ 2 ^ 53 ∧ olsSlope standardPoints = 1 / 100 ∧
      (calculateRegressionBinary64 sqrtOnSquares standardPoints).slope =
        roundBinary64 (olsSlope standardPoints)) :=
  have hfin : AllFinite linePoints := by unfold AllFinite; decide!
  have hne : IntensitiesDiffer linePoints := by unfold IntensitiesDiffer; decide!
  have hfree : RoundingFree (lineSteps linePoints) := by unfold RoundingFree; decide!
  have hfin2 : AllFinite standardPoints := by unfold AllFinite; decide!
  have hne2 : IntensitiesDiffer standardPoints := by unfold IntensitiesDiffer; decide!
  have hint : IntegerPoints 1000 standardPoints := by
    intro p hp
    simp only [standardPoints, pointsOf, List.enum, List.enumFrom, List.map_cons, List.map_nil,
      List.mem_cons, List.mem_singleton, List.not_mem_nil, or_false] at hp
    rcases hp with rfl | rfl | rfl
    · exact ⟨1000, 10, by simp, by simp, by decide, by decide⟩
    · exact ⟨500, 5, by simp, by simp, by decide, by decide⟩
    · exact ⟨100, 1, by simp, by simp, by decide, by decide⟩
  have hbound : 2 * (standardPoints.length * 1000) ^ 2 ≤ 2 ^ 53 := by decide
  ⟨⟨hfin, hne, hfree, by decide!,
      ((calculateRegressionBinary64_least_squares sqrtOnSquares linePoints hfin hne).2.2.2
        hfree).2.2⟩,
    ⟨hfin2, hne2, hint, hbound, by decide!,
      (calculateRegressionBinary64_least_squares sqrtOnSquares standardPoints hfin2
        hne2).2.2.1 1000 hint hbound⟩⟩

/-! ## Points on a line, in binary64 -/

/-- C15, as stated, fails: the three points `(3e7, 9e7+1)`, `(3e7+1, 9e7+4)`,
`(3e7+2, 9e7+7)` lie on the line `y = 3x + 1`, and the code returns the slope
`3.3333333333333335`, the intercept `-9999999.333333334` and the R²
`0.9876543208036893`. -/
theorem calculateRegression_line_not_recovered :
    (∀ p ∈ largeLinePoints, ∃ x, p.intensity = JSNum.fin x ∧
      p.concentration = JSNum.fin (3 * x + 1)) ∧
      IntensitiesDiffer largeLinePoints ∧
      (calculateRegressionBinary64 sqrtOnSquares largeLinePoints).slope =
        JSNum.fin (7505999378950827 / 2251799813685248) ∧
      (calculateRegressionBinary64 sqrtOnSquares largeLinePoints).slope ≠ JSNum.fin 3 ∧
      (calculateRegressionBinary64 sqrtOnSquares largeLinePoints).intercept ≠ JSNum.fin 1 ∧
      (calculateRegressionBinary64 sqrtOnSquares largeLinePoints).rSquared =
        JSNum.fin (8895999262284711 / 9007199254740992) := by
  refine ⟨largeLinePoints_on_line, ?_, by decide!, by decide!, by decide!, by decide!⟩
  unfold IntensitiesDiffer
  decide!

/-- C15, amended: on points that lie on a line `y = m x + c` and whose
intensities are not all equal, when no operation of the evaluation rounds,
`calculateRegression` returns the slope `m` and the intercept `c`, every residual
is 0, the RMSE is 0 (for a square root with `sqrt 0 = 0`), `nPoints` is the
number of points, and R² is 1 when `m ≠ 0`. On integer data of absolute value at
most `bound` with `2 * (n * bound) ^ 2 ≤ 2 ^ 53` the returned slope is the binary64
number nearest to `m`. The points `(1,3), (2,5), (3,7), (4,9)` give slope 2,
intercept 1 and R² 1; the standards of concentration 10, 5, 1 and intensity
1000, 500, 100 give the binary64 number nearest to 0.01 as slope, intercept 0,
R² 1 and 3 points. -/
theorem calculateRegressionBinary64_exact_line :
    (∀ (sqrt : JSNum → JSNum) (points : List CalibrationPoint) (m c : ℚ),
      (∀ p ∈ points, ∃ x, p.intensity = JSNum.fin x ∧
        p.concentration = JSNum.fin (m * x + c)) →
      IntensitiesDiffer points →
      RoundingFree (lineSteps points) → RoundingFree (qualitySteps points) →
      (calculateRegressionBinary64 sqrt points).slope = JSNum.fin m ∧
        (calculateRegressionBinary64 sqrt points).intercept = JSNum.fin c ∧
        (calculateRegressionBinary64 sqrt points).residuals =
          points.map (fun _ => JSNum.fin 0) ∧
        (sqrt (JSNum.fin 0) = JSNum.fin 0 →
          (calculateRegressionBinary64 sqrt points).rmse = JSNum.fin 0) ∧
        (calculateRegressionBinary64 sqrt points).nPoints = points.length ∧
        (m ≠ 0 → (calculateRegressionBinary64 sqrt points).rSquared = JSNum.fin 1)) ∧
    (∀ (sqrt : JSNum → JSNum) (points : List CalibrationPoint) (m c : ℚ) (bound : ℕ),
      (∀ p ∈ points, ∃ x, p.intensity = JSNum.fin x ∧
        p.concentration = JSNum.fin (m * x + c)) →
      IntensitiesDiffer points →
      IntegerPoints bound points → 2 * (points.length * bound) ^ 2 ≤ 2 ^ 53 →
      (calculateRegressionBinary64 sqrt points).slope = roundBinary64 m) ∧
    (∀ sqrt : JSNum → JSNum,
      (calculateRegressionBinary64 sqrt linePoints).slope = JSNum.fin 2 ∧
        (calculateRegressionBinary64 sqrt linePoints).intercept = JSNum.fin 1 ∧
        (calculateRegressionBinary64 sqrt linePoints).rSquared = JSNum.fin 1) ∧
    (∀ sqrt : JSNum → JSNum,
      (calculateRegressionBinary64 sqrt standardPoints).slope = roundBinary64 0.01 ∧
        (calculateRegressionBinary64 sqrt standardPoints).intercept = JSNum.fin 0 ∧
        (calculateRegressionBinary64 sqrt standardPoints).rSquared = JSNum.fin 1 ∧
        (calculateRegressionBinary64 sqrt standardPoints).nPoints = 3) := by
  refine ⟨fun sqrt points m c hline hne h hq => ?_,
    fun sqrt points m c bound hline hne hint hbound => ?_, fun sqrt => ?_, fun sqrt => ?_⟩
  · rw [calculateRegressionBinary64_eq sqrt points h hq]
    exact calculateRegression_of_line sqrt points m c hline hne
  · rw [calculateRegressionBinary64_slope sqrt points
      (sumSteps_roundingFree_of_integers bound points hint hbound),
      (calculateRegression_of_line sqrt points m c hline hne).1]
    rfl
  · have h1 : (calculateRegressionBinary64 sqrt linePoints).slope =
        (calculateRegressionBinary64 sqrtOnSquares linePoints).slope := rfl
    have h2 : (calculateRegressionBinary64 sqrt linePoints).intercept =
        (calculateRegressionBinary64 sqrtOnSquares linePoints).intercept := rfl
    have h3 : (calculateRegressionBinary64 sqrt linePoints).rSquared =
        (calculateRegressionBinary64 sqrtOnSquares linePoints).rSquared := rfl
    rw [h1, h2, h3]
    decide!
  · have h1 : (calculateRegressionBinary64 sqrt standardPoints).slope =
        (calculateRegressionBinary64 sqrtOnSquares standardPoints).slope := rfl
    have h2 : (calculateRegressionBinary64 sqrt standardPoints).intercept =
        (calculateRegressionBinary64 sqrtOnSquares standardPoints).intercept := rfl
    have h3 : (calculateRegressionBinary64 sqrt standardPoints).rSquared =
        (calculateRegressionBinary64 sqrtOnSquares standardPoints).rSquared := rfl
    have h4 : (calculateRegressionBinary64 sqrt standardPoints).nPoints =
        (calculateRegressionBinary64 sqrtOnSquares standardPoints).nPoints := rfl
    rw [h1, h2, h3, h4]
    decide!

/-- An instance of the amended C15: on the points `(1,3), (2,5), (3,7), (4,9)`
no operation rounds, and the regression with a square root that is exact on
squares has slope 2, intercept 1 and RMSE 0. -/
theorem calculateRegressionBinary64_exact_line_witness :
    IntensitiesDiffer linePoints ∧ RoundingFree (lineSteps linePoints) ∧
      RoundingFree (qualitySteps linePoints) ∧
      (calculateRegressionBinary64 sqrtOnSquares linePoints).slope = JSNum.fin 2 ∧
      (calculateRegressionBinary64 sqrtOnSquares linePoints).intercept = JSNum.fin 1 ∧
      (calculateRegressionBinary64 sqrtOnSquares linePoints).rmse = JSNum.fin 0 :=
  have hne : IntensitiesDiffer linePoints := by unfold IntensitiesDiffer; decide!
  have hfree : RoundingFree (lineSteps linePoints) := by unfold RoundingFree; decide!
  have hq : RoundingFree (qualitySteps linePoints) := by unfold RoundingFree; decide!
  have h := calculateRegressionBinary64_exact_line.1 sqrtOnSquares linePoints 2 1
    linePoints_on_line hne hfree hq
  ⟨hne, hfree, hq, h.1, h.2.1, h.2.2.2.1 (by decide!)⟩

/-! ## Equal intensities, in binary64 -/

/-- C17, as stated, fails. On two points with the same intensity 5 the code
does not fail with `FitDegenerate`: it returns an object whose slope, intercept
and R² are `NaN`. On three points with the same intensity 0.3 the denominator
rounds to a non-zero number and the code returns a finite model, of slope 0 and
R² 0. On the intensities `1e8`, `1e8 + 1`, `1e8 + 2` the denominator rounds to 0
and the returned slope is `Infinity`. -/
theorem calculateRegression_degenerate_returns :
    calculateRegressionOutcomeBinary64 sqrtOnSquares sameIntensityPoints ≠
        Except.error CalibrationError.fitDegenerate ∧
      calculateRegressionOutcomeBinary64 sqrtOnSquares sameIntensityPoints =
        Except.ok ⟨JSNum.nan, JSNum.nan, JSNum.nan, JSNum.nan, 2,
          [JSNum.nan, JSNum.nan], [JSNum.nan, JSNum.nan]⟩ ∧
      (∀ p ∈ threeTenthsPoints, ∀ q ∈ threeTenthsPoints, p.intensity = q.intensity) ∧
      (calculateRegressionBinary64 sqrtOnSquares threeTenthsPoints).slope = JSNum.fin 0 ∧
      (calculateRegressionBinary64 sqrtOnSquares threeTenthsPoints).intercept =
        JSNum.fin (6004799503160661 / 1125899906842624) ∧
      (calculateRegressionBinary64 sqrtOnSquares threeTenthsPoints).rSquared = JSNum.fin 0 ∧
      IntensitiesDiffer hundredMillionPoints ∧
      (calculateRegressionBinary64 sqrtOnSquares hundredMillionPoints).slope =
        JSNum.inf false := by
  refine ⟨?_, congrArg Except.ok (by decide!), by decide!, by decide!, by decide!, by decide!,
    ?_, by decide!⟩
  · intro h
    cases h
  · unfold IntensitiesDiffer
    decide!

/-- C17, amended: `calculateRegression` has no failure: every call returns its
object. When all the given points are finite and have the same intensity and no
operation on the way to the numerator and the denominator of the slope rounds,
as on integer data of absolute value at most `bound` with
`2 * (n * bound) ^ 2 ≤ 2 ^ 53`, the slope, the intercept and R² of that object
are `NaN`. -/
theorem calculateRegressionBinary64_degenerate (sqrt : JSNum → JSNum)
    (points : List CalibrationPoint) :
    calculateRegressionOutcomeBinary64 sqrt points =
        Except.ok (calculateRegressionBinary64 sqrt points) ∧
      (AllFinite points → (∀ p ∈ points, ∀ q ∈ points, p.intensity = q.intensity) →
        RoundingFree (sumSteps points) →
        (calculateRegressionBinary64 sqrt points).slope = JSNum.nan ∧
          (calculateRegressionBinary64 sqrt points).intercept = JSNum.nan ∧
          (calculateRegressionBinary64 sqrt points).rSquared = JSNum.nan) ∧
      (∀ bound : ℕ, IntegerPoints bound points →
        2 * (points.length * bound) ^ 2 ≤ 2 ^ 53 →
        (∀ p ∈ points, ∀ q ∈ points, p.intensity = q.intensity) →
        (calculateRegressionBinary64 sqrt points).slope = JSNum.nan ∧
          (calculateRegressionBinary64 sqrt points).intercept = JSNum.nan ∧
          (calculateRegressionBinary64 sqrt points).rSquared = JSNum.nan) := by
  have key : AllFinite points → (∀ p ∈ points, ∀ q ∈ points, p.intensity = q.intensity) →
      RoundingFree (sumSteps points) →
      (calculateRegressionBinary64 sqrt points).slope = JSNum.nan ∧
        (calculateRegressionBinary64 sqrt points).intercept = JSNum.nan ∧
        (calculateRegressionBinary64 sqrt points).rSquared = JSNum.nan := by
    intro hfin heq h
    have hs : (calculateRegressionBinary64 sqrt points).slope = JSNum.nan := by
      rw [calculateRegressionBinary64_slope sqrt points h,
        slope_nan_of_equal_intensity sqrt hfin heq]
      rfl
    exact ⟨hs, regressionBinary64_nan_of_slope_nan sqrt points hs⟩
  refine ⟨rfl, key, fun bound hint hbound heq => ?_⟩
  have hfin : AllFinite points := fun p hp => by
    obtain ⟨x, y, h1, h2, -, -⟩ := hint p hp
    rw [h1, h2]
    exact ⟨rfl, rfl⟩
  exact key hfin heq (sumSteps_roundingFree_of_integers bound points hint hbound)

/-- An instance of the amended C17: two points of intensity 5 give a `NaN` slope. -/
theorem calculateRegressionBinary64_degenerate_witness :
    AllFinite sameIntensityPoints ∧
      (∀ p ∈ sameIntensityPoints, ∀ q ∈ sameIntensityPoints, p.intensity = q.intensity) ∧
      RoundingFree (sumSteps sameIntensityPoints) ∧
      (calculateRegressionBinary64 sqrtOnSquares sameIntensityPoints).slope = JSNum.nan :=
  have hfin : AllFinite sameIntensityPoints := by unfold AllFinite; decide!
  have heq : ∀ p ∈ sameIntensityPoints, ∀ q ∈ sameIntensityPoints,
      p.intensity = q.intensity := by decide!
  have hfree : RoundingFree (sumSteps sameIntensityPoints) := by unfold RoundingFree; decide!
  ⟨hfin, heq, hfree,
    ((calculateRegressionBinary64_degenerate sqrtOnSquares sameIntensityPoints).2.1
      hfin heq hfree).1⟩

/-! ## The range of R² with an infinite value -/

/-- C29, as stated, fails: the two points extracted from a table with the
concentration `Infinity` have different intensities and different
concentrations, and the R² of their regression, in exact arithmetic, is `NaN`. -/
theorem calculateRegression_rSquared_nan_of_infinity :
    2 ≤ (extractCalibrationPoints standardsWithInfinity (js "Ba Intensity")).length ∧
      IntensitiesDiffer (extractCalibrationPoints standardsWithInfinity (js "Ba Intensity")) ∧
      ConcentrationsDiffer
        (extractCalibrationPoints standardsWithInfinity (js "Ba Intensity")) ∧
      (calculateRegression sqrtOnSquares
        (extractCalibrationPoints standardsWithInfinity (js "Ba Intensity"))).rSquared =
        JSNum.nan := by
  refine ⟨by decide!, ?_, ?_, by decide!⟩
  · unfold IntensitiesDiffer
    decide!
  · unfold ConcentrationsDiffer
    decide!

/-! ## The containment rule in binary64 -/

theorem similarityScoreBinary64_of_longer {a b : JSString} (hne : a ≠ b)
    (hl : a.length > b.length) :
    similarityScoreBinary64 a b =
      if includes a b then
        binary64 (binary64 0.8 +
          binary64 (binary64 ((b.length : ℚ) / (a.length : ℚ)) * binary64 0.2))
      else max 0 (binary64 (1 - binary64 ((levenshteinDistance a b : ℚ) / (a.length : ℚ)))) := by
  have h0 : a.length ≠ 0 := by omega
  simp only [similarityScoreBinary64, if_neg hne, if_pos hl, if_neg h0]

theorem similarityScoreBinary64_of_not_longer {a b : JSString} (hne : a ≠ b)
    (hl : ¬ a.length > b.length) :
    similarityScoreBinary64 a b =
      if includes b a then
        binary64 (binary64 0.8 +
          binary64 (binary64 ((a.length : ℚ) / (b.length : ℚ)) * binary64 0.2))
      else max 0 (binary64 (1 - binary64 ((levenshteinDistance a b : ℚ) / (b.length : ℚ)))) := by
  have h0 : b.length ≠ 0 := by
    intro hb
    have ha : a.length = 0 := by omega
    exact hne ((List.length_eq_zero.mp ha).trans (List.length_eq_zero.mp hb).symm)
  simp only [similarityScoreBinary64, if_neg hne, if_neg hl, if_neg h0]

theorem similarityScoreBinary64_of_contained {a b : JSString} (hne : a ≠ b)
    (h : a <:+: b ∨ b <:+: a) :
    similarityScoreBinary64 a b =
      binary64 (binary64 0.8 +
        binary64 (binary64 (((min a.length b.length : ℕ) : ℚ) /
          ((max a.length b.length : ℕ) : ℚ)) * binary64 0.2)) := by
  by_cases hl : a.length > b.length
  · have hba : b <:+: a := by
      rcases h with h | h
      · exact absurd h.length_le (by omega)
      · exact h
    rw [similarityScoreBinary64_of_longer hne hl, if_pos ((includes_iff a b).mpr hba),
      min_eq_right (by omega), max_eq_left (by omega)]
  · have hab : a <:+: b := by
      rcases h with h | h
      · exact h
      · exact absurd (h.eq_of_length_le (by omega)) (Ne.symm hne)
    rw [similarityScoreBinary64_of_not_longer hne hl, if_pos ((includes_iff b a).mpr hab),
      min_eq_left (by omega), max_eq_right (by omega)]

/-- C5, as stated, fails: for `"s001"` against `"s001x"` the code computes
`0.8 + (4 / 5) * 0.2` in binary64 and returns `0.9600000000000001`, the binary64
number next above the one nearest to 0.96; it is neither 0.96 nor the number
that the literal `0.96` denotes. -/
theorem similarityScore_s001_not_point96 :
    js "s001" ≠ js "s001x" ∧ js "s001" <:+: js "s001x" ∧
      similarityScoreBinary64 (js "s001") (js "s001x") =
        8646911284551353 / 9007199254740992 ∧
      similarityScoreBinary64 (js "s001") (js "s001x") ≠ 0.96 ∧
      similarityScoreBinary64 (js "s001") (js "s001x") ≠ binary64 0.96 := by
  decide!

/-- C5, amended: for distinct strings one of which contains the other, the
score is the value of `0.8 + (len(shorter) / len(longer)) * 0.2` computed in
binary64, each operation rounding its exact result, and it is within `2 ^ -51`
of `0.8 + 0.2 * len(shorter) / len(longer)`; the empty string scores 0.8 (the
binary64 number of that literal) against every non-empty string and 1 against
itself, and `"s001"` scores `0.9600000000000001` against `"s001x"`. -/
theorem similarityScoreBinary64_containment :
    (∀ a b : JSString, a ≠ b → (a <:+: b ∨ b <:+: a) →
      similarityScoreBinary64 a b =
          binary64 (binary64 0.8 +
            binary64 (binary64 (((min a.length b.length : ℕ) : ℚ) /
              ((max a.length b.length : ℕ) : ℚ)) * binary64 0.2)) ∧
        |similarityScoreBinary64 a b -
          (0.8 + 0.2 * ((min a.length b.length : ℕ) : ℚ) /
            ((max a.length b.length : ℕ) : ℚ))| ≤ 1 / 2 ^ 51) ∧
    (∀ b : JSString, b ≠ js "" → similarityScoreBinary64 (js "") b = binary64 0.8) ∧
    similarityScoreBinary64 (js "") (js "") = 1 ∧
    similarityScoreBinary64 (js "s001") (js "s001x") = binary64 0.96 + 1 / 2 ^ 53 := by
  refine ⟨fun a b hne h => ?_, fun b hb => ?_, ?_, ?_⟩
  · have hmax : max a.length b.length ≠ 0 := by
      intro h0
      have ha : a.length = 0 := by omega
      have hb : b.length = 0 := by omega
      exact hne ((List.length_eq_zero.mp ha).trans (List.length_eq_zero.mp hb).symm)
    rw [similarityScoreBinary64_of_contained hne h]
    exact ⟨rfl, containment_score_accuracy _ _ (by omega) hmax⟩
  · have hb2 : (js "" : JSString) ≠ b := Ne.symm hb
    rw [similarityScoreBinary64_of_contained hb2 (Or.inl (by simp [js]))]
    have h0 : (js "").length = 0 := rfl
    rw [h0, Nat.zero_min, Nat.cast_zero, zero_div]
    decide!
  · simp [similarityScoreBinary64]
  · decide!

/-- A concrete instance of the containment rule of the amended C5. -/
theorem similarityScoreBinary64_containment_witness :
    js "ab" ≠ js "abc" ∧ (js "ab" <:+: js "abc" ∨ js "abc" <:+: js "ab") ∧
      similarityScoreBinary64 (js "ab") (js "abc") =
        binary64 (binary64 0.8 +
          binary64 (binary64 (((min (js "ab").length (js "abc").length : ℕ) : ℚ) /
            ((max (js "ab").length (js "abc").length : ℕ) : ℚ)) * binary64 0.2)) ∧
      |similarityScoreBinary64 (js "ab") (js "abc") -
        (0.8 + 0.2 * ((min (js "ab").length (js "abc").length : ℕ) : ℚ) /
          ((max (js "ab").length (js "abc").length : ℕ) : ℚ))| ≤ 1 / 2 ^ 51 :=
  ⟨by decide, Or.inl (by decide),
    similarityScoreBinary64_containment.1 (js "ab") (js "abc") (by decide)
      (Or.inl (by decide))⟩

/-! ## The best match with the binary64 score -/

/-- The invariant of the `forEach` of `findBestMatch`, with the binary64 score:
`bestScore` bounds the scores seen so far, and `bestMatch` is the first row that reaches it. -/
theorem findBestMatchBinary64_fold_inv (icpID : JSString) (rows : List Row) :
    0 ≤ (rows.foldl (findBestMatchStepBinary64 (normalizeID icpID)) (0, none)).1 ∧
    (∀ x ∈ rows, sampleID x ≠ [] →
      rowScoreBinary64 icpID x ≤ (rows.foldl (findBestMatchStepBinary64 (normalizeID icpID)) (0, none)).1) ∧
    ((rows.foldl (findBestMatchStepBinary64 (normalizeID icpID)) (0, none)).2 = none →
      (rows.foldl (findBestMatchStepBinary64 (normalizeID icpID)) (0, none)).1 = 0) ∧
    (∀ bm, (rows.foldl (findBestMatchStepBinary64 (normalizeID icpID)) (0, none)).2 = some bm →
      (rows.foldl (findBestMatchStepBinary64 (normalizeID icpID)) (0, none)).1 = bm.score ∧
        0 < bm.score ∧
        ∃ pre r post, rows = pre ++ r :: post ∧ sampleID r ≠ [] ∧ bm.id = sampleID r ∧
          bm.score = rowScoreBinary64 icpID r ∧
          ∀ x ∈ pre, sampleID x ≠ [] → rowScoreBinary64 icpID x < bm.score) := by
  induction rows using List.reverseRecOn with
  | nil => simp
  | append_singleton l a ih =>
    obtain ⟨h0, hle, hnone, hsome⟩ := ih
    rw [List.foldl_append, List.foldl_cons, List.foldl_nil]
    generalize l.foldl (findBestMatchStepBinary64 (normalizeID icpID)) (0, none) = st at h0 hle hnone hsome
    by_cases hid : sampleID a = []
    · have hstep : findBestMatchStepBinary64 (normalizeID icpID) st a = st := by
        simp only [findBestMatchStepBinary64]
        exact if_pos hid
      rw [hstep]
      refine ⟨h0, ?_, hnone, ?_⟩
      · intro x hx hv
        rcases List.mem_append.mp hx with hx | hx
        · exact hle x hx hv
        · rw [List.mem_singleton.mp hx] at hv
          exact absurd hid hv
      · intro bm hbm
        obtain ⟨h1, h2, pre, r, post, hsplit, hr, hidr, hsc, hpre⟩ := hsome bm hbm
        exact ⟨h1, h2, pre, r, post ++ [a], by rw [hsplit]; simp, hr, hidr, hsc, hpre⟩
    · by_cases hgt : rowScoreBinary64 icpID a > st.1
      · have hstep : findBestMatchStepBinary64 (normalizeID icpID) st a =
            (rowScoreBinary64 icpID a, some ⟨sampleID a, rowScoreBinary64 icpID a⟩) := by
          simp only [findBestMatchStepBinary64]
          exact (if_neg hid).trans (if_pos hgt)
        rw [hstep]
        refine ⟨le_of_lt (lt_of_le_of_lt h0 hgt), ?_, by simp, ?_⟩
        · intro x hx hv
          rcases List.mem_append.mp hx with hx | hx
          · exact le_of_lt (lt_of_le_of_lt (hle x hx hv) hgt)
          · rw [List.mem_singleton.mp hx]
        · intro bm hbm
          have hbm2 : bm = ⟨sampleID a, rowScoreBinary64 icpID a⟩ := (Option.some.inj hbm).symm
          subst hbm2
          exact ⟨rfl, lt_of_le_of_lt h0 hgt, l, a, [], rfl, hid, rfl, rfl,
            fun x hx hv => lt_of_le_of_lt (hle x hx hv) hgt⟩
      · have hstep : findBestMatchStepBinary64 (normalizeID icpID) st a = st := by
          simp only [findBestMatchStepBinary64]
          exact (if_neg hid).trans (if_neg hgt)
        rw [hstep]
        refine ⟨h0, ?_, hnone, ?_⟩
        · intro x hx hv
          rcases List.mem_append.mp hx with hx | hx
          · exact hle x hx hv
          · rw [List.mem_singleton.mp hx]
            exact not_lt.mp hgt
        · intro bm hbm
          obtain ⟨h1, h2, pre, r, post, hsplit, hr, hidr, hsc, hpre⟩ := hsome bm hbm
          exact ⟨h1, h2, pre, r, post ++ [a], by rw [hsplit]; simp, hr, hidr, hsc, hpre⟩

/-- C9: with the score that the code computes in binary64, `findBestMatch`
returns the identifier and the score of the first row, in list order, whose
score is the maximum over the rows with a non-empty trimmed `'Sample ID'`; it
returns `null` exactly when no such row has a positive score.
`findBestSampleMatch` is the same function. -/
theorem findBestMatchBinary64_is_first_maximum (icpID : JSString) (mainData : List Row) :
    (findBestMatchBinary64 icpID mainData = none ↔
      ∀ r ∈ mainData, sampleID r ≠ js "" → ¬ 0 < rowScoreBinary64 icpID r) ∧
    (∀ bm, findBestMatchBinary64 icpID mainData = some bm →
      ∃ pre r post, mainData = pre ++ r :: post ∧ sampleID r ≠ js "" ∧
        bm.id = sampleID r ∧ bm.score = rowScoreBinary64 icpID r ∧
        (∀ x ∈ mainData, sampleID x ≠ js "" → rowScoreBinary64 icpID x ≤ bm.score) ∧
        (∀ x ∈ pre, sampleID x ≠ js "" → rowScoreBinary64 icpID x < bm.score)) ∧
    findBestSampleMatchBinary64 icpID mainData = findBestMatchBinary64 icpID mainData := by
  obtain ⟨h0, hle, hnone, hsome⟩ := findBestMatchBinary64_fold_inv icpID mainData
  have hjs : js "" = ([] : JSString) := rfl
  rw [hjs]
  refine ⟨⟨fun h r hr hv => ?_, fun h => ?_⟩, fun bm hbm => ?_, rfl⟩
  · have := hle r hr hv
    rw [hnone h] at this
    exact not_lt.mpr this
  · cases hres : findBestMatchBinary64 icpID mainData with
    | none => rfl
    | some bm =>
      obtain ⟨h1, h2, pre, r, post, hsplit, hr, hidr, hsc, hpre⟩ := hsome bm hres
      have hmem : r ∈ mainData := by rw [hsplit]; simp
      rw [hsc] at h2
      exact absurd h2 (h r hmem hr)
  · obtain ⟨h1, h2, pre, r, post, hsplit, hr, hidr, hsc, hpre⟩ := hsome bm hbm
    refine ⟨pre, r, post, hsplit, hr, hidr, hsc, fun x hx hv => ?_, hpre⟩
    rw [← h1]
    exact hle x hx hv


/-- An instance of C9. Against `abcdefghx` and `abcd` the identifier `abcdefghi`
finds `abcd`, whose score `0.888888888888889` is above the score
`0.8888888888888888` of `abcdefghx` (the two are equal in exact arithmetic);
against `abcdefghx`, an empty identifier and `abcdefghy` it finds `abcdefghx`,
the first of the two records with the maximum score. -/
theorem findBestMatchBinary64_is_first_maximum_witness :
    rowScoreBinary64 (js "abcdefghi") [(js "Sample ID", Value.str (js "abcdefghx"))] =
        2001599834386887 / 2251799813685248 ∧
      rowScoreBinary64 (js "abcdefghi") [(js "Sample ID", Value.str (js "abcdefghy"))] =
        2001599834386887 / 2251799813685248 ∧
      findBestMatchBinary64 (js "abcdefghi") canonicalNearTie =
        some ⟨js "abcd", 8006399337547549 / 9007199254740992⟩ ∧
      (∃ pre r post, canonicalNearTie = pre ++ r :: post ∧ sampleID r ≠ js "" ∧
        js "abcd" = sampleID r ∧
        8006399337547549 / 9007199254740992 = rowScoreBinary64 (js "abcdefghi") r ∧
        (∀ x ∈ canonicalNearTie, sampleID x ≠ js "" →
          rowScoreBinary64 (js "abcdefghi") x ≤ 8006399337547549 / 9007199254740992) ∧
        (∀ x ∈ pre, sampleID x ≠ js "" →
          rowScoreBinary64 (js "abcdefghi") x < 8006399337547549 / 9007199254740992)) ∧
      findBestMatchBinary64 (js "abcdefghi") canonicalTies =
        some ⟨js "abcdefghx", 2001599834386887 / 2251799813685248⟩ ∧
      (∃ pre r post, canonicalTies = pre ++ r :: post ∧ sampleID r ≠ js "" ∧
        js "abcdefghx" = sampleID r ∧
        2001599834386887 / 2251799813685248 = rowScoreBinary64 (js "abcdefghi") r ∧
        (∀ x ∈ canonicalTies, sampleID x ≠ js "" →
          rowScoreBinary64 (js "abcdefghi") x ≤ 2001599834386887 / 2251799813685248) ∧
        (∀ x ∈ pre, sampleID x ≠ js "" →
          rowScoreBinary64 (js "abcdefghi") x < 2001599834386887 / 2251799813685248)) :=
  ⟨by decide!, by decide!, by decide!,
    (findBestMatchBinary64_is_first_maximum (js "abcdefghi") canonicalNearTie).2.1
      ⟨js "abcd", 8006399337547549 / 9007199254740992⟩ (by decide!),
    by decide!,
    (findBestMatchBinary64_is_first_maximum (js "abcdefghi") canonicalTies).2.1
      ⟨js "abcdefghx", 2001599834386887 / 2251799813685248⟩ (by decide!)⟩

/-! ## The concentration column, for every `toLowerCase` -/

theorem findConcentrationColumn_eq_with (columns : List JSString) (intensityCol : JSString) :
    findConcentrationColumn columns intensityCol =
      findConcentrationColumnWith toLowerCase columns intensityCol := rfl

theorem extractCalibrationPoints_eq_with (standardsData : List StandardRow)
    (intensityCol : JSString) :
    extractCalibrationPoints standardsData intensityCol =
      extractCalibrationPointsWith toLowerCase standardsData intensityCol := rfl

theorem hasConc_lower_iff (lower : JSString → JSString) (c : JSString) :
    hasConc (lower c) = true ↔ HasConcentrationIndicator lower c := by
  simp only [hasConc, HasConcentrationIndicator, LowerCaseContains, Bool.or_eq_true, includes_iff, or_assoc]

theorem ne_nil_of_hasConc_lower {lower : JSString → JSString}
    (hlower : ∀ s, (lower s).isEmpty = s.isEmpty) {c : JSString}
    (h : hasConc (lower c) = true) : c.isEmpty = false := by
  rw [← hlower c]
  cases hc : lower c with
  | nil =>
    rw [hc] at h
    exact absurd h (by decide)
  | cons x t => rfl

theorem matchesBaseNameWith_iff (lower : JSString → JSString)
    (hlower : ∀ s, (lower s).isEmpty = s.isEmpty) (intensityCol c : JSString) :
    matchesBaseNameWith lower (baseNameOf intensityCol) c = true ↔
      BaseNameRule lower intensityCol c := by
  have hjs : js "" = ([] : JSString) := rfl
  simp only [matchesBaseNameWith, BaseNameRule, Bool.and_eq_true, hasConc_lower_iff,
    includes_iff, LowerCaseContains, hlower, Bool.not_eq_true', hjs]
  constructor
  · rintro ⟨h1, h2, h3⟩
    exact ⟨h1, fun h => by rw [h] at h2; exact absurd h2 (by decide), h3⟩
  · rintro ⟨h1, h2, h3⟩
    refine ⟨h1, ?_, h3⟩
    cases hb : baseNameOf intensityCol with
    | nil => exact absurd hb h2
    | cons x t => rfl

theorem matchesElementWith_iff (lower : JSString → JSString) (element c : JSString) :
    matchesElementWith lower element c = true ↔
      LowerCaseContains lower c (lower element) ∧ HasConcentrationIndicator lower c ∧
        ¬ LowerCaseContains lower c (js "inten") ∧ ¬ LowerCaseContains lower c (js "cps") := by
  simp only [matchesElementWith, Bool.and_eq_true, hasConc_lower_iff, includes_iff,
    LowerCaseContains, Bool.not_eq_true', and_assoc, ← Bool.not_eq_true]

theorem findConcentrationColumnWith_of_baseName {lower : JSString → JSString}
    (hlower : ∀ s, (lower s).isEmpty = s.isEmpty) {columns : List JSString}
    {intensityCol c : JSString}
    (h : columns.find? (matchesBaseNameWith lower (baseNameOf intensityCol)) = some c) :
    findConcentrationColumnWith lower columns intensityCol = some c := by
  have hc : matchesBaseNameWith lower (baseNameOf intensityCol) c = true := List.find?_some h
  have hne : c.isEmpty = false := by
    simp only [matchesBaseNameWith, Bool.and_eq_true] at hc
    exact ne_nil_of_hasConc_lower hlower hc.1
  simp [findConcentrationColumnWith, h, isMissing, hne]

theorem findConcentrationColumnWith_of_none {lower : JSString → JSString}
    (hlower : ∀ s, (lower s).isEmpty = s.isEmpty) {columns : List JSString}
    {intensityCol : JSString}
    (h : columns.find? (matchesBaseNameWith lower (baseNameOf intensityCol)) = none) :
    findConcentrationColumnWith lower columns intensityCol =
      match leadingElement intensityCol with
      | some element => columns.find? (matchesElementWith lower element)
      | none => none := by
  cases hel : leadingElement intensityCol with
  | none => simp [findConcentrationColumnWith, h, isMissing, hel]
  | some element =>
    cases hf : columns.find? (matchesElementWith lower element) with
    | none => simp [findConcentrationColumnWith, h, isMissing, hel, hf]
    | some c =>
      have hc : matchesElementWith lower element c = true := List.find?_some hf
      have hne : c.isEmpty = false := by
        simp only [matchesElementWith, Bool.and_eq_true] at hc
        exact ne_nil_of_hasConc_lower hlower hc.1.1.2
      simp [findConcentrationColumnWith, h, isMissing, hel, hf, hne]

/-- C13: for every function `lower` that, like `String.prototype.toLowerCase`,
maps only the empty string to the empty string, `extractCalibrationPoints` uses
the first column that has a concentration indicator and contains the non-empty
base name of the intensity column; failing that, the first column that contains
the leading element token of the intensity column and a concentration indicator
and neither `inten` nor `cps`; when no column satisfies either rule it returns
the empty list. -/
theorem findConcentrationColumnWith_rules (lower : JSString → JSString)
    (hlower : ∀ s, (lower s).isEmpty = s.isEmpty) (standardsData : List StandardRow)
    (intensityCol : JSString) :
    (∀ c, IsFirstColumn (BaseNameRule lower intensityCol)
        (standardsColumns standardsData) c →
      findConcentrationColumnWith lower (standardsColumns standardsData) intensityCol =
        some c) ∧
    ((∀ x ∈ standardsColumns standardsData, ¬ BaseNameRule lower intensityCol x) →
      ∀ c, IsFirstColumn (ElementRule lower intensityCol)
          (standardsColumns standardsData) c →
        findConcentrationColumnWith lower (standardsColumns standardsData) intensityCol =
          some c) ∧
    ((∀ x ∈ standardsColumns standardsData,
        ¬ BaseNameRule lower intensityCol x ∧ ¬ ElementRule lower intensityCol x) →
      findConcentrationColumnWith lower (standardsColumns standardsData) intensityCol = none ∧
        extractCalibrationPointsWith lower standardsData intensityCol = []) := by
  refine ⟨fun c hc => ?_, fun hnone c hc => ?_, fun hnone => ?_⟩
  · exact findConcentrationColumnWith_of_baseName hlower
      (find?_of_isFirstColumn (matchesBaseNameWith_iff lower hlower intensityCol) hc)
  · have hfirst : (standardsColumns standardsData).find?
        (matchesBaseNameWith lower (baseNameOf intensityCol)) = none := by
      rw [List.find?_eq_none]
      intro x hx
      rw [matchesBaseNameWith_iff lower hlower]
      exact hnone x hx
    rw [findConcentrationColumnWith_of_none hlower hfirst]
    obtain ⟨pre, post, hsplit, ⟨element, hel, hrule⟩, hpre⟩ := hc
    rw [hel]
    refine find?_of_isFirstColumn (P := fun x => LowerCaseContains lower x (lower element) ∧
      HasConcentrationIndicator lower x ∧ ¬ LowerCaseContains lower x (js "inten") ∧
      ¬ LowerCaseContains lower x (js "cps")) (matchesElementWith_iff lower element)
      ⟨pre, post, hsplit, hrule, fun x hx hx2 => hpre x hx ⟨element, hel, hx2⟩⟩
  · have hfirst : (standardsColumns standardsData).find?
        (matchesBaseNameWith lower (baseNameOf intensityCol)) = none := by
      rw [List.find?_eq_none]
      intro x hx
      rw [matchesBaseNameWith_iff lower hlower]
      exact (hnone x hx).1
    have hres : findConcentrationColumnWith lower (standardsColumns standardsData)
        intensityCol = none := by
      rw [findConcentrationColumnWith_of_none hlower hfirst]
      cases hel : leadingElement intensityCol with
      | none => rfl
      | some element =>
        show (standardsColumns standardsData).find? (matchesElementWith lower element) = none
        rw [List.find?_eq_none]
        intro x hx
        rw [matchesElementWith_iff]
        exact fun h => (hnone x hx).2 ⟨element, hel, h⟩
    exact ⟨hres, by simp [extractCalibrationPointsWith, hres]⟩

/-- An instance of C13 with the lower-casing of ASCII strings. In the
three-standards table `Ba ppm` is the first column with a concentration
indicator and the base name `Ba` of `Ba Intensity`. In the two-channel table no
column contains the base name `Ba 233` of `Ba 233 Intensity`, and `Ba ppm` is the
first column with the element `Ba` and a concentration indicator. In the table
without a concentration column no column satisfies either rule and the result
is the empty list. -/
theorem findConcentrationColumnWith_rules_witness :
    (IsFirstColumn (BaseNameRule toLowerCase (js "Ba Intensity"))
        (standardsColumns threeStandards) (js "Ba ppm") ∧
      findConcentrationColumnWith toLowerCase (standardsColumns threeStandards)
        (js "Ba Intensity") = some (js "Ba ppm")) ∧
    ((∀ x ∈ standardsColumns twoChannelStandards,
        ¬ BaseNameRule toLowerCase (js "Ba 233 Intensity") x) ∧
      IsFirstColumn (ElementRule toLowerCase (js "Ba 233 Intensity"))
        (standardsColumns twoChannelStandards) (js "Ba ppm") ∧
      findConcentrationColumnWith toLowerCase (standardsColumns twoChannelStandards)
        (js "Ba 233 Intensity") = some (js "Ba ppm")) ∧
    ((∀ x ∈ standardsColumns standardsWithoutConcentration,
        ¬ BaseNameRule toLowerCase (js "Ba Intensity") x ∧
          ¬ ElementRule toLowerCase (js "Ba Intensity") x) ∧
      findConcentrationColumnWith toLowerCase (standardsColumns standardsWithoutConcentration)
        (js "Ba Intensity") = none ∧
      extractCalibrationPointsWith toLowerCase standardsWithoutConcentration
        (js "Ba Intensity") = []) :=
  have hbase : ∀ intensityCol x, BaseNameRule toLowerCase intensityCol x ↔
      matchesBaseNameWith toLowerCase (baseNameOf intensityCol) x = true :=
    fun intensityCol x =>
      (matchesBaseNameWith_iff toLowerCase toLowerCase_isEmpty intensityCol x).symm
  have helem : ∀ intensityCol element x, leadingElement intensityCol = some element →
      (ElementRule toLowerCase intensityCol x ↔
        matchesElementWith toLowerCase element x = true) :=
    fun intensityCol element x hel => by
      rw [matchesElementWith_iff]
      constructor
      · rintro ⟨e, he, h⟩
        rw [hel] at he
        rw [Option.some.inj he]
        exact h
      · exact fun h => ⟨element, hel, h⟩
  have h1 : IsFirstColumn (BaseNameRule toLowerCase (js "Ba Intensity"))
      (standardsColumns threeStandards) (js "Ba ppm") :=
    ⟨[js "Label"], [js "Ba Intensity"], by decide,
      (hbase (js "Ba Intensity") (js "Ba ppm")).mpr (by decide),
      fun x hx => by
        rw [List.mem_singleton.mp hx, hbase]
        decide⟩
  have h2 : ∀ x ∈ standardsColumns twoChannelStandards,
      ¬ BaseNameRule toLowerCase (js "Ba 233 Intensity") x := fun x hx => by
    rw [hbase]
    revert x
    decide
  have h3 : IsFirstColumn (ElementRule toLowerCase (js "Ba 233 Intensity"))
      (standardsColumns twoChannelStandards) (js "Ba ppm") :=
    ⟨[js "Label"], [js "Ba 233 Intensity", js "Ba 455 Intensity"], by decide,
      (helem (js "Ba 233 Intensity") (js "Ba") (js "Ba ppm") (by decide)).mpr (by decide),
      fun x hx => by
        rw [List.mem_singleton.mp hx, helem (js "Ba 233 Intensity") (js "Ba") _ (by decide)]
        decide⟩
  have h4 : ∀ x ∈ standardsColumns standardsWithoutConcentration,
      ¬ BaseNameRule toLowerCase (js "Ba Intensity") x ∧
        ¬ ElementRule toLowerCase (js "Ba Intensity") x := fun x hx => by
    rw [hbase, helem (js "Ba Intensity") (js "Ba") _ (by decide)]
    revert x
    decide
  ⟨⟨h1, (findConcentrationColumnWith_rules toLowerCase toLowerCase_isEmpty threeStandards
      (js "Ba Intensity")).1 _ h1⟩,
    ⟨h2, h3, (findConcentrationColumnWith_rules toLowerCase toLowerCase_isEmpty
      twoChannelStandards (js "Ba 233 Intensity")).2.1 h2 _ h3⟩,
    ⟨h4, (findConcentrationColumnWith_rules toLowerCase toLowerCase_isEmpty
      standardsWithoutConcentration (js "Ba Intensity")).2.2 h4⟩⟩

end DataDashboard
